import Mathlib

/-!
# Altera Avalon LCD 16207 terminal driver (`altera_avalon_lcd_16207.c`)

A shallow embedding of the driver: the device structure `alt_LCD_16207_dev`
becomes the record `Dev`, every C function becomes a Lean function of the same
name on `Dev`, and the claims about the driver are theorems on these functions.

Conventions of the embedding.

* `ALT_LCD_HEIGHT = 2`, `ALT_LCD_WIDTH = 16`, `ALT_LCD_VIRTUAL_WIDTH = 80` are
  written as the numerals `2`, `16`, `80`; a row's `data` array has
  `ALT_LCD_VIRTUAL_WIDTH + 1 = 81` cells and `escape` has `8`.
* Arrays are functions from `Fin n`, so every index carries its bound.  Where
  the C code computes an index at run time that can leave the array
  (`line[dev->y]`, `data[(x + offset) % width]`, `*ptr` while scanning
  `escape`), or divides by zero, the embedded function returns `none`: the C
  behaviour is undefined there.
* `unsigned char` fields (`x`, `y`, `speed`) are `Nat`, reduced modulo `256`
  where the C code converts into them.  Plain `char` fields (`address`,
  `esccount`, `scrollpos`, `scrollmax`, `width`) are `Int`, reduced into
  `-128 .. 127` by `to_char` where the converted value can leave that range.
  Plain `char` is signed on the Nios II target, and the driver relies on it:
  `esccount = -1` marks the normal parser state and is tested by
  `esccount >= 0`.
* `broken` and `active` are only ever assigned `0`/`1` and tested for being
  non-zero; they are `Bool`.
* Characters and input bytes are `Nat` (their byte value).
* The LCD controller is seen through its three registers.  A read of the
  status register is a poll: `busy k` is the busy bit returned by the `k`-th
  poll since power-up and `Dev.polls` counts the polls made so far.  Writes
  to the command and data registers are appended to `Dev.log`.
* `Dev.scrolls` is a ghost counter of the calls of `lcd_scroll_up`.
* `usleep` and the semaphore `write_lock` (`ALT_SEM_PEND`/`ALT_SEM_POST`) have
  no effect on the state that is modelled.
* The timer interrupt runs `alt_lcd_16207_timeout` to its end before the
  foreground resumes.  `run_events` takes the interrupts between the calls of
  the foreground; `alt_lcd_16207_write_irq` takes them inside a write, at the
  points listed with `Turn`.
-/

namespace Lcd16207

/-- A write to one of the two write-only registers of the controller. -/
inductive PortOp where
  | command (b : Nat)
  | data (b : Nat)
  deriving DecidableEq, Repr

/-- One element of `dev->line[]`. -/
@[ext]
structure Line where
  visible : Fin 16 → Nat
  data : Fin 81 → Nat
  width : Int
  speed : Nat

/-- The device structure `alt_LCD_16207_dev`, the controller's poll counter
and transfer log, and the ghost counter of scroll-ups. -/
@[ext]
structure Dev where
  broken : Bool
  x : Nat
  y : Nat
  address : Int
  esccount : Int
  scrollpos : Int
  scrollmax : Int
  active : Bool
  escape : Fin 8 → Nat
  line : Fin 2 → Line
  polls : Nat
  log : List PortOp
  scrolls : Nat

/-- Conversion of an `int` to (signed) `char`. -/
def to_char (v : Int) : Int := (v + 128) % 256 - 128

/-- Conversion of an `int` to `unsigned char`. -/
def to_uchar (v : Int) : Nat := (v % 256).toNat

/-- The array `a` with cell `i` set to `v`. -/
def upd {n : Nat} (a : Fin n → Nat) (i : Fin n) (v : Nat) : Fin n → Nat :=
  fun j => if j = i then v else a j

/-- The array `dev->line` with row `y` replaced by `l`. -/
def set_line (line : Fin 2 → Line) (y : Fin 2) (l : Line) : Fin 2 → Line :=
  fun j => if j = y then l else line j

/-- Library function `isdigit` of `<ctype.h>`. -/
def isdigit (c : Nat) : Bool := decide (48 ≤ c) && decide (c ≤ 57)

/-- Library function `isprint` of `<ctype.h>` in the C locale. -/
def isprint (c : Nat) : Bool := decide (32 ≤ c) && decide (c ≤ 126)

/-- The loop `for (k = 0 ; k < n ; k++) body`, for `n` at most the bound `N` of
the index; it stops with `none` as soon as the body does. -/
def for_upto {N : Nat} (body : Dev → Fin N → Option Dev) :
    (n : Nat) → n ≤ N → Dev → Option Dev
  | 0, _, dev => some dev
  | n + 1, h, dev =>
    (for_upto body n (Nat.le_of_succ_le h) dev).bind
      (fun d => body d ⟨n, Nat.lt_of_succ_le h⟩)

/-- The busy-wait loop of `lcd_write_command` and `lcd_write_data`:
`while (STATUS & BUSY) if (--i == 0) { broken = 1; return; }`.
The first argument is the counter `i`, the second the number of polls made so
far.  The result is `(true, polls)` when a poll found the controller ready and
`(false, polls)` when the counter reached zero.  The counter starts at
`1000000`, so the case `i = 0` before a poll is never reached. -/
def lcd_wait (busy : Nat → Bool) : Nat → Nat → Bool × Nat
  | 0, p => (false, p)
  | i + 1, p =>
    if busy p then
      if i = 0 then (false, p + 1) else lcd_wait busy i (p + 1)
    else (true, p + 1)

/-- Source function `lcd_write_command`. -/
def lcd_write_command (busy : Nat → Bool) (dev : Dev) (command : Nat) : Dev :=
  if dev.broken then dev
  else
    let r := lcd_wait busy 1000000 dev.polls
    if r.1 then
      { dev with polls := r.2, log := dev.log ++ [PortOp.command command] }
    else { dev with broken := true, polls := r.2 }

/-- Source function `lcd_write_data`. -/
def lcd_write_data (busy : Nat → Bool) (dev : Dev) (data : Nat) : Dev :=
  if dev.broken then dev
  else
    let r := lcd_wait busy 1000000 dev.polls
    if r.1 then
      { dev with polls := r.2, log := dev.log ++ [PortOp.data data],
                 address := to_char (dev.address + 1) }
    else { dev with broken := true, polls := r.2 }

/-- Source function `lcd_clear_screen`; the two `memset`s cover the whole
`data` (81 cells) and `visible` (16 cells) arrays of each row. -/
def lcd_clear_screen (busy : Nat → Bool) (dev : Dev) : Dev :=
  let dev := lcd_write_command busy dev 0x01
  { dev with
    x := 0, y := 0, address := 0,
    line := fun y =>
      { visible := fun _ => 32, data := fun _ => 32, width := 0,
        speed := (dev.line y).speed } }

/-- The table `colstart`, for the two rows of the panel. -/
def colstart (y : Fin 2) : Nat := if y = 0 then 0x00 else 0x40

/-- The character `dev->line[y].data[(x + offset) % width]` read by
`lcd_repaint_screen`; `none` when `width` is zero or the index falls outside
the 81 cells of `data`. -/
def repaint_char (dev : Dev) (y : Fin 2) (width offset : Int) (x : Fin 16) :
    Option Nat :=
  if width = 0 then none
  else
    if h : 0 ≤ Int.tmod (x.val + offset) width ∧ Int.tmod (x.val + offset) width < 81 then
      some ((dev.line y).data ⟨(Int.tmod (x.val + offset) width).toNat, by omega⟩)
    else none

/-- The body of the inner loop of `lcd_repaint_screen`, for column `x` of row
`y`. -/
def repaint_cell (busy : Nat → Bool) (y : Fin 2) (width offset : Int)
    (dev : Dev) (x : Fin 16) : Option Dev :=
  (repaint_char dev y width offset x).bind fun c =>
    if (dev.line y).visible x ≠ c then
      let address : Nat := (x.val + colstart y) % 256
      let dev1 :=
        if (address : Int) ≠ dev.address then
          { lcd_write_command busy dev (0x80 ||| address) with address := address }
        else dev
      let dev2 := lcd_write_data busy dev1 c
      some { dev2 with
        line := set_line dev2.line y
          { dev2.line y with visible := upd (dev2.line y).visible x c } }
    else some dev

/-- The body of the outer loop of `lcd_repaint_screen`, for row `y`;
`scrollpos` is the copy of `dev->scrollpos` taken on entry. -/
def repaint_row (busy : Nat → Bool) (scrollpos : Int) (dev : Dev) (y : Fin 2) :
    Option Dev :=
  let width := (dev.line y).width
  let offset := (scrollpos * (dev.line y).speed) / 256
  let offset := if offset ≥ width then 0 else offset
  for_upto (repaint_cell busy y width offset) 16 (Nat.le_refl 16) dev

/-- Source function `lcd_repaint_screen`. -/
def lcd_repaint_screen (busy : Nat → Bool) (dev : Dev) : Option Dev :=
  for_upto (repaint_row busy dev.scrollpos) 2 (Nat.le_refl 2) dev

/-- Source function `lcd_scroll_up`: row 0 receives the first 80 cells of
row 1, the first 80 cells of row 1 are blanked, and `y` is decremented. -/
def lcd_scroll_up (dev : Dev) : Dev :=
  { dev with
    line := fun y =>
      if y = 0 then
        { dev.line 0 with
          data := fun i => if i.val < 80 then (dev.line 1).data i else (dev.line 0).data i }
      else
        { dev.line 1 with
          data := fun i => if i.val < 80 then 32 else (dev.line 1).data i },
    y := (dev.y + 255) % 256,
    scrolls := dev.scrolls + 1 }

/-- The loop `while (dev->y > ALT_LCD_HEIGHT) lcd_scroll_up(dev);`.  Each turn
decrements `y`, so `dev.y` turns are enough fuel (`scroll_while_settles`). -/
def scroll_while : Nat → Dev → Dev
  | 0, dev => dev
  | fuel + 1, dev => if dev.y > 2 then scroll_while fuel (lcd_scroll_up dev) else dev

/-- The loop `while (isdigit(*ptr)) parm = (parm * 10) + (*ptr++ - '0');` of
`lcd_handle_escape`, with `ptr = escape + p`.  It returns the index at which
the scan stopped, the value of the parameter and the character found there;
`none` when the scan runs off the end of `escape`. -/
def scan_digits (escape : Fin 8 → Nat) : Nat → Nat → Int → Option (Nat × Int × Nat)
  | 0, _, _ => none
  | fuel + 1, p, parm =>
    if h : p < 8 then
      if isdigit (escape ⟨p, h⟩) then
        scan_digits escape fuel (p + 1) (parm * 10 + ((escape ⟨p, h⟩ : Int) - 48))
      else some (p, parm, escape ⟨p, h⟩)
    else none

/-- The parameters `parm1`, `parm2` computed at the head of
`lcd_handle_escape`. -/
def escape_parms (escape : Fin 8 → Nat) : Option (Int × Int) :=
  if escape 0 = 91 then
    (scan_digits escape 8 1 0).bind fun r1 =>
      if r1.2.2 = 59 then
        (scan_digits escape 8 (r1.1 + 1) 0).bind fun r2 => some (r1.2.1, r2.2.1)
      else some (r1.2.1, 0)
  else some (-1, 0)

/-- The `memset(dev->line[y].data + dev->x, ' ', 80 - dev->x)` of the `K`
command. -/
def blank_to_eol (dev : Dev) (y : Fin 2) : Dev :=
  { dev with
    line := set_line dev.line y
      { dev.line y with
        data := fun i => if dev.x ≤ i.val ∧ i.val < 80 then 32 else (dev.line y).data i } }

/-- Source function `lcd_handle_escape`. -/
def lcd_handle_escape (busy : Nat → Bool) (dev : Dev) (c : Nat) : Option Dev :=
  (escape_parms dev.escape).bind fun parms =>
    let parm1 := parms.1
    let parm2 := parms.2
    if c = 72 ∨ c = 102 then
      let dev1 := if parm2 > 0 then { dev with x := to_uchar (parm2 - 1) } else dev
      if parm1 > 0 then
        let dev2 := { dev1 with y := to_uchar (parm1 - 1) }
        let dev3 := if dev2.y > 4 then { dev2 with y := 4 } else dev2
        some (scroll_while dev3.y dev3)
      else some dev1
    else if c = 74 then
      if parm1 = 2 then some (lcd_clear_screen busy dev) else some dev
    else if c = 75 then
      if parm1 < 1 then
        if dev.x < 80 then
          if h : dev.y < 2 then some (blank_to_eol dev ⟨dev.y, h⟩) else none
        else some dev
      else some dev
    else some dev

/-- The body of the parse loop of `alt_lcd_16207_write`, for the byte `c`. -/
def write_byte (busy : Nat → Bool) (dev : Dev) (c : Nat) : Option Dev :=
  if dev.esccount ≥ 0 then
    if (dev.esccount = 0 ∧ c ≠ 91) ∨ (dev.esccount > 0 ∧ isdigit c = false ∧ c ≠ 59) then
      if h : dev.esccount.toNat < 8 then
        (lcd_handle_escape busy
            { dev with escape := upd dev.escape ⟨dev.esccount.toNat, h⟩ 0 } c).bind
          fun d => some { d with esccount := -1 }
      else none
    else if h : dev.esccount < 7 then
      some { dev with
        escape := upd dev.escape ⟨dev.esccount.toNat, by omega⟩ c,
        esccount := dev.esccount + 1 }
    else some dev
  else if c = 27 then some { dev with esccount := 0 }
  else if c = 13 then some { dev with x := 0 }
  else if c = 10 then
    let dev1 := { dev with x := 0, y := (dev.y + 1) % 256 }
    if dev1.y > 2 then some (lcd_scroll_up dev1) else some dev1
  else if c = 8 then
    if dev.x > 0 then some { dev with x := dev.x - 1 } else some dev
  else if isprint c then
    let dev1 := if dev.y ≥ 2 then lcd_scroll_up dev else dev
    if hx : dev1.x < 80 then
      if h : dev1.y < 2 then
        some { dev1 with
          line := set_line dev1.line ⟨dev1.y, h⟩
            { dev1.line ⟨dev1.y, h⟩ with
              data := upd (dev1.line ⟨dev1.y, h⟩).data ⟨dev1.x, by omega⟩ c },
          x := (dev1.x + 1) % 256 }
      else none
    else some { dev1 with x := (dev1.x + 1) % 256 }
  else some dev

/-- The parse loop `for ( ; ptr < end ; ptr++)` of `alt_lcd_16207_write`. -/
def write_parse (busy : Nat → Bool) : Dev → List Nat → Option Dev
  | dev, [] => some dev
  | dev, c :: cs => (write_byte busy dev c).bind fun d => write_parse busy d cs

/-- The loop `for (width = 80 ; width > 0 ; width--) if (data[width-1] != ' ')
break;`: the length of the first 80 cells without trailing blanks. -/
def trimmed_width (data : Fin 81 → Nat) : (width : Nat) → width ≤ 80 → Nat
  | 0, _ => 0
  | w + 1, h =>
    if data ⟨w, by omega⟩ ≠ 32 then w + 1 else trimmed_width data w (Nat.le_of_succ_le h)

/-- The width given to a row by the layout step: at least the panel width,
and one more than the trimmed width when that exceeds the panel width. -/
def line_width (data : Fin 81 → Nat) : Int :=
  if trimmed_width data 80 (Nat.le_refl 80) ≤ 16 then 16
  else (trimmed_width data 80 (Nat.le_refl 80) : Int) + 1

/-- The part of `alt_lcd_16207_write` headed "Recalculate the scrolling
parameters", with the loops over the two rows written out. -/
def write_layout (dev : Dev) : Dev :=
  let w : Fin 2 → Int := fun y => line_width (dev.line y).data
  let widthmax0 : Int := if (16 : Int) < w 0 then w 0 else 16
  let widthmax1 : Int := if widthmax0 < w 1 then w 1 else widthmax0
  if widthmax1 ≤ 16 then
    { dev with
      line := fun y =>
        { visible := (dev.line y).visible, data := (dev.line y).data,
          width := w y, speed := 0 },
      scrollmax := 0 }
  else
    { dev with
      line := fun y =>
        { visible := (dev.line y).visible, data := (dev.line y).data,
          width := w y,
          speed := if w y > 16 then to_uchar (256 * w y / (widthmax1 * 2)) else 0 },
      scrollmax := to_char (widthmax1 * 2) }

/-- The final loop `for ( ; ; )` of `alt_lcd_16207_write`: repaint, clear
`active`, and leave when `scrollpos` is what it was before the repaint.  The
first argument bounds the number of turns. -/
def write_repaint (busy : Nat → Bool) : Nat → Dev → Option Dev
  | 0, _ => none
  | fuel + 1, dev =>
    (lcd_repaint_screen busy dev).bind fun d =>
      if d.scrollpos = dev.scrollpos then some { d with active := false }
      else write_repaint busy fuel { d with active := true }

/-- Source function `alt_lcd_16207_write`; the result is the device and the
returned count.  With no timer interrupt during the call the repaint loop
leaves after its first turn (`write_repaint_one`). -/
def alt_lcd_16207_write (busy : Nat → Bool) (dev : Dev) (bytes : List Nat) :
    Option (Dev × Nat) :=
  (write_parse busy { dev with active := true } bytes).bind fun d1 =>
    (write_repaint busy 1 (write_layout d1)).bind fun d2 =>
      some (d2, bytes.length)

/-- Source function `alt_lcd_16207_timeout` (the returned period is not
modelled). -/
def alt_lcd_16207_timeout (busy : Nat → Bool) (dev : Dev) : Option Dev :=
  let dev1 :=
    if dev.scrollpos + 1 ≥ dev.scrollmax then { dev with scrollpos := 0 }
    else { dev with scrollpos := dev.scrollpos + 1 }
  if dev1.scrollmax > 0 ∧ dev1.active = false then lcd_repaint_screen busy dev1
  else some dev1

/-- Source function `alt_lcd_16207_init`, applied to the memory `dev` of the
device instance. -/
def alt_lcd_16207_init (busy : Nat → Bool) (dev : Dev) : Dev :=
  let dev0 := { dev with
    broken := false,
    log := dev.log ++ [PortOp.command 0x30, PortOp.command 0x30, PortOp.command 0x30] }
  let dev1 := lcd_write_command busy dev0 0x38
  let dev2 := lcd_write_command busy dev1 0x08
  let dev3 := lcd_clear_screen busy dev2
  let dev4 := lcd_write_command busy dev3 0x06
  let dev5 := lcd_write_command busy dev4 0x0C
  { dev5 with
    esccount := -1, escape := fun _ => 0,
    scrollpos := 0, scrollmax := 0, active := false }

/-- The zero-filled static instance created by
`ALTERA_AVALON_LCD_16207_INSTANCE`, before any poll or transfer. -/
def zero_dev : Dev :=
  { broken := false, x := 0, y := 0, address := 0, esccount := 0,
    scrollpos := 0, scrollmax := 0, active := false,
    escape := fun _ => 0,
    line := fun _ => { visible := fun _ => 0, data := fun _ => 0, width := 0, speed := 0 },
    polls := 0, log := [], scrolls := 0 }

/-- A controller that is ready at every poll. -/
def ready : Nat → Bool := fun _ => false

/-- A controller whose busy bit is stuck. -/
def stuck : Nat → Bool := fun _ => true


/-- The device right after `alt_lcd_16207_init` on the zero-filled instance,
with a controller that is always ready. -/
def fresh : Dev := alt_lcd_16207_init ready zero_dev

/-- The device after a run of printable bytes written from column `dev.x` of
the visible row `dev.y`, when the column counter does not wrap: the closed
form used to describe what `write_parse` does on such a run. -/
def printed (dev : Dev) (bytes : List Nat) : Dev :=
  { dev with
    x := dev.x + bytes.length,
    line := fun r =>
      { dev.line r with
        data := fun col =>
          if r.val = dev.y ∧ dev.x ≤ col.val ∧ col.val < dev.x + bytes.length ∧ col.val < 80
          then bytes.getD (col.val - dev.x) 0
          else (dev.line r).data col } }

/-- The decimal digits of a number below 100, as ASCII bytes and without a
leading zero: the way a row or column parameter is written in an escape
sequence. -/
def decimal (n : Nat) : List Nat :=
  if n < 10 then [48 + n] else [48 + n / 10, 48 + n % 10]

/-- What a repaint leaves alone: `b` differs from `a` at most in the visible
shadows, the tracked address, the controller's polls and log, and in `broken`
having been set. -/
def repaint_frame (a b : Dev) : Prop :=
  b.x = a.x ∧ b.y = a.y ∧ b.esccount = a.esccount ∧ b.scrollpos = a.scrollpos ∧
  b.scrollmax = a.scrollmax ∧ b.active = a.active ∧ b.escape = a.escape ∧
  b.scrolls = a.scrolls ∧
  (∀ r : Fin 2, (b.line r).data = (a.line r).data ∧ (b.line r).width = (a.line r).width ∧
    (b.line r).speed = (a.line r).speed) ∧
  (a.broken = true → b.broken = true)

/-- The scroll offset `lcd_repaint_screen` uses for row `y`. -/
def row_offset (dev : Dev) (y : Fin 2) : Int :=
  if (dev.scrollpos * (dev.line y).speed) / 256 ≥ (dev.line y).width then 0
  else (dev.scrollpos * (dev.line y).speed) / 256

/-- What the Animator and the foreground do to the device between two
re-initialisations. -/
inductive Event where
  | write (bytes : List Nat)
  | tick

/-- The device after a sequence of `alt_lcd_16207_write` calls and
`alt_lcd_16207_timeout` ticks, one after the other. -/
def run_events (busy : Nat → Bool) : Dev → List Event → Option Dev
  | dev, [] => some dev
  | dev, Event.write bytes :: es =>
    (alt_lcd_16207_write busy dev bytes).bind fun r => run_events busy r.1 es
  | dev, Event.tick :: es =>
    (alt_lcd_16207_timeout busy dev).bind fun d => run_events busy d es

/-- The device cannot transfer anything: it is broken already, or its busy
bit is set at every poll still to come. -/
def port_dead (busy : Nat → Bool) (dev : Dev) : Prop :=
  dev.broken = true ∨ ∀ k, busy (dev.polls + k) = true

/-- Nothing was transferred between `a` and `b`, and `b` still cannot
transfer anything. -/
def port_quiet (busy : Nat → Bool) (a b : Dev) : Prop :=
  port_dead busy a → port_dead busy b ∧ b.log = a.log

/-- Reference notion for the layout: `t` is the length of the 80 columns of a
row's virtual data without its trailing blanks.  Every column from `t` on is
blank and, unless `t` is 0, column `t - 1` is not. -/
def is_trimmed_length (data : Fin 81 → Nat) (t : Nat) : Prop :=
  t ≤ 80 ∧ (∀ col : Fin 81, t ≤ col.val → col.val < 80 → data col = 32) ∧
  (∀ col : Fin 81, col.val + 1 = t → data col ≠ 32)

/-- Reference layout: the content width of a row of trimmed length `t`. -/
def ref_width (t : Nat) : Int := if t ≤ 16 then 16 else (t : Int) + 1

/-- Reference layout: the scroll speed of a row of width `w` when the widest
row has width `maxw`. -/
def ref_speed (w maxw : Int) : Int := if w ≤ 16 then 0 else 256 * w / (2 * maxw)

/-- The data bytes among the transfers of a log, in order. -/
def data_bytes : List PortOp → List Nat
  | [] => []
  | PortOp.data b :: ops => b :: data_bytes ops
  | PortOp.command _ :: ops => data_bytes ops

/-- Reference for the repaint: the character to show at physical column `x`
of row `y`, `virtual_data[(x + offset) mod content_width]` with the
mathematical remainder; `none` when that index is outside the row. -/
def ref_char (dev : Dev) (y : Fin 2) (x : Fin 16) : Option Nat :=
  if h : 0 ≤ (x.val + row_offset dev y) % (dev.line y).width ∧
      (x.val + row_offset dev y) % (dev.line y).width < 81 then
    some ((dev.line y).data ⟨((x.val + row_offset dev y) % (dev.line y).width).toNat, by omega⟩)
  else none

/-- Reference for the repaint: the data bytes to transfer for the cell at
column `x` of row `y`: its character if the shadow differs from it, nothing
otherwise. -/
def ref_cell (dev : Dev) (y : Fin 2) (x : Fin 16) : List Nat :=
  match ref_char dev y x with
  | some c => if (dev.line y).visible x ≠ c then [c] else []
  | none => []

/-- Reference for the repaint: the data bytes to transfer for the first `n`
columns of row `y`, in column order. -/
def ref_cols (dev : Dev) (y : Fin 2) : (n : Nat) → n ≤ 16 → List Nat
  | 0, _ => []
  | n + 1, h => ref_cols dev y n (Nat.le_of_succ_le h) ++ ref_cell dev y ⟨n, Nat.lt_of_succ_le h⟩

/-- Reference for the repaint: the data bytes to transfer for the whole
screen, row 0 then row 1. -/
def ref_transfers (dev : Dev) : List Nat :=
  ref_cols dev 0 16 (Nat.le_refl 16) ++ ref_cols dev 1 16 (Nat.le_refl 16)

/-- The terminal model of `b` is that of `a`: the cursor, the parser state,
the scroll counters, `active`, the count of scroll-ups and each row's virtual
data, width and speed agree.  The visible shadows, the tracked address,
`broken` and the controller's polls and log are left out. -/
def same_model (a b : Dev) : Prop :=
  b.x = a.x ∧ b.y = a.y ∧ b.esccount = a.esccount ∧ b.scrollpos = a.scrollpos ∧
  b.scrollmax = a.scrollmax ∧ b.active = a.active ∧ b.escape = a.escape ∧
  b.scrolls = a.scrolls ∧
  (∀ r : Fin 2, (b.line r).data = (a.line r).data ∧ (b.line r).width = (a.line r).width ∧
    (b.line r).speed = (a.line r).speed)

/-- Two runs are both undefined, or both defined with related results. -/
def both (R : Dev → Dev → Prop) : Option Dev → Option Dev → Prop
  | some a, some b => R a b
  | none, none => True
  | _, _ => False

/-- The bounds the driver keeps between the bytes of a write: the cursor row
is at most 2 (the blank row below the panel), the index into `escape` is at
most 7, and the scroll position is not negative. -/
def in_range (dev : Dev) : Prop :=
  dev.y ≤ 2 ∧ dev.esccount ≤ 7 ∧ 0 ≤ dev.scrollpos

/-- The assignment to `dev->scrollpos` at the head of
`alt_lcd_16207_timeout`, for the scroll period `scrollmax`. -/
def next_pos (scrollmax scrollpos : Int) : Int :=
  if scrollpos + 1 ≥ scrollmax then 0 else scrollpos + 1

/-- Source function `alt_lcd_16207_timeout` called `n` times in a row: `n`
timer interrupts taken at one point of the foreground code.  The interrupt
handler runs to its end before the foreground resumes. -/
def ticks (busy : Nat → Bool) : Nat → Dev → Option Dev
  | 0, dev => some dev
  | n + 1, dev => (alt_lcd_16207_timeout busy dev).bind fun d => ticks busy n d

/-- The timer interrupts taken during one turn of the final loop `for ( ; ; )`
of `alt_lcd_16207_write`, by the point of the foreground code at which they
are taken:
* `early`: before `old_scrollpos = dev->scrollpos`;
* `before`: between that statement and the copy
  `scrollpos = dev->scrollpos` at the head of `lcd_repaint_screen`;
* `during y x`: inside the repaint, before the cell at column `x` of row `y`
  is finished (the cells read the copy, never `dev->scrollpos`);
* `after`: between the last cell and `dev->active = 0`;
* `idle`: between `dev->active = 0` and the test
  `dev->scrollpos == old_scrollpos`;
* `late`: between a failed test and `dev->active = 1`. -/
structure Turn where
  early : Nat
  before : Nat
  during : Fin 2 → Fin 16 → Nat
  after : Nat
  idle : Nat
  late : Nat

/-- A turn during which no timer interrupt is taken. -/
def quiet : Turn :=
  { early := 0, before := 0, during := fun _ _ => 0, after := 0, idle := 0, late := 0 }

/-- The loop `for (k = 0 ; k < n ; k++) body` with `irq k` timer interrupts
taken before step `k`. -/
def for_upto_irq {N : Nat} (busy : Nat → Bool) (irq : Fin N → Nat)
    (body : Dev → Fin N → Option Dev) : (n : Nat) → n ≤ N → Dev → Option Dev
  | 0, _, dev => some dev
  | n + 1, h, dev =>
    (for_upto_irq busy irq body n (Nat.le_of_succ_le h) dev).bind fun d =>
      (ticks busy (irq ⟨n, Nat.lt_of_succ_le h⟩) d).bind fun d1 =>
        body d1 ⟨n, Nat.lt_of_succ_le h⟩

/-- The body of the outer loop of `lcd_repaint_screen` with timer interrupts
taken between the cells. -/
def repaint_row_irq (busy : Nat → Bool) (scrollpos : Int) (irq : Fin 16 → Nat)
    (dev : Dev) (y : Fin 2) : Option Dev :=
  let width := (dev.line y).width
  let offset := (scrollpos * (dev.line y).speed) / 256
  let offset := if offset ≥ width then 0 else offset
  for_upto_irq busy irq (repaint_cell busy y width offset) 16 (Nat.le_refl 16) dev

/-- Source function `lcd_repaint_screen` with timer interrupts taken between
the cells. -/
def lcd_repaint_screen_irq (busy : Nat → Bool) (irq : Fin 2 → Fin 16 → Nat)
    (dev : Dev) : Option Dev :=
  (repaint_row_irq busy dev.scrollpos (irq 0) dev 0).bind fun d =>
    repaint_row_irq busy dev.scrollpos (irq 1) d 1

/-- The final loop `for ( ; ; )` of `alt_lcd_16207_write` with timer
interrupts: one element of the list for each turn.  The result is `none` when
the list is used up before the loop is left. -/
def write_repaint_irq (busy : Nat → Bool) : List Turn → Dev → Option Dev
  | [], _ => none
  | t :: ts, dev =>
    (ticks busy t.early dev).bind fun d =>
      (ticks busy t.before d).bind fun d0 =>
        (lcd_repaint_screen_irq busy t.during d0).bind fun d1 =>
          (ticks busy t.after d1).bind fun d2 =>
            (ticks busy t.idle { d2 with active := false }).bind fun d3 =>
              if d3.scrollpos = d.scrollpos then some d3
              else
                (ticks busy t.late d3).bind fun d4 =>
                  write_repaint_irq busy ts { d4 with active := true }

/-- Source function `alt_lcd_16207_write` with timer interrupts: `parsing`
interrupts are taken between `dev->active = 1` and the assignment to
`dev->scrollmax` (the parse loop and the layout neither read nor write
`scrollpos`), the others during the turns of the final loop. -/
def alt_lcd_16207_write_irq (busy : Nat → Bool) (parsing : Nat) (turns : List Turn)
    (dev : Dev) (bytes : List Nat) : Option (Dev × Nat) :=
  (write_parse busy { dev with active := true } bytes).bind fun d1 =>
    (ticks busy parsing d1).bind fun d2 =>
      (write_repaint_irq busy turns (write_layout d2)).bind fun d3 =>
        some (d3, bytes.length)

/-- Every visible shadow holds the character of its row for the current
scroll position. -/
def painted (dev : Dev) : Prop :=
  ∀ (y : Fin 2) (x : Fin 16),
    repaint_char dev y (dev.line y).width (row_offset dev y) x = some ((dev.line y).visible x)

/-- A turn with one interrupt before the repaint, one before column 5 of each
row and one between `dev->active = 0` and the test. -/
def busy_turn : Turn :=
  { early := 0, before := 1, during := fun _ x => if x.val = 5 then 1 else 0, after := 0,
    idle := 1, late := 0 }

/-- The three states of the escape parser named by the specification. -/
inductive ParserState where
  | NORMAL
  | ESCAPE_PENDING
  | CSI_PARAMS
  deriving DecidableEq, Repr

/-- The parser state a device is in: `esccount < 0` outside an escape
sequence, `esccount = 0` right after ESC, `esccount > 0` after `ESC [`. -/
def parser_state (dev : Dev) : ParserState :=
  if dev.esccount < 0 then ParserState.NORMAL
  else if dev.esccount = 0 then ParserState.ESCAPE_PENDING
  else ParserState.CSI_PARAMS

/-- Reference for the escape parser, in the words of the specification: ESC
enters `ESCAPE_PENDING`; there `[` enters `CSI_PARAMS` and any other byte is
dispatched and returns to `NORMAL`; in `CSI_PARAMS` digits and `;` accumulate
and the first other byte is dispatched and returns to `NORMAL`. -/
def ref_parser_step : ParserState → Nat → ParserState
  | ParserState.NORMAL, c =>
    if c = 27 then ParserState.ESCAPE_PENDING else ParserState.NORMAL
  | ParserState.ESCAPE_PENDING, c =>
    if c = 91 then ParserState.CSI_PARAMS else ParserState.NORMAL
  | ParserState.CSI_PARAMS, c =>
    if isdigit c = true ∨ c = 59 then ParserState.CSI_PARAMS else ParserState.NORMAL

/-- What `lcd_repaint_screen` needs of the state it is called on: no row has
width zero (the divisor of `%`), and every index `(x + offset) % width` it
computes lies inside the 81 cells of `data`. -/
def repaint_safe (dev : Dev) : Prop :=
  ∀ y : Fin 2, 0 < (dev.line y).width ∧
    ∀ x : Fin 16, 0 ≤ Int.tmod (x.val + row_offset dev y) (dev.line y).width ∧
      Int.tmod (x.val + row_offset dev y) (dev.line y).width < 81

/-- The text of `b` is that of `a`: the cursor, the parser state, the scroll
position, `active`, the count of scroll-ups and each row's virtual data
agree.  Besides what `same_model` leaves out, the layout (each row's width
and speed, and `scrollmax`) is left out too. -/
def same_text (a b : Dev) : Prop :=
  b.x = a.x ∧ b.y = a.y ∧ b.esccount = a.esccount ∧ b.scrollpos = a.scrollpos ∧
  b.active = a.active ∧ b.escape = a.escape ∧ b.scrolls = a.scrolls ∧
  (∀ r : Fin 2, (b.line r).data = (a.line r).data)

/-! # Theorems -/

/-! ## Single steps of the parser -/

theorem isprint_iff (c : Nat) : isprint c = true ↔ 32 ≤ c ∧ c ≤ 126 := by
  simp [isprint]

/-- One printable byte in the normal parser state on a visible row. -/
theorem write_byte_printable (busy : Nat → Bool) (dev : Dev) (c : Nat)
    (hn : dev.esccount < 0) (hy : dev.y < 2) (hc : 32 ≤ c ∧ c ≤ 126) :
    write_byte busy dev c = some
      (if hx : dev.x < 80 then
        { dev with
          line := set_line dev.line ⟨dev.y, hy⟩
            { dev.line ⟨dev.y, hy⟩ with
              data := upd (dev.line ⟨dev.y, hy⟩).data ⟨dev.x, by omega⟩ c },
          x := (dev.x + 1) % 256 }
      else { dev with x := (dev.x + 1) % 256 }) := by
  have h1 : ¬ dev.esccount ≥ 0 := by omega
  have h2 : c ≠ 27 := by omega
  have h3 : c ≠ 13 := by omega
  have h4 : c ≠ 10 := by omega
  have h5 : c ≠ 8 := by omega
  have h6 : isprint c = true := (isprint_iff c).2 hc
  have h7 : ¬ dev.y ≥ 2 := by omega
  unfold write_byte
  simp only [h1, h2, h3, h4, h5, h6, h7, if_false, if_true, ↓reduceIte]
  by_cases hx : dev.x < 80
  · simp [hx, hy]
  · simp [hx]

theorem getD_cons_sub (c : Nat) (cs : List Nat) (k x : Nat) (h : x + 1 ≤ k) :
    (c :: cs).getD (k - x) 0 = cs.getD (k - (x + 1)) 0 := by
  have : k - x = (k - (x + 1)) + 1 := by omega
  rw [this, List.getD_cons_succ]

theorem write_parse_printable (busy : Nat → Bool) (bytes : List Nat) :
    ∀ (dev : Dev), dev.esccount < 0 → dev.y < 2 →
      (∀ c ∈ bytes, 32 ≤ c ∧ c ≤ 126) → dev.x + bytes.length ≤ 255 →
      write_parse busy dev bytes = some (printed dev bytes) := by
  induction bytes with
  | nil =>
    intro dev _ _ _ _
    simp only [write_parse, printed, List.length_nil, Nat.add_zero]
    congr 1
    ext1 <;> try rfl
    funext r
    ext1 <;> try rfl
    funext col
    simp only
    rw [if_neg (by omega)]
  | cons c cs ih =>
    intro dev hn hy hp hx
    have hc := hp c (List.mem_cons_self c cs)
    have hcs : ∀ c ∈ cs, 32 ≤ c ∧ c ≤ 126 := fun c h => hp c (List.mem_cons_of_mem _ h)
    simp only [List.length_cons] at hx
    have hmod : (dev.x + 1) % 256 = dev.x + 1 := Nat.mod_eq_of_lt (by omega)
    simp only [write_parse, write_byte_printable busy dev c hn hy hc, Option.some_bind]
    by_cases h80 : dev.x < 80
    · simp only [h80, dite_true]
      refine (ih _ ?_ ?_ hcs ?_).trans ?_
      · exact hn
      · exact hy
      · simp only [hmod]; omega
      congr 1
      simp only [printed, hmod, List.length_cons]
      ext1 <;> try rfl
      · show dev.x + 1 + cs.length = dev.x + (cs.length + 1)
        omega
      · funext r
        have hrv : r = ⟨dev.y, hy⟩ ↔ r.val = dev.y := Fin.ext_iff
        refine Line.ext ?_ ?_ ?_ ?_
        · simp only [set_line]; split <;> simp_all
        · funext col
          have hcv : col = ⟨dev.x, by omega⟩ ↔ col.val = dev.x := Fin.ext_iff
          simp only [set_line, upd, hrv, hcv]
          by_cases hr : r.val = dev.y
          · by_cases hcx : col.val = dev.x
            · rw [if_neg (by omega), if_pos hr, if_pos (by omega)]
              simp [upd, hcv, hcx]
            · by_cases hin : dev.x + 1 ≤ col.val ∧ col.val < dev.x + 1 + cs.length ∧ col.val < 80
              · rw [if_pos ⟨hr, hin⟩, if_pos (by omega), getD_cons_sub _ _ _ _ hin.1]
              · rw [if_neg (by tauto), if_pos hr, if_neg (by omega)]
                simp only [upd, hcv, if_neg hcx]
                rw [hrv.2 hr]
          · rw [if_neg (by tauto), if_neg hr, if_neg (by tauto)]
        · simp only [set_line]; split <;> simp_all
        · simp only [set_line]; split <;> simp_all
    · simp only [h80, dite_false]
      refine (ih _ ?_ ?_ hcs ?_).trans ?_
      · exact hn
      · exact hy
      · simp only [hmod]; omega
      congr 1
      simp only [printed, hmod, List.length_cons]
      ext1 <;> try rfl
      · show dev.x + 1 + cs.length = dev.x + (cs.length + 1)
        omega
      · funext r
        ext1 <;> try rfl
        funext col
        simp only
        rw [if_neg (by omega), if_neg (by omega)]

/-! ## C1: a run of printable bytes -/

/-- C1 (amended).  In the parse loop, from the normal parser state with the
cursor on a visible row (`y < 2`) at column `x0`, a run of `n` printable bytes
(0x20..0x7E) with `x0 + n ≤ 255` (the 8-bit column counter does not wrap) is
handled as follows: byte `i` is stored at column `x0 + i` of the current row
whenever `x0 + i < 80`, every other cell of every row keeps its contents (no
byte with `x0 + i ≥ 80` is stored), the row is unchanged and the cursor column
ends at `x0 + n`. -/
theorem C1_printable_run (busy : Nat → Bool) (dev : Dev) (bytes : List Nat)
    (hn : dev.esccount < 0) (hy : dev.y < 2)
    (hp : ∀ c ∈ bytes, 32 ≤ c ∧ c ≤ 126) (hx : dev.x + bytes.length ≤ 255) :
    ∃ d, write_parse busy dev bytes = some d ∧
      d.x = dev.x + bytes.length ∧ d.y = dev.y ∧
      (∀ (i : Nat) (hi : i < bytes.length) (h80 : dev.x + i < 80),
        (d.line ⟨dev.y, hy⟩).data ⟨dev.x + i, by omega⟩ = bytes[i]) ∧
      (∀ (r : Fin 2) (col : Fin 81),
        ¬ (r.val = dev.y ∧ dev.x ≤ col.val ∧ col.val < dev.x + bytes.length ∧ col.val < 80) →
        (d.line r).data col = (dev.line r).data col) := by
  refine ⟨printed dev bytes, write_parse_printable busy bytes dev hn hy hp hx, rfl, rfl, ?_, ?_⟩
  · intro i hi h80
    simp only [printed]
    rw [if_pos ⟨trivial, Nat.le_add_right _ _, by omega, h80⟩]
    simp only [Nat.add_sub_cancel_left]
    exact (List.getD_eq_getElem bytes 0 hi)
  · intro r col hnot
    simp only [printed]
    rw [if_neg hnot]

/-- C1, as stated, fails once the 8-bit column counter wraps: after 256 bytes
`A` and one byte `B` written from column 0 of a fresh display the cursor
column is 1 (not 257), and cell 0 of row 0 holds `B`, the byte with
`x0 + i = 256 ≥ 80`. -/
theorem C1_counterexample :
    (write_parse ready fresh (List.replicate 256 65 ++ [66])).map
      (fun d => (d.x, (d.line 0).data 0)) = some (1, 66) := by
  decide!

/-- C1 (amended) at a concrete input: the bytes `Hi` on a fresh display. -/
theorem C1_witness :
    fresh.esccount < 0 ∧ fresh.y < 2 ∧
    ∃ d, write_parse ready fresh [72, 105] = some d ∧ d.x = fresh.x + 2 :=
  ⟨by decide, by decide,
    (C1_printable_run ready fresh [72, 105] (by decide) (by decide) (by decide) (by decide)).imp
      (fun _ h => ⟨h.1, h.2.1⟩)⟩

/-! ## C2: line feed -/

/-- The line-feed step in the normal parser state. -/
theorem write_byte_lf (busy : Nat → Bool) (dev : Dev) (hn : dev.esccount < 0) :
    write_byte busy dev 10 = some
      (if (dev.y + 1) % 256 > 2 then lcd_scroll_up { dev with x := 0, y := (dev.y + 1) % 256 }
       else { dev with x := 0, y := (dev.y + 1) % 256 }) := by
  have h1 : ¬ dev.esccount ≥ 0 := by omega
  unfold write_byte
  simp only [h1, if_false, ↓reduceIte]
  by_cases h : (dev.y + 1) % 256 > 2 <;> simp [h]

/-- C2.  For every display state in the normal parser state whose cursor row
is below 255, one LF byte sets the cursor column to 0 and increases the cursor
row by one; if the increased row exceeds the visible height 2, exactly one
scroll-up occurs: the virtual data of row 0 (its 80 columns) is replaced by
that of row 1, the virtual data of the last row becomes all blanks, and the
cursor row is decremented by one; otherwise no row changes and no scroll-up
occurs.  Every state the driver reaches from `alt_lcd_16207_init` has its
cursor row at most 2 (`run_events_in_range`, `write_parse_in_range`), so the
bound on the row holds wherever the driver processes a byte. -/
theorem C2_line_feed (busy : Nat → Bool) (dev : Dev)
    (hn : dev.esccount < 0) (hy : dev.y < 255) :
    ∃ d, write_parse busy dev [10] = some d ∧ d.x = 0 ∧
      (dev.y + 1 > 2 →
        d.scrolls = dev.scrolls + 1 ∧ d.y = dev.y + 1 - 1 ∧
        (∀ col : Fin 81, col.val < 80 → (d.line 0).data col = (dev.line 1).data col) ∧
        (∀ col : Fin 81, col.val < 80 → (d.line 1).data col = 32)) ∧
      (¬ dev.y + 1 > 2 →
        d.scrolls = dev.scrolls ∧ d.y = dev.y + 1 ∧ d.line = dev.line) := by
  have hmod : (dev.y + 1) % 256 = dev.y + 1 := Nat.mod_eq_of_lt (by omega)
  simp only [write_parse, write_byte_lf busy dev hn, Option.some_bind, hmod]
  refine ⟨_, rfl, ?_, ?_, ?_⟩
  · split <;> rfl
  · intro h
    rw [if_pos h]
    refine ⟨rfl, ?_, ?_, ?_⟩
    · simp only [lcd_scroll_up]
      omega
    · intro col hc
      simp [lcd_scroll_up, hc]
    · intro col hc
      simp [lcd_scroll_up, hc]
  · intro h
    rw [if_neg h]
    exact ⟨rfl, rfl, rfl⟩

/-- The row counter is 8 bits wide.  In a state the driver never reaches, with
the row counter set to 255, one LF wraps it to 0 and nothing scrolls. -/
theorem line_feed_row_255 :
    (write_parse ready { fresh with y := 255 } [10]).map
      (fun d => (d.y, d.scrolls)) = some (0, 0) := by
  decide!

/-- C2 at concrete inputs.  After `Hi` LF `Yo` LF on the initialised display
the cursor is on row 2 and row 1 holds `Yo`; one more LF scrolls once: column
0 of row 0 is then `Y`, row 0 holds what row 1 held, row 1 is blank and the
cursor is on row 2 again.  One LF on the initialised display, with the cursor
on row 0, moves the cursor to row 1 and changes no row. -/
theorem C2_witness :
    (∃ d0, write_parse ready fresh [72, 105, 10, 89, 111, 10] = some d0 ∧
      d0.esccount < 0 ∧ d0.y = 2 ∧ (d0.line 1).data 0 = 89 ∧
      ∃ d, write_parse ready d0 [10] = some d ∧ d.x = 0 ∧
        d.scrolls = d0.scrolls + 1 ∧ d.y = 2 ∧ (d.line 0).data 0 = 89 ∧
        (∀ col : Fin 81, col.val < 80 → (d.line 0).data col = (d0.line 1).data col) ∧
        (∀ col : Fin 81, col.val < 80 → (d.line 1).data col = 32)) ∧
    (fresh.esccount < 0 ∧ fresh.y = 0 ∧
      ∃ d, write_parse ready fresh [10] = some d ∧ d.x = 0 ∧
        d.scrolls = fresh.scrolls ∧ d.y = 1 ∧ d.line = fresh.line) :=
  ⟨(Option.isSome_iff_exists.1 (by decide! :
      (write_parse ready fresh [72, 105, 10, 89, 111, 10]).isSome = true)).imp
    (fun d0 h => by
      have e : (write_parse ready fresh [72, 105, 10, 89, 111, 10]).map
          (fun d => (d.esccount, d.y, (d.line 1).data 0)) = some (-1, 2, 89) := by decide!
      rw [h] at e
      have e2 := Option.some.inj e
      have he : d0.esccount = -1 := congrArg Prod.fst e2
      have hy : d0.y = 2 := congrArg (fun p => p.2.1) e2
      have hd : (d0.line 1).data 0 = 89 := congrArg (fun p => p.2.2) e2
      obtain ⟨d, h1, h2, h3, _⟩ := C2_line_feed ready d0 (by omega) (by omega)
      obtain ⟨s1, s2, s3, s4⟩ := h3 (by omega)
      exact ⟨h, by omega, hy, hd, d, h1, h2, s1, by omega,
        by rw [s3 0 (by decide), hd], s3, s4⟩),
    by decide, rfl,
    (C2_line_feed ready fresh (by decide) (by decide)).imp
      (fun _ h => ⟨h.1, h.2.1, (h.2.2.2 (by decide)).1, (h.2.2.2 (by decide)).2.1,
        (h.2.2.2 (by decide)).2.2⟩)⟩

/-! ## Escape sequences -/

/-- The byte ESC in the normal parser state opens an escape sequence. -/
theorem write_byte_esc (busy : Nat → Bool) (dev : Dev) (hn : dev.esccount < 0) :
    write_byte busy dev 27 = some { dev with esccount := 0 } := by
  have h1 : ¬ dev.esccount ≥ 0 := by omega
  unfold write_byte
  simp only [h1, if_false, ↓reduceIte]

/-- A byte that continues an escape sequence (`[` right after ESC, a digit or
`;` later) is appended to `escape` while there is room. -/
theorem write_byte_collect (busy : Nat → Bool) (dev : Dev) (c k : Nat)
    (hk : dev.esccount = (k : Int)) (hk7 : k < 7)
    (hc : (k = 0 ∧ c = 91) ∨ (0 < k ∧ (isdigit c = true ∨ c = 59))) :
    write_byte busy dev c = some
      { dev with escape := upd dev.escape ⟨k, by omega⟩ c, esccount := (k : Int) + 1 } := by
  have h1 : dev.esccount ≥ 0 := by omega
  have h2 : ¬ ((dev.esccount = 0 ∧ c ≠ 91) ∨
      (dev.esccount > 0 ∧ isdigit c = false ∧ c ≠ 59)) := by
    rcases hc with ⟨h0, hc⟩ | ⟨h0, hc⟩
    · rintro (⟨_, h⟩ | ⟨h, _⟩)
      · exact h hc
      · omega
    · rintro (⟨h, _⟩ | ⟨_, h, h3⟩)
      · omega
      · rcases hc with hc | hc
        · rw [hc] at h; exact Bool.noConfusion h
        · exact h3 hc
  have h3 : dev.esccount < 7 := by omega
  have h4 : dev.esccount.toNat = k := by omega
  unfold write_byte
  rw [if_pos h1, if_neg h2, dif_pos h3]
  simp only [hk, Int.toNat_ofNat]

/-- A byte that ends an escape sequence is dispatched to `lcd_handle_escape`
after the collected characters have been terminated by a zero. -/
theorem write_byte_dispatch (busy : Nat → Bool) (dev : Dev) (c k : Nat)
    (hk : dev.esccount = (k : Int)) (hk8 : k < 8)
    (hc : (k = 0 ∧ c ≠ 91) ∨ (0 < k ∧ isdigit c = false ∧ c ≠ 59)) :
    write_byte busy dev c =
      (lcd_handle_escape busy { dev with escape := upd dev.escape ⟨k, hk8⟩ 0 } c).bind
        fun d => some { d with esccount := -1 } := by
  have h1 : dev.esccount ≥ 0 := by omega
  have h2 : ((dev.esccount = 0 ∧ c ≠ 91) ∨
      (dev.esccount > 0 ∧ isdigit c = false ∧ c ≠ 59)) := by
    rcases hc with ⟨h0, hc⟩ | ⟨h0, hc⟩
    · left; exact ⟨by omega, hc⟩
    · right; exact ⟨by omega, hc⟩
  have h4 : dev.esccount.toNat = k := by omega
  have h5 : dev.esccount.toNat < 8 := by omega
  unfold write_byte
  rw [if_pos h1, if_pos h2, dif_pos h5]
  simp only [hk, Int.toNat_ofNat]

/-- One step of the digit scan on a digit. -/
theorem scan_digits_digit (escape : Fin 8 → Nat) (fuel p : Nat) (parm : Int) (h : p < 8)
    (hd : isdigit (escape ⟨p, h⟩) = true) :
    scan_digits escape (fuel + 1) p parm =
      scan_digits escape fuel (p + 1) (parm * 10 + ((escape ⟨p, h⟩ : Int) - 48)) := by
  simp only [scan_digits, h, dite_true, hd, if_true]

/-- The digit scan stops on a character that is no digit. -/
theorem scan_digits_stop (escape : Fin 8 → Nat) (fuel p : Nat) (parm : Int) (h : p < 8)
    (hd : isdigit (escape ⟨p, h⟩) = false) :
    scan_digits escape (fuel + 1) p parm = some (p, parm, escape ⟨p, h⟩) := by
  simp only [scan_digits, h, dite_true, hd]
  simp

theorem escape_parms_2 (e : Fin 8 → Nat) (h0 : e 0 = 91) (h1 : e 1 = 50) (h2 : e 2 = 0) :
    escape_parms e = some (2, 0) := by
  have d1 : isdigit (e ⟨1, by omega⟩) = true := by
    show isdigit (e 1) = true
    rw [h1]; rfl
  have d2 : isdigit (e ⟨2, by omega⟩) = false := by
    show isdigit (e 2) = false
    rw [h2]; rfl
  unfold escape_parms
  rw [if_pos h0, scan_digits_digit e 7 1 0 (by omega) d1, scan_digits_stop e 6 2 _ (by omega) d2]
  show (if e 2 = 59 then _ else _) = _
  rw [h2]
  show some (((0 : Int) * 10 + ((e 1 : Int) - 48)), (0 : Int)) = _
  rw [h1]
  rfl

/-- The command `ESC [ 2 J` clears the screen. -/
theorem lcd_handle_escape_2J (busy : Nat → Bool) (dev : Dev)
    (h0 : dev.escape 0 = 91) (h1 : dev.escape 1 = 50) (h2 : dev.escape 2 = 0) :
    lcd_handle_escape busy dev 74 = some (lcd_clear_screen busy dev) := by
  unfold lcd_handle_escape
  rw [escape_parms_2 _ h0 h1 h2]
  simp

theorem parse_esc_2J (busy : Nat → Bool) (dev : Dev) (hn : dev.esccount < 0) :
    write_parse busy dev [27, 91, 50, 74] = some
      { lcd_clear_screen busy
          { dev with escape := upd (upd (upd dev.escape 0 91) 1 50) 2 0, esccount := 2 }
        with esccount := -1 } := by
  simp only [write_parse, write_byte_esc busy dev hn, Option.some_bind]
  rw [write_byte_collect busy _ 91 0 rfl (by omega) (Or.inl ⟨rfl, rfl⟩)]
  dsimp only [Option.some_bind]
  rw [write_byte_collect busy _ 50 1 rfl (by omega) (Or.inr ⟨by omega, Or.inl rfl⟩)]
  dsimp only [Option.some_bind]
  rw [write_byte_dispatch busy _ 74 2 rfl (by omega) (Or.inr ⟨by omega, rfl, by omega⟩)]
  dsimp only
  rw [lcd_handle_escape_2J busy _ rfl rfl rfl]
  rfl

/-- C4.  For every display state in the normal parser state (whatever the
rows, the cursor and the fault flag hold), the bytes `ESC [ 2 J` leave every
cell of every row's virtual data and of every row's visible shadow blank and
the cursor at row 0, column 0. -/
theorem C4_clear_screen (busy : Nat → Bool) (dev : Dev) (hn : dev.esccount < 0) :
    ∃ d, write_parse busy dev [27, 91, 50, 74] = some d ∧
      (∀ (r : Fin 2) (col : Fin 81), (d.line r).data col = 32) ∧
      (∀ (r : Fin 2) (x : Fin 16), (d.line r).visible x = 32) ∧
      d.y = 0 ∧ d.x = 0 :=
  ⟨_, parse_esc_2J busy dev hn, fun _ _ => rfl, fun _ _ => rfl, rfl, rfl⟩

/-- C4 at a concrete input: a display holding `Hi`, with a stuck controller. -/
theorem C4_witness :
    (printed fresh [72, 105]).esccount < 0 ∧
    ∃ d, write_parse stuck (printed fresh [72, 105]) [27, 91, 50, 74] = some d ∧
      (∀ (r : Fin 2) (col : Fin 81), (d.line r).data col = 32) ∧
      (∀ (r : Fin 2) (x : Fin 16), (d.line r).visible x = 32) ∧
      d.y = 0 ∧ d.x = 0 :=
  ⟨by decide, C4_clear_screen stuck (printed fresh [72, 105]) (by decide)⟩

/-! ## Cursor positioning: `ESC [ r ; c H` -/

theorem isdigit_add (a : Nat) (h : a < 10) : isdigit (48 + a) = true := by
  simp only [isdigit, Bool.and_eq_true, decide_eq_true_eq]
  omega

/-- The parameters of `[ a ; b` with one digit each. -/
theorem escape_parms_1_1 (e : Fin 8 → Nat) (a b : Nat) (ha : a < 10) (hb : b < 10)
    (h0 : e 0 = 91) (h1 : e 1 = 48 + a) (h2 : e 2 = 59) (h3 : e 3 = 48 + b)
    (h4 : e 4 = 0) :
    escape_parms e = some ((a : Int), (b : Int)) := by
  have d1 : isdigit (e ⟨1, by omega⟩) = true := by
    show isdigit (e 1) = true
    rw [h1]; exact isdigit_add a ha
  have d2 : isdigit (e ⟨2, by omega⟩) = false := by
    show isdigit (e 2) = false
    rw [h2]; rfl
  have d3 : isdigit (e ⟨3, by omega⟩) = true := by
    show isdigit (e 3) = true
    rw [h3]; exact isdigit_add b hb
  have d4 : isdigit (e ⟨4, by omega⟩) = false := by
    show isdigit (e 4) = false
    rw [h4]; rfl
  unfold escape_parms
  rw [if_pos h0, scan_digits_digit e 7 1 0 (by omega) d1, scan_digits_stop e 6 2 _ (by omega) d2]
  show (if e 2 = 59 then _ else _) = _
  rw [if_pos h2]
  show (scan_digits e 8 3 0).bind _ = _
  rw [scan_digits_digit e 7 3 0 (by omega) d3, scan_digits_stop e 6 4 _ (by omega) d4]
  show some (((0 : Int) * 10 + ((e 1 : Int) - 48)), ((0 : Int) * 10 + ((e 3 : Int) - 48))) = _
  rw [h1, h3]
  congr 2 <;> push_cast <;> omega

/-- The parameters of `[ a ; b c` with one digit for the row and two for the
column. -/
theorem escape_parms_1_2 (e : Fin 8 → Nat) (a b c : Nat) (ha : a < 10) (hb : b < 10)
    (hc : c < 10)
    (h0 : e 0 = 91) (h1 : e 1 = 48 + a) (h2 : e 2 = 59) (h3 : e 3 = 48 + b)
    (h4 : e 4 = 48 + c) (h5 : e 5 = 0) :
    escape_parms e = some ((a : Int), ((10 * b + c : Nat) : Int)) := by
  have d1 : isdigit (e ⟨1, by omega⟩) = true := by
    show isdigit (e 1) = true
    rw [h1]; exact isdigit_add a ha
  have d2 : isdigit (e ⟨2, by omega⟩) = false := by
    show isdigit (e 2) = false
    rw [h2]; rfl
  have d3 : isdigit (e ⟨3, by omega⟩) = true := by
    show isdigit (e 3) = true
    rw [h3]; exact isdigit_add b hb
  have d4 : isdigit (e ⟨4, by omega⟩) = true := by
    show isdigit (e 4) = true
    rw [h4]; exact isdigit_add c hc
  have d5 : isdigit (e ⟨5, by omega⟩) = false := by
    show isdigit (e 5) = false
    rw [h5]; rfl
  unfold escape_parms
  rw [if_pos h0, scan_digits_digit e 7 1 0 (by omega) d1, scan_digits_stop e 6 2 _ (by omega) d2]
  show (if e 2 = 59 then _ else _) = _
  rw [if_pos h2]
  show (scan_digits e 8 3 0).bind _ = _
  rw [scan_digits_digit e 7 3 0 (by omega) d3, scan_digits_digit e 6 4 _ (by omega) d4,
    scan_digits_stop e 5 5 _ (by omega) d5]
  show some (((0 : Int) * 10 + ((e 1 : Int) - 48)),
    (((0 : Int) * 10 + ((e 3 : Int) - 48)) * 10 + ((e 4 : Int) - 48))) = _
  rw [h1, h3, h4]
  congr 2 <;> push_cast <;> omega

/-- The loop `while (dev->y > 2)` does nothing when the row is at most 2. -/
theorem scroll_while_le (fuel : Nat) (dev : Dev) (h : dev.y ≤ 2) :
    scroll_while fuel dev = dev := by
  cases fuel with
  | zero => rfl
  | succ n => simp only [scroll_while, if_neg (show ¬ dev.y > 2 by omega)]

/-- The fuel `dev.y` given to `scroll_while` is enough: the loop ends with the
row at most 2, as the `while` loop of the source does. -/
theorem scroll_while_settles : ∀ (fuel : Nat) (dev : Dev),
    dev.y ≤ fuel + 2 → dev.y < 256 → (scroll_while fuel dev).y ≤ 2 := by
  intro fuel
  induction fuel with
  | zero =>
    intro dev h _
    simpa [scroll_while] using h
  | succ n ih =>
    intro dev h h256
    simp only [scroll_while]
    split
    · rename_i hy
      have e : (lcd_scroll_up dev).y = dev.y - 1 := by
        simp only [lcd_scroll_up]
        omega
      exact ih _ (by rw [e]; omega) (by rw [e]; omega)
    · omega

/-- The commands `H` and `f` with row parameter `r` in `1..3` and a positive
column parameter `c` move the cursor to row `r - 1`, column `c - 1`. -/
theorem lcd_handle_escape_H_visible (busy : Nat → Bool) (dev : Dev) (cmd r c : Nat)
    (hcmd : cmd = 72 ∨ cmd = 102) (hr : 1 ≤ r ∧ r ≤ 3) (hc : 1 ≤ c ∧ c ≤ 256)
    (hp : escape_parms dev.escape = some ((r : Int), (c : Int))) :
    lcd_handle_escape busy dev cmd = some { dev with x := c - 1, y := r - 1 } := by
  have hx : to_uchar ((c : Int) - 1) = c - 1 := by
    unfold to_uchar
    omega
  have hy : to_uchar ((r : Int) - 1) = r - 1 := by
    unfold to_uchar
    omega
  unfold lcd_handle_escape
  rw [hp]
  dsimp only [Option.some_bind]
  rw [if_pos hcmd, if_pos (show (c : Int) > 0 by omega), if_pos (show (r : Int) > 0 by omega)]
  dsimp only
  rw [hx, hy, if_neg (show ¬ r - 1 > 4 by omega)]
  rw [scroll_while_le _ _ (show r - 1 ≤ 2 by omega)]

/-- The parser on `ESC [ a ; b cmd` with single digits `a`, `b`: the command
is dispatched with `escape` holding `[a;b` and a terminating zero. -/
theorem parse_csi_1_1 (busy : Nat → Bool) (dev : Dev) (a b cmd : Nat)
    (hn : dev.esccount < 0) (ha : a < 10) (hb : b < 10)
    (hcmd : isdigit cmd = false ∧ cmd ≠ 59) :
    write_parse busy dev [27, 91, 48 + a, 59, 48 + b, cmd] =
      (lcd_handle_escape busy
        { dev with
          escape := upd (upd (upd (upd (upd dev.escape 0 91) 1 (48 + a)) 2 59) 3 (48 + b)) 4 0,
          esccount := 4 } cmd).bind fun d => some { d with esccount := -1 } := by
  simp only [write_parse, write_byte_esc busy dev hn, Option.some_bind]
  rw [write_byte_collect busy _ 91 0 rfl (by omega) (Or.inl ⟨rfl, rfl⟩)]
  dsimp only [Option.some_bind]
  rw [write_byte_collect busy _ (48 + a) 1 rfl (by omega)
    (Or.inr ⟨by omega, Or.inl (isdigit_add a ha)⟩)]
  dsimp only [Option.some_bind]
  rw [write_byte_collect busy _ 59 2 rfl (by omega) (Or.inr ⟨by omega, Or.inr rfl⟩)]
  dsimp only [Option.some_bind]
  rw [write_byte_collect busy _ (48 + b) 3 rfl (by omega)
    (Or.inr ⟨by omega, Or.inl (isdigit_add b hb)⟩)]
  dsimp only [Option.some_bind]
  rw [write_byte_dispatch busy _ cmd 4 rfl (by omega) (Or.inr ⟨by omega, hcmd⟩)]
  dsimp only
  rw [Option.bind_some]
  rfl

/-- The parser on `ESC [ a ; b c cmd` with digits `a`, `b`, `c`. -/
theorem parse_csi_1_2 (busy : Nat → Bool) (dev : Dev) (a b c cmd : Nat)
    (hn : dev.esccount < 0) (ha : a < 10) (hb : b < 10) (hc : c < 10)
    (hcmd : isdigit cmd = false ∧ cmd ≠ 59) :
    write_parse busy dev [27, 91, 48 + a, 59, 48 + b, 48 + c, cmd] =
      (lcd_handle_escape busy
        { dev with
          escape := upd (upd (upd (upd (upd (upd dev.escape 0 91) 1 (48 + a)) 2 59)
            3 (48 + b)) 4 (48 + c)) 5 0,
          esccount := 5 } cmd).bind fun d => some { d with esccount := -1 } := by
  simp only [write_parse, write_byte_esc busy dev hn, Option.some_bind]
  rw [write_byte_collect busy _ 91 0 rfl (by omega) (Or.inl ⟨rfl, rfl⟩)]
  dsimp only [Option.some_bind]
  rw [write_byte_collect busy _ (48 + a) 1 rfl (by omega)
    (Or.inr ⟨by omega, Or.inl (isdigit_add a ha)⟩)]
  dsimp only [Option.some_bind]
  rw [write_byte_collect busy _ 59 2 rfl (by omega) (Or.inr ⟨by omega, Or.inr rfl⟩)]
  dsimp only [Option.some_bind]
  rw [write_byte_collect busy _ (48 + b) 3 rfl (by omega)
    (Or.inr ⟨by omega, Or.inl (isdigit_add b hb)⟩)]
  dsimp only [Option.some_bind]
  rw [write_byte_collect busy _ (48 + c) 4 rfl (by omega)
    (Or.inr ⟨by omega, Or.inl (isdigit_add c hc)⟩)]
  dsimp only [Option.some_bind]
  rw [write_byte_dispatch busy _ cmd 5 rfl (by omega) (Or.inr ⟨by omega, hcmd⟩)]
  dsimp only
  rw [Option.bind_some]
  rfl

/-- The parser on `ESC [ r ; c cmd` for a row parameter below 10 and a column
parameter below 100, written in decimal: the command is dispatched with the
parameters `r` and `c`. -/
theorem parse_csi_decimal (busy : Nat → Bool) (dev : Dev) (r c cmd : Nat)
    (hn : dev.esccount < 0) (hr : r < 10) (hc : c < 100)
    (hcmd : isdigit cmd = false ∧ cmd ≠ 59) :
    ∃ (e : Fin 8 → Nat) (k : Int), escape_parms e = some ((r : Int), (c : Int)) ∧
      write_parse busy dev ([27, 91] ++ decimal r ++ [59] ++ decimal c ++ [cmd]) =
        (lcd_handle_escape busy { dev with escape := e, esccount := k } cmd).bind
          fun d => some { d with esccount := -1 } := by
  have hdr : decimal r = [48 + r] := by
    unfold decimal
    rw [if_pos hr]
  by_cases h10 : c < 10
  · have hdc : decimal c = [48 + c] := by
      unfold decimal
      rw [if_pos h10]
    refine ⟨upd (upd (upd (upd (upd dev.escape 0 91) 1 (48 + r)) 2 59) 3 (48 + c)) 4 0, 4,
      ?_, ?_⟩
    · exact escape_parms_1_1 _ r c hr h10 rfl rfl rfl rfl rfl
    · rw [hdr, hdc]
      exact parse_csi_1_1 busy dev r c cmd hn hr h10 hcmd
  · have hdc : decimal c = [48 + c / 10, 48 + c % 10] := by
      unfold decimal
      rw [if_neg h10]
    refine ⟨upd (upd (upd (upd (upd (upd dev.escape 0 91) 1 (48 + r)) 2 59)
            3 (48 + c / 10)) 4 (48 + c % 10)) 5 0, 5, ?_, ?_⟩
    rotate_left
    · rw [hdr, hdc]
      exact parse_csi_1_2 busy dev r (c / 10) (c % 10) cmd hn hr (by omega) (by omega) hcmd
    · have h := escape_parms_1_2
        (upd (upd (upd (upd (upd (upd dev.escape 0 91) 1 (48 + r)) 2 59)
            3 (48 + c / 10)) 4 (48 + c % 10)) 5 0)
        r (c / 10) (c % 10) hr (by omega) (by omega) rfl rfl rfl rfl rfl rfl
      rw [h]
      congr 3
      omega

theorem cmd_H_f (cmd : Nat) (h : cmd = 72 ∨ cmd = 102) : isdigit cmd = false ∧ cmd ≠ 59 := by
  rcases h with h | h <;> subst h <;> exact ⟨rfl, by omega⟩

/-- C5.  For every `r` in `1..3` and `c` in `1..80`, the bytes
`ESC [ r ; c H` (or `f` in place of `H`), with `r` and `c` in decimal, written
in the normal parser state place the cursor at row `r - 1`, column `c - 1`,
change no row and cause no scroll-up. -/
theorem C5_cursor_position (busy : Nat → Bool) (dev : Dev) (r c cmd : Nat)
    (hn : dev.esccount < 0) (hr : 1 ≤ r ∧ r ≤ 3) (hc : 1 ≤ c ∧ c ≤ 80)
    (hcmd : cmd = 72 ∨ cmd = 102) :
    ∃ d, write_parse busy dev ([27, 91] ++ decimal r ++ [59] ++ decimal c ++ [cmd]) = some d ∧
      d.y = r - 1 ∧ d.x = c - 1 ∧ d.line = dev.line ∧ d.scrolls = dev.scrolls := by
  obtain ⟨e, k, hp, hw⟩ :=
    parse_csi_decimal busy dev r c cmd hn (by omega) (by omega) (cmd_H_f cmd hcmd)
  rw [hw, lcd_handle_escape_H_visible busy _ cmd r c hcmd hr ⟨hc.1, by omega⟩ hp]
  exact ⟨_, rfl, rfl, rfl, rfl, rfl⟩

/-- C5 at `r = 1`, `c = 1`: `ESC [ 1 ; 1 H` moves the cursor of a display
holding `Hi` to row 0, column 0. -/
theorem C5_witness :
    (printed fresh [72, 105]).esccount < 0 ∧
    ∃ d, write_parse ready (printed fresh [72, 105]) [27, 91, 49, 59, 49, 72] = some d ∧
      d.y = 0 ∧ d.x = 0 :=
  ⟨by decide,
    (C5_cursor_position ready (printed fresh [72, 105]) 1 1 72 (by decide) (by decide)
      (by decide) (by decide)).imp (fun _ h => ⟨h.1, h.2.1, h.2.2.1⟩)⟩

/-! ## C6: row parameter 5 -/

/-- The commands `H` and `f` with row parameter 5: the row becomes 4 and the
loop scrolls twice, down to row 2, which leaves the 80 columns of both rows
blank. -/
theorem lcd_handle_escape_H_5 (busy : Nat → Bool) (dev : Dev) (cmd : Nat) (c : Int)
    (hcmd : cmd = 72 ∨ cmd = 102)
    (hp : escape_parms dev.escape = some (5, c)) :
    ∃ d, lcd_handle_escape busy dev cmd = some d ∧ d.scrolls = dev.scrolls + 2 ∧ d.y = 2 ∧
      ∀ (r : Fin 2) (col : Fin 81), col.val < 80 → (d.line r).data col = 32 := by
  unfold lcd_handle_escape
  rw [hp]
  dsimp only [Option.some_bind]
  rw [if_pos hcmd, if_pos (show (5 : Int) > 0 by omega)]
  have h4 : to_uchar ((5 : Int) - 1) = 4 := by decide
  rw [h4, if_neg (show ¬ 4 > 4 by omega)]
  refine ⟨_, rfl, ?_, ?_, ?_⟩
  · by_cases hc : c > 0 <;> simp [hc, scroll_while, lcd_scroll_up]
  · by_cases hc : c > 0 <;> simp [hc, scroll_while, lcd_scroll_up]
  · intro r col hcol
    by_cases hc : c > 0 <;> simp [hc, scroll_while, lcd_scroll_up, hcol] <;>
      split <;> simp [hcol]

/-- C6 (amended).  On the 2-row display, the bytes `ESC [ 5 ; c H`, with the
column parameter `c < 100` in decimal, written in the normal parser state
trigger exactly 2 calls of `lcd_scroll_up` (row 4, then 3, then 2) and the
cursor row settles at 2, the row just below the visible area. -/
theorem C6_row_five (busy : Nat → Bool) (dev : Dev) (c : Nat)
    (hn : dev.esccount < 0) (hc : c < 100) :
    ∃ d, write_parse busy dev ([27, 91] ++ decimal 5 ++ [59] ++ decimal c ++ [72]) = some d ∧
      d.scrolls = dev.scrolls + 2 ∧ d.y = 2 := by
  obtain ⟨e, k, hp, hw⟩ :=
    parse_csi_decimal busy dev 5 c 72 hn (by omega) hc (cmd_H_f 72 (Or.inl rfl))
  obtain ⟨d, hd, hs, hy, _⟩ :=
    lcd_handle_escape_H_5 busy { dev with escape := e, esccount := k } 72 c (Or.inl rfl) hp
  rw [hw, hd]
  exact ⟨_, rfl, hs, hy⟩

/-- C6, as stated, fails: `ESC [ 5 ; 1 H` on a fresh display calls
`lcd_scroll_up` 2 times, not 3, and leaves the cursor on row 2. -/
theorem C6_counterexample :
    (write_parse ready fresh [27, 91, 53, 59, 49, 72]).map
      (fun d => (d.scrolls, d.y)) = some (2, 2) := by
  decide!

/-- C6 (amended) at a concrete input: `ESC [ 5 ; 1 H` on a fresh display. -/
theorem C6_witness :
    fresh.esccount < 0 ∧
    ∃ d, write_parse ready fresh [27, 91, 53, 59, 49, 72] = some d ∧
      d.scrolls = fresh.scrolls + 2 ∧ d.y = 2 :=
  ⟨by decide, C6_row_five ready fresh 1 (by decide) (by decide)⟩

/-! ## C7: erase to end of line -/

/-- The parameters of a bare `[`. -/
theorem escape_parms_none (e : Fin 8 → Nat) (h0 : e 0 = 91) (h1 : e 1 = 0) :
    escape_parms e = some (0, 0) := by
  have d1 : isdigit (e ⟨1, by omega⟩) = false := by
    show isdigit (e 1) = false
    rw [h1]; rfl
  unfold escape_parms
  rw [if_pos h0, scan_digits_stop e 7 1 0 (by omega) d1]
  show (if e 1 = 59 then _ else _) = _
  rw [h1]
  rfl

/-- The parameters of `[ 0`. -/
theorem escape_parms_zero (e : Fin 8 → Nat) (h0 : e 0 = 91) (h1 : e 1 = 48) (h2 : e 2 = 0) :
    escape_parms e = some (0, 0) := by
  have d1 : isdigit (e ⟨1, by omega⟩) = true := by
    show isdigit (e 1) = true
    rw [h1]; rfl
  have d2 : isdigit (e ⟨2, by omega⟩) = false := by
    show isdigit (e 2) = false
    rw [h2]; rfl
  unfold escape_parms
  rw [if_pos h0, scan_digits_digit e 7 1 0 (by omega) d1, scan_digits_stop e 6 2 _ (by omega) d2]
  show (if e 2 = 59 then _ else _) = _
  rw [h2]
  show some (((0 : Int) * 10 + ((e 1 : Int) - 48)), (0 : Int)) = _
  rw [h1]
  rfl

/-- The command `K` with first parameter below 1, on a visible row. -/
theorem lcd_handle_escape_K (busy : Nat → Bool) (dev : Dev) (p1 p2 : Int)
    (hp : escape_parms dev.escape = some (p1, p2)) (h1 : p1 < 1) (hy : dev.y < 2) :
    lcd_handle_escape busy dev 75 =
      some (if dev.x < 80 then blank_to_eol dev ⟨dev.y, hy⟩ else dev) := by
  unfold lcd_handle_escape
  rw [hp]
  dsimp only [Option.some_bind]
  rw [if_neg (by omega), if_neg (by omega), if_pos rfl, if_pos h1]
  by_cases hx : dev.x < 80
  · rw [if_pos hx, if_pos hx, dif_pos hy]
  · rw [if_neg hx, if_neg hx]

theorem parse_esc_K (busy : Nat → Bool) (dev : Dev) (hn : dev.esccount < 0)
    (hy : dev.y < 2) :
    write_parse busy dev [27, 91, 75] = some
      { (if dev.x < 80 then
          blank_to_eol { dev with escape := upd (upd dev.escape 0 91) 1 0, esccount := 1 }
            ⟨dev.y, hy⟩
         else { dev with escape := upd (upd dev.escape 0 91) 1 0, esccount := 1 })
        with esccount := -1 } := by
  have hK := lcd_handle_escape_K busy
    { dev with escape := upd (upd dev.escape 0 91) 1 0, esccount := 1 } 0 0
    (escape_parms_none _ rfl rfl) (by omega) hy
  simp only [write_parse, write_byte_esc busy dev hn, Option.some_bind]
  rw [write_byte_collect busy _ 91 0 rfl (by omega) (Or.inl ⟨rfl, rfl⟩)]
  dsimp only [Option.some_bind]
  rw [write_byte_dispatch busy _ 75 1 rfl (by omega) (Or.inr ⟨by omega, rfl, by omega⟩)]
  dsimp only
  rw [Option.bind_some]
  exact (congrArg (fun o => Option.bind o _) hK).trans rfl

theorem parse_esc_0K (busy : Nat → Bool) (dev : Dev) (hn : dev.esccount < 0)
    (hy : dev.y < 2) :
    write_parse busy dev [27, 91, 48, 75] = some
      { (if dev.x < 80 then
          blank_to_eol { dev with escape := upd (upd (upd dev.escape 0 91) 1 48) 2 0,
                                  esccount := 2 } ⟨dev.y, hy⟩
         else { dev with escape := upd (upd (upd dev.escape 0 91) 1 48) 2 0, esccount := 2 })
        with esccount := -1 } := by
  have hK := lcd_handle_escape_K busy
    { dev with escape := upd (upd (upd dev.escape 0 91) 1 48) 2 0, esccount := 2 } 0 0
    (escape_parms_zero _ rfl rfl rfl) (by omega) hy
  simp only [write_parse, write_byte_esc busy dev hn, Option.some_bind]
  rw [write_byte_collect busy _ 91 0 rfl (by omega) (Or.inl ⟨rfl, rfl⟩)]
  dsimp only [Option.some_bind]
  rw [write_byte_collect busy _ 48 1 rfl (by omega) (Or.inr ⟨by omega, Or.inl rfl⟩)]
  dsimp only [Option.some_bind]
  rw [write_byte_dispatch busy _ 75 2 rfl (by omega) (Or.inr ⟨by omega, rfl, by omega⟩)]
  dsimp only
  rw [Option.bind_some]
  exact (congrArg (fun o => Option.bind o _) hK).trans rfl

/-- The rows and the cursor after `blank_to_eol`, guarded by `x < 80`. -/
theorem blank_to_eol_spec (dev : Dev) (hy : dev.y < 2) (d : Dev)
    (hx : d.x = dev.x) (hyy : d.y = dev.y)
    (hl : d.line = (if dev.x < 80 then blank_to_eol dev ⟨dev.y, hy⟩ else dev).line) :
    d.x = dev.x ∧ d.y = dev.y ∧
      (∀ (r : Fin 2) (col : Fin 81),
        (d.line r).data col =
          if r.val = dev.y ∧ dev.x ≤ col.val ∧ col.val < 80 then 32
          else (dev.line r).data col) ∧
      (∀ r : Fin 2, (d.line r).visible = (dev.line r).visible ∧
        (d.line r).width = (dev.line r).width ∧ (d.line r).speed = (dev.line r).speed) ∧
      (80 ≤ dev.x → d.line = dev.line) := by
  refine ⟨hx, hyy, ?_, ?_, ?_⟩
  · intro r col
    rw [hl]
    by_cases h80 : dev.x < 80
    · rw [if_pos h80]
      simp only [blank_to_eol, set_line]
      by_cases hr : r = ⟨dev.y, hy⟩
      · subst hr
        simp
      · have hr2 : ¬ r.val = dev.y := fun h => hr (Fin.ext h)
        simp [hr, hr2]
    · rw [if_neg h80, if_neg (by omega)]
  · intro r
    rw [hl]
    by_cases h80 : dev.x < 80
    · rw [if_pos h80]
      simp only [blank_to_eol, set_line]
      by_cases hr : r = ⟨dev.y, hy⟩
      · subst hr
        simp
      · simp [hr]
    · rw [if_neg h80]
      exact ⟨rfl, rfl, rfl⟩
  · intro h80
    rw [hl, if_neg (by omega)]

/-- C7.  For every state in the normal parser state with the cursor on a
visible row `y < 2` at column `x`, the bytes `ESC [ K` and `ESC [ 0 K` blank
the virtual data of row `y` from column `x` to column 79 and leave columns
`0..x-1` of row `y`, every other row (and cell 80 of every row), the shadows,
widths and speeds, and the cursor unchanged; when `x ≥ 80` no row changes. -/
theorem C7_erase_to_eol (busy : Nat → Bool) (dev : Dev) (bytes : List Nat)
    (hn : dev.esccount < 0) (hy : dev.y < 2)
    (hb : bytes = [27, 91, 75] ∨ bytes = [27, 91, 48, 75]) :
    ∃ d, write_parse busy dev bytes = some d ∧ d.x = dev.x ∧ d.y = dev.y ∧
      (∀ (r : Fin 2) (col : Fin 81),
        (d.line r).data col =
          if r.val = dev.y ∧ dev.x ≤ col.val ∧ col.val < 80 then 32
          else (dev.line r).data col) ∧
      (∀ r : Fin 2, (d.line r).visible = (dev.line r).visible ∧
        (d.line r).width = (dev.line r).width ∧ (d.line r).speed = (dev.line r).speed) ∧
      (80 ≤ dev.x → d.line = dev.line) := by
  rcases hb with hb | hb
  · subst hb
    refine ⟨_, parse_esc_K busy dev hn hy, blank_to_eol_spec dev hy _ ?_ ?_ ?_⟩
    · by_cases h : dev.x < 80 <;> simp [h, blank_to_eol]
    · by_cases h : dev.x < 80 <;> simp [h, blank_to_eol]
    · by_cases h : dev.x < 80 <;> simp [h, blank_to_eol]
  · subst hb
    refine ⟨_, parse_esc_0K busy dev hn hy, blank_to_eol_spec dev hy _ ?_ ?_ ?_⟩
    · by_cases h : dev.x < 80 <;> simp [h, blank_to_eol]
    · by_cases h : dev.x < 80 <;> simp [h, blank_to_eol]
    · by_cases h : dev.x < 80 <;> simp [h, blank_to_eol]

/-- C7 at a concrete input: `ESC [ K` with the cursor at column 1 of a row
holding `Hi` blanks the `i`. -/
theorem C7_witness :
    ({ printed fresh [72, 105] with x := 1 } : Dev).esccount < 0 ∧
    ({ printed fresh [72, 105] with x := 1 } : Dev).y < 2 ∧
    ∃ d, write_parse ready { printed fresh [72, 105] with x := 1 } [27, 91, 75] = some d ∧
      d.x = 1 ∧ (d.line 0).data 0 = 72 ∧ (d.line 0).data 1 = 32 :=
  ⟨by decide, by decide,
    (C7_erase_to_eol ready { printed fresh [72, 105] with x := 1 } [27, 91, 75]
      (by decide) (by decide) (Or.inl rfl)).imp
      (fun _ h => ⟨h.1, h.2.1, (h.2.2.2.1 0 0).trans (by decide),
        (h.2.2.2.1 0 1).trans (by decide)⟩)⟩

/-! ## The port and the repaint -/

theorem repaint_frame_refl (a : Dev) : repaint_frame a a :=
  ⟨rfl, rfl, rfl, rfl, rfl, rfl, rfl, rfl, fun _ => ⟨rfl, rfl, rfl⟩, fun h => h⟩

theorem repaint_frame_trans {a b c : Dev} (h1 : repaint_frame a b) (h2 : repaint_frame b c) :
    repaint_frame a c := by
  obtain ⟨a1, a2, a3, a4, a5, a6, a7, a8, a9, a10⟩ := h1
  obtain ⟨b1, b2, b3, b4, b5, b6, b7, b8, b9, b10⟩ := h2
  refine ⟨b1.trans a1, b2.trans a2, b3.trans a3, b4.trans a4, b5.trans a5, b6.trans a6,
    b7.trans a7, b8.trans a8, fun r => ?_, fun h => b10 (a10 h)⟩
  exact ⟨(b9 r).1.trans (a9 r).1, (b9 r).2.1.trans (a9 r).2.1, (b9 r).2.2.trans (a9 r).2.2⟩

theorem lcd_write_command_frame (busy : Nat → Bool) (dev : Dev) (c : Nat) :
    repaint_frame dev (lcd_write_command busy dev c) ∧
      (lcd_write_command busy dev c).line = dev.line ∧
      (lcd_write_command busy dev c).address = dev.address := by
  unfold lcd_write_command
  by_cases hb : dev.broken = true
  · rw [if_pos hb]
    exact ⟨repaint_frame_refl dev, rfl, rfl⟩
  · rw [if_neg hb]
    dsimp only
    split
    · exact ⟨⟨rfl, rfl, rfl, rfl, rfl, rfl, rfl, rfl, fun _ => ⟨rfl, rfl, rfl⟩,
        fun h => absurd h hb⟩, rfl, rfl⟩
    · exact ⟨⟨rfl, rfl, rfl, rfl, rfl, rfl, rfl, rfl, fun _ => ⟨rfl, rfl, rfl⟩,
        fun _ => rfl⟩, rfl, rfl⟩

theorem lcd_write_data_frame (busy : Nat → Bool) (dev : Dev) (c : Nat) :
    repaint_frame dev (lcd_write_data busy dev c) ∧
      (lcd_write_data busy dev c).line = dev.line := by
  unfold lcd_write_data
  by_cases hb : dev.broken = true
  · rw [if_pos hb]
    exact ⟨repaint_frame_refl dev, rfl⟩
  · rw [if_neg hb]
    dsimp only
    split
    · exact ⟨⟨rfl, rfl, rfl, rfl, rfl, rfl, rfl, rfl, fun _ => ⟨rfl, rfl, rfl⟩,
        fun h => absurd h hb⟩, rfl⟩
    · exact ⟨⟨rfl, rfl, rfl, rfl, rfl, rfl, rfl, rfl, fun _ => ⟨rfl, rfl, rfl⟩,
        fun _ => rfl⟩, rfl⟩

/-- The state in which `lcd_repaint_screen` writes the data byte of a cell
that differs from its shadow. -/
theorem repaint_cell_eq (busy : Nat → Bool) (y : Fin 2) (width offset : Int) (dev : Dev)
    (x : Fin 16) (c : Nat) (hc : repaint_char dev y width offset x = some c) :
    repaint_cell busy y width offset dev x = some dev ∧ (dev.line y).visible x = c ∨
    ∃ d1, repaint_frame dev d1 ∧ d1.line = dev.line ∧
      (dev.line y).visible x ≠ c ∧
      repaint_cell busy y width offset dev x = some
        { d1 with
          line := set_line dev.line y
            { dev.line y with visible := upd (dev.line y).visible x c } } := by
  unfold repaint_cell
  rw [hc]
  dsimp only [Option.some_bind]
  by_cases hv : (dev.line y).visible x = c
  · left
    rw [if_neg (not_not.2 hv)]
    exact ⟨rfl, hv⟩
  · right
    rw [if_pos hv]
    by_cases ha : (((x.val + colstart y) % 256 : Nat) : Int) ≠ dev.address
    · rw [if_pos ha]
      obtain ⟨f1, l1, _⟩ := lcd_write_command_frame busy dev (0x80 ||| ((x.val + colstart y) % 256))
      have f1b : repaint_frame dev
          { lcd_write_command busy dev (0x80 ||| ((x.val + colstart y) % 256)) with
            address := (((x.val + colstart y) % 256 : Nat) : Int) } := f1
      obtain ⟨f2, l2⟩ := lcd_write_data_frame busy
          { lcd_write_command busy dev (0x80 ||| ((x.val + colstart y) % 256)) with
            address := (((x.val + colstart y) % 256 : Nat) : Int) } c
      refine ⟨_, repaint_frame_trans f1b f2, l2.trans l1, hv, ?_⟩
      rw [l2]
      dsimp only
      rw [l1]
    · rw [if_neg ha]
      obtain ⟨f2, l2⟩ := lcd_write_data_frame busy dev c
      refine ⟨_, f2, l2, hv, ?_⟩
      rw [l2]

theorem repaint_char_congr (d dev : Dev) (y : Fin 2) (width offset : Int) (x : Fin 16)
    (h : (d.line y).data = (dev.line y).data) :
    repaint_char d y width offset x = repaint_char dev y width offset x := by
  unfold repaint_char
  rw [h]

/-- One cell of the repaint: the frame is respected and, of all shadow cells,
only the one at `(y, x)` may change; it ends up holding the character read. -/
theorem repaint_cell_spec (busy : Nat → Bool) (y : Fin 2) (width offset : Int) (dev d : Dev)
    (x : Fin 16) (h : repaint_cell busy y width offset dev x = some d) :
    repaint_frame dev d ∧
      repaint_char dev y width offset x = some ((d.line y).visible x) ∧
      ∀ (r : Fin 2) (x1 : Fin 16), (r ≠ y ∨ x1 ≠ x) →
        (d.line r).visible x1 = (dev.line r).visible x1 := by
  cases hc : repaint_char dev y width offset x with
  | none =>
    unfold repaint_cell at h
    rw [hc] at h
    exact Option.noConfusion h
  | some c =>
    rcases repaint_cell_eq busy y width offset dev x c hc with ⟨h1, hv⟩ | ⟨d1, f1, l1, _, h1⟩
    · rw [h1] at h
      cases h
      exact ⟨repaint_frame_refl _, by rw [hv], fun _ _ _ => rfl⟩
    · rw [h1] at h
      cases h
      obtain ⟨a1, a2, a3, a4, a5, a6, a7, a8, a9, a10⟩ := f1
      refine ⟨⟨a1, a2, a3, a4, a5, a6, a7, a8, ?_, a10⟩, ?_, ?_⟩
      · intro r
        simp only [set_line]
        by_cases hr : r = y
        · subst hr
          simp
        · simp [hr]
      · simp [set_line, upd]
      · intro r x1 hne
        simp only [set_line]
        by_cases hr : r = y
        · subst hr
          have hx : x1 ≠ x := by
            rcases hne with h | h
            · exact absurd rfl h
            · exact h
          simp [upd, hx]
        · simp [hr]

/-- The inner loop of the repaint over the first `n` columns of row `y`. -/
theorem repaint_cols_spec (busy : Nat → Bool) (y : Fin 2) (width offset : Int) :
    ∀ (n : Nat) (hn : n ≤ 16) (dev d : Dev),
      for_upto (repaint_cell busy y width offset) n hn dev = some d →
      repaint_frame dev d ∧
        (∀ x1 : Fin 16, x1.val < n →
          repaint_char dev y width offset x1 = some ((d.line y).visible x1)) ∧
        (∀ (r : Fin 2) (x1 : Fin 16), (r ≠ y ∨ n ≤ x1.val) →
          (d.line r).visible x1 = (dev.line r).visible x1) := by
  intro n
  induction n with
  | zero =>
    intro hn dev d h
    simp only [for_upto] at h
    cases h
    exact ⟨repaint_frame_refl _, fun x1 hx => absurd hx (Nat.not_lt_zero _), fun _ _ _ => rfl⟩
  | succ n ih =>
    intro hn dev d h
    simp only [for_upto] at h
    cases hm : for_upto (repaint_cell busy y width offset) n (Nat.le_of_succ_le hn) dev with
    | none =>
      rw [hm] at h
      exact Option.noConfusion h
    | some m =>
      rw [hm] at h
      simp only [Option.some_bind] at h
      obtain ⟨f1, t1, u1⟩ := ih _ dev m hm
      obtain ⟨f2, t2, u2⟩ := repaint_cell_spec busy y width offset m d ⟨n, Nat.lt_of_succ_le hn⟩ h
      refine ⟨repaint_frame_trans f1 f2, ?_, ?_⟩
      · intro x1 hx1
        by_cases hx : x1 = ⟨n, Nat.lt_of_succ_le hn⟩
        · subst hx
          rw [← t2]
          exact (repaint_char_congr m dev y width offset _ (f1.2.2.2.2.2.2.2.2.1 y).1).symm
        · have hlt : x1.val < n := by
            have : x1.val ≠ n := fun h => hx (Fin.ext h)
            omega
          rw [t1 x1 hlt, u2 y x1 (Or.inr hx)]
      · intro r x1 hne
        have hx : r ≠ y ∨ x1 ≠ ⟨n, Nat.lt_of_succ_le hn⟩ := by
          rcases hne with h | h
          · exact Or.inl h
          · right
            intro he
            rw [he] at h
            simp at h
        rw [u2 r x1 hx]
        exact u1 r x1 (by rcases hne with h | h; exact Or.inl h; exact Or.inr (by omega))

/-- The effect of a whole repaint: the frame is respected and every shadow
cell holds the character the repaint read for it. -/
theorem lcd_repaint_screen_spec (busy : Nat → Bool) (dev d : Dev)
    (h : lcd_repaint_screen busy dev = some d) :
    repaint_frame dev d ∧
      ∀ (y : Fin 2) (x : Fin 16),
        repaint_char dev y (dev.line y).width (row_offset dev y) x =
          some ((d.line y).visible x) := by
  unfold lcd_repaint_screen at h
  simp only [for_upto, Option.some_bind] at h
  cases h0 : repaint_row busy dev.scrollpos dev ⟨0, by omega⟩ with
  | none =>
    rw [h0] at h
    exact Option.noConfusion h
  | some m =>
    rw [h0] at h
    simp only [Option.some_bind] at h
    obtain ⟨f1, t1, u1⟩ := repaint_cols_spec busy _ _ _ 16 (Nat.le_refl 16) dev m h0
    obtain ⟨f2, t2, u2⟩ := repaint_cols_spec busy _ _ _ 16 (Nat.le_refl 16) m d h
    refine ⟨repaint_frame_trans f1 f2, ?_⟩
    intro y x
    have hy : y = 0 ∨ y = 1 := by
      rcases y with ⟨v, hv⟩
      have : v = 0 ∨ v = 1 := by omega
      rcases this with h | h
      · left; exact Fin.ext h
      · right; exact Fin.ext h
    rcases hy with hy | hy
    · subst hy
      rw [u2 0 x (Or.inl (by decide))]
      exact t1 x x.isLt
    · subst hy
      have hd := (f1.2.2.2.2.2.2.2.2.1 1)
      have e : repaint_char m 1 (m.line 1).width
          (if dev.scrollpos * ((m.line 1).speed : Int) / 256 ≥ (m.line 1).width then 0
           else dev.scrollpos * ((m.line 1).speed : Int) / 256) x =
          some ((d.line 1).visible x) := t2 x x.isLt
      rw [repaint_char_congr m dev _ _ _ _ hd.1, hd.2.1, hd.2.2] at e
      exact e

/-- A cell whose shadow already holds the character read is left alone. -/
theorem repaint_cell_fix (busy : Nat → Bool) (y : Fin 2) (width offset : Int) (dev : Dev)
    (x : Fin 16) (h : repaint_char dev y width offset x = some ((dev.line y).visible x)) :
    repaint_cell busy y width offset dev x = some dev := by
  unfold repaint_cell
  rw [h]
  simp

theorem repaint_cols_fix (busy : Nat → Bool) (y : Fin 2) (width offset : Int) (dev : Dev)
    (h : ∀ x : Fin 16, repaint_char dev y width offset x = some ((dev.line y).visible x)) :
    ∀ (n : Nat) (hn : n ≤ 16),
      for_upto (repaint_cell busy y width offset) n hn dev = some dev := by
  intro n
  induction n with
  | zero => intro _; rfl
  | succ n ih =>
    intro hn
    simp only [for_upto]
    rw [ih (Nat.le_of_succ_le hn)]
    exact repaint_cell_fix busy y width offset dev _ (h _)

/-- A repaint of a device whose shadows already hold the characters to show
does nothing at all. -/
theorem lcd_repaint_screen_fix (busy : Nat → Bool) (dev : Dev)
    (h : ∀ (y : Fin 2) (x : Fin 16),
      repaint_char dev y (dev.line y).width (row_offset dev y) x =
        some ((dev.line y).visible x)) :
    lcd_repaint_screen busy dev = some dev := by
  unfold lcd_repaint_screen
  simp only [for_upto, Option.some_bind]
  have h0 : repaint_row busy dev.scrollpos dev ⟨0, by omega⟩ = some dev :=
    repaint_cols_fix busy _ _ _ dev (h 0) 16 (Nat.le_refl 16)
  rw [h0]
  exact repaint_cols_fix busy _ _ _ dev (h 1) 16 (Nat.le_refl 16)

/-- Running the repaint a second time changes nothing. -/
theorem lcd_repaint_screen_twice (busy : Nat → Bool) (dev d : Dev)
    (h : lcd_repaint_screen busy dev = some d) :
    lcd_repaint_screen busy d = some d := by
  obtain ⟨f, t⟩ := lcd_repaint_screen_spec busy dev d h
  apply lcd_repaint_screen_fix
  intro y x
  have hd := f.2.2.2.2.2.2.2.2.1 y
  have ho : row_offset d y = row_offset dev y := by
    unfold row_offset
    rw [f.2.2.2.1, hd.2.1, hd.2.2]
  rw [repaint_char_congr d dev y _ _ x hd.1, hd.2.1, ho]
  exact t y x

/-- The character read for a cell exists when the row width is in `1..81` and
the offset is not negative. -/
theorem repaint_char_some (dev : Dev) (y : Fin 2) (width offset : Int) (x : Fin 16)
    (hw : 0 < width ∧ width ≤ 81) (ho : 0 ≤ offset) :
    ∃ c, repaint_char dev y width offset x = some c := by
  have h0 : (0 : Int) ≤ x.val + offset := by omega
  have e : Int.tmod (x.val + offset) width = (x.val + offset) % width :=
    Int.tmod_eq_emod h0 (by omega)
  have h1 : 0 ≤ (x.val + offset) % width := Int.emod_nonneg _ (by omega)
  have h2 : (x.val + offset) % width < width := Int.emod_lt_of_pos _ hw.1
  unfold repaint_char
  rw [if_neg (by omega), dif_pos (by rw [e]; constructor <;> omega)]
  exact ⟨_, rfl⟩

theorem repaint_cell_some (busy : Nat → Bool) (y : Fin 2) (width offset : Int) (dev : Dev)
    (x : Fin 16) (hw : 0 < width ∧ width ≤ 81) (ho : 0 ≤ offset) :
    ∃ d, repaint_cell busy y width offset dev x = some d := by
  obtain ⟨c, hc⟩ := repaint_char_some dev y width offset x hw ho
  rcases repaint_cell_eq busy y width offset dev x c hc with ⟨h1, _⟩ | ⟨d1, _, _, _, h1⟩
  · exact ⟨_, h1⟩
  · exact ⟨_, h1⟩

theorem repaint_cols_some (busy : Nat → Bool) (y : Fin 2) (width offset : Int)
    (hw : 0 < width ∧ width ≤ 81) (ho : 0 ≤ offset) :
    ∀ (n : Nat) (hn : n ≤ 16) (dev : Dev),
      ∃ d, for_upto (repaint_cell busy y width offset) n hn dev = some d := by
  intro n
  induction n with
  | zero => intro _ dev; exact ⟨dev, rfl⟩
  | succ n ih =>
    intro hn dev
    obtain ⟨m, hm⟩ := ih (Nat.le_of_succ_le hn) dev
    obtain ⟨d, hd⟩ := repaint_cell_some busy y width offset m ⟨n, Nat.lt_of_succ_le hn⟩ hw ho
    refine ⟨d, ?_⟩
    simp only [for_upto]
    rw [hm]
    exact hd

theorem repaint_row_some (busy : Nat → Bool) (scrollpos : Int) (dev : Dev) (y : Fin 2)
    (hw : 0 < (dev.line y).width ∧ (dev.line y).width ≤ 81) (hs : 0 ≤ scrollpos) :
    ∃ d, repaint_row busy scrollpos dev y = some d := by
  unfold repaint_row
  dsimp only
  apply repaint_cols_some busy y _ _ hw
  split
  · exact Int.le_refl 0
  · exact Int.ediv_nonneg (Int.mul_nonneg hs (Int.ofNat_nonneg _)) (by omega)

/-- The repaint is defined whenever every row width is in `1..81` and the
scroll position is not negative. -/
theorem lcd_repaint_screen_some (busy : Nat → Bool) (dev : Dev)
    (hw : ∀ y : Fin 2, 0 < (dev.line y).width ∧ (dev.line y).width ≤ 81)
    (hs : 0 ≤ dev.scrollpos) :
    ∃ d, lcd_repaint_screen busy dev = some d ∧ repaint_frame dev d := by
  obtain ⟨m, hm⟩ := repaint_row_some busy dev.scrollpos dev 0 (hw 0) hs
  have fm := (repaint_cols_spec busy _ _ _ 16 (Nat.le_refl 16) dev m hm).1
  have hw1 : 0 < (m.line 1).width ∧ (m.line 1).width ≤ 81 := by
    rw [(fm.2.2.2.2.2.2.2.2.1 1).2.1]
    exact hw 1
  obtain ⟨d, hd⟩ := repaint_row_some busy dev.scrollpos m 1 hw1 hs
  have h : lcd_repaint_screen busy dev = some d := by
    unfold lcd_repaint_screen
    simp only [for_upto, Option.some_bind]
    have hm0 : repaint_row busy dev.scrollpos dev ⟨0, by omega⟩ = some m := hm
    rw [hm0]
    exact hd
  exact ⟨d, h, (lcd_repaint_screen_spec busy dev d h).1⟩

/-- With no timer interrupt during the call, the repaint loop of
`alt_lcd_16207_write` leaves after its first turn. -/
theorem write_repaint_one (busy : Nat → Bool) (dev : Dev) :
    write_repaint busy 1 dev =
      (lcd_repaint_screen busy dev).bind fun d => some { d with active := false } := by
  simp only [write_repaint]
  cases h : lcd_repaint_screen busy dev with
  | none => rfl
  | some d =>
    have f := (lcd_repaint_screen_spec busy dev d h).1
    simp only [Option.some_bind]
    rw [if_pos f.2.2.2.1]

/-! ## C9: repainting twice -/

/-- C9.  For every display state whose rows all have `width > 0`: when
`lcd_repaint_screen` is run twice in a row with nothing changed in between,
the second run returns the state the first run produced, unchanged, with the
controller's poll count and transfer log as they were: it polls nothing and
transfers no command and no data byte.  The first run itself is defined as
soon as, moreover, no width exceeds the 81 cells of a row and the scroll
position is not negative. -/
theorem C9_repaint_idempotent (busy : Nat → Bool) (dev : Dev)
    (hw : ∀ y : Fin 2, (dev.line y).width > 0) :
    (∀ d, lcd_repaint_screen busy dev = some d → lcd_repaint_screen busy d = some d) ∧
    ((∀ y : Fin 2, (dev.line y).width ≤ 81) → 0 ≤ dev.scrollpos →
      ∃ d, lcd_repaint_screen busy dev = some d) := by
  refine ⟨fun d h => lcd_repaint_screen_twice busy dev d h, fun h81 hs => ?_⟩
  obtain ⟨d, hd, _⟩ := lcd_repaint_screen_some busy dev (fun y => ⟨hw y, h81 y⟩) hs
  exact ⟨d, hd⟩

/-- C9 at a concrete input: the layout of a display holding `Hi`, whose
shadows are still blank. -/
theorem C9_witness :
    (∀ y : Fin 2, ((write_layout (printed fresh [72, 105])).line y).width > 0) ∧
    (∀ d, lcd_repaint_screen ready (write_layout (printed fresh [72, 105])) = some d →
      lcd_repaint_screen ready d = some d) :=
  ⟨by decide, (C9_repaint_idempotent ready (write_layout (printed fresh [72, 105]))
    (by decide)).1⟩

/-! ## Whole writes: parsing, layout and repaint -/

theorem write_parse_append (busy : Nat → Bool) (l1 l2 : List Nat) :
    ∀ dev : Dev, write_parse busy dev (l1 ++ l2) =
      (write_parse busy dev l1).bind fun d => write_parse busy d l2 := by
  induction l1 with
  | nil => intro dev; rfl
  | cons c cs ih =>
    intro dev
    simp only [List.cons_append, write_parse]
    cases write_byte busy dev c with
    | none => rfl
    | some d => exact ih d

/-- The carriage-return step in the normal parser state. -/
theorem write_byte_cr (busy : Nat → Bool) (dev : Dev) (hn : dev.esccount < 0) :
    write_byte busy dev 13 = some { dev with x := 0 } := by
  have h1 : ¬ dev.esccount ≥ 0 := by omega
  unfold write_byte
  simp [h1]

/-- Two short lines separated by CR LF, written from the top left corner. -/
theorem parse_two_lines (busy : Nat → Bool) (dev : Dev) (a b : List Nat)
    (hn : dev.esccount < 0) (hx : dev.x = 0) (hy : dev.y = 0)
    (ha : ∀ c ∈ a, 32 ≤ c ∧ c ≤ 126) (hb : ∀ c ∈ b, 32 ≤ c ∧ c ≤ 126)
    (hla : a.length ≤ 255) (hlb : b.length ≤ 255) :
    write_parse busy dev (a ++ [13, 10] ++ b) =
      some (printed { printed dev a with x := 0, y := 1 } b) := by
  rw [List.append_assoc, write_parse_append,
    write_parse_printable busy a dev hn (by omega) ha (by omega)]
  simp only [Option.some_bind, List.cons_append, List.nil_append, write_parse]
  rw [write_byte_cr busy (printed dev a) hn]
  simp only [Option.some_bind]
  rw [write_byte_lf busy { printed dev a with x := 0 } hn]
  simp only [Option.some_bind]
  have hy1 : (printed dev a).y = 0 := hy
  simp only [hy1]
  rw [if_neg (by decide)]
  exact write_parse_printable busy b _ hn (by simp only; omega) hb (by simp only; omega)

/-- The trimmed width of a row that is blank from column `n` on is at most
`n`. -/
theorem trimmed_width_le (data : Fin 81 → Nat) (n : Nat)
    (hblank : ∀ col : Fin 81, n ≤ col.val → col.val < 80 → data col = 32) :
    ∀ (w : Nat) (h : w ≤ 80), trimmed_width data w h ≤ n := by
  intro w
  induction w with
  | zero => intro _; exact Nat.zero_le _
  | succ w ih =>
    intro h
    simp only [trimmed_width]
    split
    · rename_i hne
      by_contra hc
      exact hne (hblank ⟨w, by omega⟩ (by simp only; omega) (by simp only; omega))
    · exact ih _

theorem line_width_short (data : Fin 81 → Nat)
    (hblank : ∀ col : Fin 81, 16 ≤ col.val → col.val < 80 → data col = 32) :
    line_width data = 16 := by
  unfold line_width
  rw [if_pos (trimmed_width_le data 16 hblank 80 (Nat.le_refl 80))]

/-- The layout of a display whose two rows fit the panel. -/
theorem write_layout_short (dev : Dev)
    (h : ∀ r : Fin 2, line_width (dev.line r).data = 16) :
    write_layout dev =
      { dev with
        line := fun y => { dev.line y with width := 16, speed := 0 },
        scrollmax := 0 } := by
  unfold write_layout
  simp only [h]
  rfl

/-- The device right after initialisation: normal parser state, cursor at the
top left, nothing scrolling, every row blank. -/
theorem alt_lcd_16207_init_spec (busy : Nat → Bool) (dev0 : Dev) :
    (alt_lcd_16207_init busy dev0).esccount = -1 ∧
    (alt_lcd_16207_init busy dev0).x = 0 ∧ (alt_lcd_16207_init busy dev0).y = 0 ∧
    (alt_lcd_16207_init busy dev0).scrollpos = 0 ∧
    (alt_lcd_16207_init busy dev0).scrollmax = 0 ∧
    (∀ (r : Fin 2) (col : Fin 81), ((alt_lcd_16207_init busy dev0).line r).data col = 32) ∧
    (∀ (r : Fin 2) (x : Fin 16), ((alt_lcd_16207_init busy dev0).line r).visible x = 32) ∧
    (∀ r : Fin 2, ((alt_lcd_16207_init busy dev0).line r).width = 0) := by
  unfold alt_lcd_16207_init
  dsimp only
  refine ⟨rfl, ?_, ?_, rfl, rfl, ?_, ?_, ?_⟩
  · rw [(lcd_write_command_frame busy _ _).1.1, (lcd_write_command_frame busy _ _).1.1]
    rfl
  · rw [(lcd_write_command_frame busy _ _).1.2.1, (lcd_write_command_frame busy _ _).1.2.1]
    rfl
  · intro r col
    rw [(lcd_write_command_frame busy _ _).2.1, (lcd_write_command_frame busy _ _).2.1]
    rfl
  · intro r x
    rw [(lcd_write_command_frame busy _ _).2.1, (lcd_write_command_frame busy _ _).2.1]
    rfl
  · intro r
    rw [(lcd_write_command_frame busy _ _).2.1, (lcd_write_command_frame busy _ _).2.1]
    rfl

theorem getD_blank (a : List Nat) (k : Nat) (h : k < a.length) :
    a.getD k 0 = a.getD k 32 := by
  rw [List.getD_eq_getElem a 0 h, List.getD_eq_getElem a 32 h]

theorem getD_blank_out (a : List Nat) (k : Nat) (h : ¬ k < a.length) :
    a.getD k 32 = 32 := by
  rw [List.getD_eq_default a 32 (by omega)]

/-- The rows after two short lines have been parsed on a blank display. -/
theorem two_lines_data (dev : Dev) (a b : List Nat)
    (hx : dev.x = 0) (hy : dev.y = 0)
    (hblank : ∀ (r : Fin 2) (col : Fin 81), (dev.line r).data col = 32)
    (hla : a.length ≤ 16) (hlb : b.length ≤ 16) :
    (∀ col : Fin 81,
      ((printed { printed dev a with x := 0, y := 1 } b).line 0).data col = a.getD col.val 32) ∧
    (∀ col : Fin 81,
      ((printed { printed dev a with x := 0, y := 1 } b).line 1).data col = b.getD col.val 32) := by
  constructor
  · intro col
    simp only [printed, hx, hy, hblank]
    rw [if_neg (by simp)]
    by_cases hc : col.val < a.length
    · rw [if_pos ⟨by simp, by omega, by omega, by omega⟩]
      exact getD_blank a _ (by omega)
    · rw [if_neg (by omega), getD_blank_out a _ hc]
  · intro col
    simp only [printed, hx, hy, hblank]
    by_cases hc : col.val < b.length
    · rw [if_pos ⟨by simp, by omega, by omega, by omega⟩]
      exact getD_blank b _ (by omega)
    · rw [if_neg (by omega), if_neg (by simp), getD_blank_out b _ hc]

/-! ## C3: two short lines -/

/-- C3.  On a freshly initialised display, for all strings `a` and `b` of
printable non-blank characters of length at most 16, `alt_lcd_16207_write` of
`a ++ "\r\n" ++ b` returns the number of bytes and leaves row 0's virtual data
equal to `a` followed by blanks, row 1's equal to `b` followed by blanks, both
rows with `width = 16` and `speed = 0`, and `scrollmax = 0`. -/
theorem C3_two_lines (busy : Nat → Bool) (dev0 : Dev) (a b : List Nat)
    (ha : ∀ c ∈ a, 33 ≤ c ∧ c ≤ 126) (hb : ∀ c ∈ b, 33 ≤ c ∧ c ≤ 126)
    (hla : a.length ≤ 16) (hlb : b.length ≤ 16) :
    ∃ d, alt_lcd_16207_write busy (alt_lcd_16207_init busy dev0) (a ++ [13, 10] ++ b) =
        some (d, (a ++ [13, 10] ++ b).length) ∧
      (∀ col : Fin 81, (d.line 0).data col = a.getD col.val 32) ∧
      (∀ col : Fin 81, (d.line 1).data col = b.getD col.val 32) ∧
      (d.line 0).width = 16 ∧ (d.line 1).width = 16 ∧
      (d.line 0).speed = 0 ∧ (d.line 1).speed = 0 ∧ d.scrollmax = 0 := by
  obtain ⟨i1, i2, i3, i4, _, i6, _, _⟩ := alt_lcd_16207_init_spec busy dev0
  have hp := parse_two_lines busy { alt_lcd_16207_init busy dev0 with active := true } a b
    (by simp only [i1]; decide) i2 i3
    (fun c h => ⟨by have := (ha c h).1; omega, (ha c h).2⟩)
    (fun c h => ⟨by have := (hb c h).1; omega, (hb c h).2⟩) (by omega) (by omega)
  obtain ⟨hd0, hd1⟩ := two_lines_data { alt_lcd_16207_init busy dev0 with active := true } a b
    i2 i3 i6 hla hlb
  have hsp : (printed { printed { alt_lcd_16207_init busy dev0 with active := true } a
    with x := 0, y := 1 } b).scrollpos = 0 := i4
  generalize printed { printed { alt_lcd_16207_init busy dev0 with active := true } a
    with x := 0, y := 1 } b = p at hp hd0 hd1 hsp
  have hrow : ∀ r : Fin 2, line_width (p.line r).data = 16 := by
    intro r
    apply line_width_short
    intro col h16 _
    have hr : r = 0 ∨ r = 1 := by
      rcases r with ⟨v, hv⟩
      have : v = 0 ∨ v = 1 := by omega
      rcases this with h | h
      · left; exact Fin.ext h
      · right; exact Fin.ext h
    rcases hr with hr | hr
    · subst hr
      rw [hd0 col, getD_blank_out a _ (by omega)]
    · subst hr
      rw [hd1 col, getD_blank_out b _ (by omega)]
  have hl := write_layout_short p hrow
  obtain ⟨d2, hd2, f⟩ := lcd_repaint_screen_some busy (write_layout p)
    (by intro y; rw [hl]; exact ⟨by simp only; omega, by simp only; omega⟩) (by rw [hl]; exact Int.le_of_eq hsp.symm)
  refine ⟨{ d2 with active := false }, ?_, ?_⟩
  · unfold alt_lcd_16207_write
    rw [hp]
    simp only [Option.some_bind]
    rw [write_repaint_one, hd2]
    rfl
  · obtain ⟨_, _, _, _, f5, _, _, _, f9, _⟩ := f
    rw [hl] at f5 f9
    refine ⟨?_, ?_, (f9 0).2.1, (f9 1).2.1, (f9 0).2.2, (f9 1).2.2, f5⟩
    · intro col
      show (d2.line 0).data col = _
      rw [(f9 0).1]
      exact hd0 col
    · intro col
      show (d2.line 1).data col = _
      rw [(f9 1).1]
      exact hd1 col

/-- C3 at the strings `Hello` and `World`, on the zero-filled instance with a
controller that is always ready. -/
theorem C3_witness :
    ∃ d, alt_lcd_16207_write ready (alt_lcd_16207_init ready zero_dev)
        ([72, 101, 108, 108, 111] ++ [13, 10] ++ [87, 111, 114, 108, 100]) =
        some (d, 12) ∧
      (∀ col : Fin 81, (d.line 0).data col = [72, 101, 108, 108, 111].getD col.val 32) ∧
      (∀ col : Fin 81, (d.line 1).data col = [87, 111, 114, 108, 100].getD col.val 32) ∧
      (d.line 0).width = 16 ∧ (d.line 1).width = 16 ∧
      (d.line 0).speed = 0 ∧ (d.line 1).speed = 0 ∧ d.scrollmax = 0 :=
  C3_two_lines ready zero_dev [72, 101, 108, 108, 111] [87, 111, 114, 108, 100]
    (by decide) (by decide) (by decide) (by decide)

/-! ## C10: the sticky fault flag -/

/-- A controller that stays busy for `i` polls makes the wait loop time out
after exactly `i` polls. -/
theorem lcd_wait_stuck (busy : Nat → Bool) :
    ∀ (i p : Nat), 0 < i → (∀ k, k < i → busy (p + k) = true) →
      lcd_wait busy i p = (false, p + i) := by
  intro i
  induction i with
  | zero => intro p h _; exact absurd h (Nat.lt_irrefl 0)
  | succ i ih =>
    intro p _ hb
    have h0 : busy p = true := hb 0 (Nat.succ_pos i)
    simp only [lcd_wait, h0, if_true]
    by_cases hi : i = 0
    · subst hi
      rfl
    · rw [if_neg hi, ih (p + 1) (Nat.pos_of_ne_zero hi)
        (fun k hk => by rw [Nat.add_assoc, Nat.add_comm 1 k]; exact hb (k + 1) (by omega))]
      congr 1
      omega

theorem scroll_while_broken : ∀ (fuel : Nat) (dev : Dev),
    (scroll_while fuel dev).broken = dev.broken := by
  intro fuel
  induction fuel with
  | zero => intro dev; rfl
  | succ n ih =>
    intro dev
    simp only [scroll_while]
    split
    · rw [ih]; rfl
    · rfl

theorem lcd_clear_screen_broken (busy : Nat → Bool) (dev : Dev) (h : dev.broken = true) :
    (lcd_clear_screen busy dev).broken = true :=
  (lcd_write_command_frame busy dev 1).1.2.2.2.2.2.2.2.2.2 h

theorem lcd_handle_escape_broken (busy : Nat → Bool) (dev d : Dev) (c : Nat)
    (h : dev.broken = true) (hd : lcd_handle_escape busy dev c = some d) :
    d.broken = true := by
  unfold lcd_handle_escape at hd
  cases hp : escape_parms dev.escape with
  | none =>
    rw [hp] at hd
    exact Option.noConfusion hd
  | some parms =>
    rw [hp] at hd
    dsimp only [Option.some_bind] at hd
    by_cases h1 : c = 72 ∨ c = 102
    · rw [if_pos h1] at hd
      by_cases h2 : parms.1 > 0
      · rw [if_pos h2] at hd
        cases hd
        simp only [scroll_while_broken, apply_ite Dev.broken, ite_self]
        exact h
      · rw [if_neg h2] at hd
        cases hd
        simp only [apply_ite Dev.broken, ite_self]
        exact h
    · rw [if_neg h1] at hd
      by_cases h2 : c = 74
      · rw [if_pos h2] at hd
        by_cases h3 : parms.1 = 2
        · rw [if_pos h3] at hd
          cases hd
          exact lcd_clear_screen_broken busy dev h
        · rw [if_neg h3] at hd
          cases hd
          exact h
      · rw [if_neg h2] at hd
        by_cases h3 : c = 75
        · rw [if_pos h3] at hd
          by_cases h4 : parms.1 < 1
          · rw [if_pos h4] at hd
            by_cases h5 : dev.x < 80
            · rw [if_pos h5] at hd
              by_cases h6 : dev.y < 2
              · rw [dif_pos h6] at hd
                cases hd
                exact h
              · rw [dif_neg h6] at hd
                exact Option.noConfusion hd
            · rw [if_neg h5] at hd
              cases hd
              exact h
          · rw [if_neg h4] at hd
            cases hd
            exact h
        · rw [if_neg h3] at hd
          cases hd
          exact h

theorem write_byte_broken (busy : Nat → Bool) (dev d : Dev) (c : Nat)
    (h : dev.broken = true) (hd : write_byte busy dev c = some d) :
    d.broken = true := by
  unfold write_byte at hd
  dsimp only at hd
  by_cases h1 : dev.esccount ≥ 0
  · rw [if_pos h1] at hd
    by_cases h2 : (dev.esccount = 0 ∧ c ≠ 91) ∨ (dev.esccount > 0 ∧ isdigit c = false ∧ c ≠ 59)
    · rw [if_pos h2] at hd
      by_cases h3 : dev.esccount.toNat < 8
      · rw [dif_pos h3] at hd
        cases he : lcd_handle_escape busy
            { dev with escape := upd dev.escape ⟨dev.esccount.toNat, h3⟩ 0 } c with
        | none =>
          rw [he] at hd
          exact Option.noConfusion hd
        | some m =>
          rw [he] at hd
          cases hd
          exact lcd_handle_escape_broken busy
            { dev with escape := upd dev.escape ⟨dev.esccount.toNat, h3⟩ 0 } m c h he
      · rw [dif_neg h3] at hd
        exact Option.noConfusion hd
    · rw [if_neg h2] at hd
      split_ifs at hd <;> cases hd <;> exact h
  · rw [if_neg h1] at hd
    split_ifs at hd <;> cases hd <;> exact h

theorem write_parse_broken (busy : Nat → Bool) (bytes : List Nat) :
    ∀ (dev d : Dev), dev.broken = true → write_parse busy dev bytes = some d →
      d.broken = true := by
  induction bytes with
  | nil =>
    intro dev d h hd
    cases hd
    exact h
  | cons c cs ih =>
    intro dev d h hd
    simp only [write_parse] at hd
    cases hm : write_byte busy dev c with
    | none =>
      rw [hm] at hd
      exact Option.noConfusion hd
    | some m =>
      rw [hm] at hd
      exact ih m d (write_byte_broken busy dev m c h hm) hd

theorem write_layout_broken (dev : Dev) : (write_layout dev).broken = dev.broken := by
  unfold write_layout
  simp only [apply_ite Dev.broken, ite_self]

theorem alt_lcd_16207_write_broken (busy : Nat → Bool) (dev : Dev) (bytes : List Nat)
    (r : Dev × Nat) (h : dev.broken = true)
    (hr : alt_lcd_16207_write busy dev bytes = some r) : r.1.broken = true := by
  unfold alt_lcd_16207_write at hr
  cases h1 : write_parse busy { dev with active := true } bytes with
  | none =>
    rw [h1] at hr
    exact Option.noConfusion hr
  | some d1 =>
    rw [h1] at hr
    simp only [Option.some_bind, write_repaint_one] at hr
    have hb1 : d1.broken = true :=
      write_parse_broken busy bytes { dev with active := true } d1 h h1
    cases h2 : lcd_repaint_screen busy (write_layout d1) with
    | none =>
      rw [h2] at hr
      exact Option.noConfusion hr
    | some d2 =>
      rw [h2] at hr
      cases hr
      have f := (lcd_repaint_screen_spec busy _ d2 h2).1
      exact f.2.2.2.2.2.2.2.2.2 (by rw [write_layout_broken]; exact hb1)

theorem alt_lcd_16207_timeout_broken (busy : Nat → Bool) (dev d : Dev)
    (h : dev.broken = true) (hd : alt_lcd_16207_timeout busy dev = some d) :
    d.broken = true := by
  unfold alt_lcd_16207_timeout at hd
  dsimp only at hd
  split_ifs at hd
  · exact (lcd_repaint_screen_spec busy _ d hd).1.2.2.2.2.2.2.2.2.2 h
  · cases hd; exact h
  · exact (lcd_repaint_screen_spec busy _ d hd).1.2.2.2.2.2.2.2.2.2 h
  · cases hd; exact h

theorem run_events_broken (busy : Nat → Bool) (es : List Event) :
    ∀ (dev d : Dev), dev.broken = true → run_events busy dev es = some d →
      d.broken = true := by
  induction es with
  | nil =>
    intro dev d h hd
    cases hd
    exact h
  | cons e es ih =>
    intro dev d h hd
    cases e with
    | write bytes =>
      simp only [run_events] at hd
      cases hm : alt_lcd_16207_write busy dev bytes with
      | none =>
        rw [hm] at hd
        exact Option.noConfusion hd
      | some m =>
        rw [hm] at hd
        exact ih m.1 d (alt_lcd_16207_write_broken busy dev bytes m h hm) hd
    | tick =>
      simp only [run_events] at hd
      cases hm : alt_lcd_16207_timeout busy dev with
      | none =>
        rw [hm] at hd
        exact Option.noConfusion hd
      | some m =>
        rw [hm] at hd
        exact ih m d (alt_lcd_16207_timeout_broken busy dev m h hm) hd

/-- C10.  For `lcd_write_command` and `lcd_write_data` on a device that is
not yet broken: if the busy bit reads set on each of the 1,000,000 polls of
the wait loop, the register transfer is not performed (the log is unchanged)
and `broken` becomes true.  On a broken device every `lcd_write_command` and
`lcd_write_data` call returns the state unchanged, so it polls nothing and
transfers nothing; and `broken` is still true after every sequence of
`alt_lcd_16207_write` calls and Animator ticks. -/
theorem C10_broken_sticky (busy : Nat → Bool) (dev : Dev) (v : Nat) :
    (dev.broken = false → (∀ k, k < 1000000 → busy (dev.polls + k) = true) →
      (lcd_write_command busy dev v).broken = true ∧
      (lcd_write_command busy dev v).log = dev.log ∧
      (lcd_write_data busy dev v).broken = true ∧
      (lcd_write_data busy dev v).log = dev.log) ∧
    (dev.broken = true →
      lcd_write_command busy dev v = dev ∧ lcd_write_data busy dev v = dev ∧
      ∀ (es : List Event) (d : Dev), run_events busy dev es = some d → d.broken = true) := by
  constructor
  · intro hb hbusy
    have hw := lcd_wait_stuck busy 1000000 dev.polls (by omega) hbusy
    unfold lcd_write_command lcd_write_data
    simp only [hb, hw]
    simp
  · intro hb
    refine ⟨?_, ?_, fun es d hd => run_events_broken busy es dev d hb hd⟩
    · unfold lcd_write_command
      rw [if_pos hb]
    · unfold lcd_write_data
      rw [if_pos hb]

/-- C10 at a concrete input: a stuck controller breaks the fresh device at
the first command, and the broken device stays broken through a write and a
tick. -/
theorem C10_witness :
    (lcd_write_command stuck fresh 1).broken = true ∧
    (lcd_write_command stuck fresh 1).log = fresh.log ∧
    (∀ (d : Dev), run_events stuck (lcd_write_command stuck fresh 1)
        [Event.write [72, 105], Event.tick] = some d → d.broken = true) :=
  have h1 := (C10_broken_sticky stuck fresh 1).1 (by decide) (fun _ _ => rfl)
  ⟨h1.1, h1.2.1,
    fun d hd => ((C10_broken_sticky stuck (lcd_write_command stuck fresh 1) 1).2 h1.1).2.2 _ d hd⟩

/-! ## C8: one row wider than the panel -/

theorem fin2_cases (r : Fin 2) : r = 0 ∨ r = 1 := by
  rcases r with ⟨v, hv⟩
  have : v = 0 ∨ v = 1 := by omega
  rcases this with h | h
  · left; exact Fin.ext h
  · right; exact Fin.ext h

/-- The layout when row `y` holds a line of trimmed length `n > 16` and the
other row fits the panel: row `y` gets width `n + 1` and speed `128`, and the
value stored in `scrollmax` is `2 * (n + 1)` converted to `char`. -/
theorem write_layout_single_wide (dev : Dev) (y : Fin 2) (n : Nat)
    (hn : 16 < n ∧ n ≤ 80)
    (hy : trimmed_width (dev.line y).data 80 (Nat.le_refl 80) = n)
    (ho : ∀ r : Fin 2, r ≠ y → trimmed_width (dev.line r).data 80 (Nat.le_refl 80) ≤ 16) :
    ((write_layout dev).line y).width = n + 1 ∧
    ((write_layout dev).line y).speed = 128 ∧
    (write_layout dev).scrollmax = to_char (2 * (n + 1)) := by
  have hwy : line_width (dev.line y).data = (n : Int) + 1 := by
    unfold line_width
    rw [hy, if_neg (by omega)]
  have hwo : ∀ r : Fin 2, r ≠ y → line_width (dev.line r).data = 16 := by
    intro r hr
    unfold line_width
    rw [if_pos (ho r hr)]
  have hsp : to_uchar (256 * ((n : Int) + 1) / (((n : Int) + 1) * 2)) = 128 := by
    have e : 256 * ((n : Int) + 1) = 128 * (((n : Int) + 1) * 2) := by ring
    rw [e, Int.mul_ediv_cancel _ (by omega)]
    rfl
  have c1 : (16 : Int) < (n : Int) + 1 := by omega
  have c2 : ¬ ((n : Int) + 1 < 16) := by omega
  have c3 : ¬ ((n : Int) + 1 ≤ 16) := by omega
  have c4 : ¬ ((16 : Int) < 16) := by omega
  have c5 : (n : Int) + 1 > 16 := by omega
  unfold write_layout
  rcases fin2_cases y with h | h
  · subst h
    have h1 := hwo 1 (by decide)
    simp only [hwy, h1, c1, c2, c3, c5, if_true, if_false, hsp]
    exact ⟨trivial, trivial, by congr 1; ring⟩
  · subst h
    have h0 := hwo 0 (by decide)
    simp only [hwy, h0, c1, c3, c4, c5, if_true, if_false, hsp]
    exact ⟨trivial, trivial, by congr 1; ring⟩

/-- C8 fails on the code for lines of 63 to 80 characters.  Writing 63 bytes
`A` on a fresh display gives row 0 the width 64 and the speed 128, but the
value stored in the `char` field `scrollmax` is -128, not 2 x 64 = 128; with
that value the next Animator tick leaves `scrollpos` at 0 instead of
advancing it, so the line never scrolls. -/
theorem C8_scrollmax_overflow :
    (alt_lcd_16207_write ready fresh (List.replicate 63 65)).map
      (fun r => ((r.1.line 0).width, (r.1.line 0).speed, r.1.scrollmax)) =
      some (64, 128, -128) ∧
    ((alt_lcd_16207_write ready fresh (List.replicate 63 65)).bind
      (fun r => alt_lcd_16207_timeout ready r.1)).map (fun d => d.scrollpos) = some 0 := by
  decide!

/-- The witness given with C8 holds on the code: a line of 30 characters gets
width 31, speed 128 and `scrollmax` 62, and the Animator advances. -/
theorem C8_thirty :
    (alt_lcd_16207_write ready fresh (List.replicate 30 65)).map
      (fun r => ((r.1.line 0).width, (r.1.line 0).speed, r.1.scrollmax)) =
      some (31, 128, 62) ∧
    ((alt_lcd_16207_write ready fresh (List.replicate 30 65)).bind
      (fun r => alt_lcd_16207_timeout ready r.1)).map (fun d => d.scrollpos) = some 1 := by
  decide!

/-! ## C20 and C15: the Animator tick -/

/-- The tick while the foreground is active only moves `scrollpos`. -/
theorem alt_lcd_16207_timeout_active (busy : Nat → Bool) (dev : Dev)
    (ha : dev.active = true) :
    alt_lcd_16207_timeout busy dev = some
      { dev with scrollpos := if dev.scrollpos + 1 ≥ dev.scrollmax then 0 else dev.scrollpos + 1 } := by
  unfold alt_lcd_16207_timeout
  dsimp only
  by_cases h : dev.scrollpos + 1 ≥ dev.scrollmax
  · rw [if_pos h, if_pos h, if_neg (by simp [ha])]
  · rw [if_neg h, if_neg h, if_neg (by simp [ha])]

/-- The tick when nothing scrolls (`scrollmax ≤ 0`) only moves `scrollpos`. -/
theorem alt_lcd_16207_timeout_static (busy : Nat → Bool) (dev : Dev)
    (hm : dev.scrollmax ≤ 0) :
    alt_lcd_16207_timeout busy dev = some
      { dev with scrollpos := if dev.scrollpos + 1 ≥ dev.scrollmax then 0 else dev.scrollpos + 1 } := by
  unfold alt_lcd_16207_timeout
  dsimp only
  by_cases h : dev.scrollpos + 1 ≥ dev.scrollmax
  · rw [if_pos h, if_pos h, if_neg (by simp only [not_and]; intro h1; omega)]
  · rw [if_neg h, if_neg h, if_neg (by simp only [not_and]; intro h1; omega)]

/-- The scroll position after a tick, whenever the tick is defined. -/
theorem alt_lcd_16207_timeout_scrollpos (busy : Nat → Bool) (dev d : Dev)
    (h : alt_lcd_16207_timeout busy dev = some d) :
    d.scrollpos = if dev.scrollpos + 1 ≥ dev.scrollmax then 0 else dev.scrollpos + 1 := by
  unfold alt_lcd_16207_timeout at h
  dsimp only at h
  by_cases hc : dev.scrollpos + 1 ≥ dev.scrollmax
  · rw [if_pos hc] at h
    rw [if_pos hc]
    split_ifs at h
    · exact (lcd_repaint_screen_spec busy _ d h).1.2.2.2.1
    · cases h; rfl
  · rw [if_neg hc] at h
    rw [if_neg hc]
    split_ifs at h
    · exact (lcd_repaint_screen_spec busy _ d h).1.2.2.2.1
    · cases h; rfl

/-- C20.  For every state with `active` (write in progress) true,
`alt_lcd_16207_timeout` returns the state with only `scrollpos` changed: the
rows, the shadows, the cursor, the tracked address and `broken` are as they
were, and so are the controller's poll count and transfer log (no status read,
no command, no data byte). -/
theorem C20_tick_during_write (busy : Nat → Bool) (dev : Dev) (ha : dev.active = true) :
    ∃ d, alt_lcd_16207_timeout busy dev = some d ∧
      d = { dev with scrollpos := d.scrollpos } ∧
      d.log = dev.log ∧ d.polls = dev.polls ∧ d.line = dev.line ∧
      d.x = dev.x ∧ d.y = dev.y ∧ d.address = dev.address ∧ d.broken = dev.broken :=
  ⟨_, alt_lcd_16207_timeout_active busy dev ha, rfl, rfl, rfl, rfl, rfl, rfl, rfl, rfl⟩

/-- C20 at a concrete input.  The initialised display after a write of the
twenty letters `a` to `t` and one Animator tick, on a controller that is always
ready, scrolls (`scrollmax = 42 > 0`) and is at scroll position 1.  In that
state a tick with `active` clear repaints: it transfers data bytes and changes
the shadows.  The same tick with `active` set moves the scroll position to 2
and leaves the transfer log, the poll count, the rows with their shadows, the
cursor, the tracked address and `broken` as they were. -/
theorem C20_witness :
    ∃ d0, run_events ready fresh
        [Event.write [97, 98, 99, 100, 101, 102, 103, 104, 105, 106, 107, 108, 109, 110, 111,
          112, 113, 114, 115, 116], Event.tick] = some d0 ∧
      0 < d0.scrollmax ∧ d0.scrollpos = 1 ∧
      (∃ d2, alt_lcd_16207_timeout ready d0 = some d2 ∧
        data_bytes d2.log ≠ data_bytes d0.log ∧ d2.line ≠ d0.line) ∧
      ({ d0 with active := true } : Dev).active = true ∧
      ∃ d, alt_lcd_16207_timeout ready { d0 with active := true } = some d ∧
        d.scrollpos = 2 ∧ d.log = d0.log ∧ d.polls = d0.polls ∧ d.line = d0.line ∧
        d.x = d0.x ∧ d.y = d0.y ∧ d.address = d0.address ∧ d.broken = d0.broken :=
  (Option.isSome_iff_exists.1 (by decide! :
    (run_events ready fresh
      [Event.write [97, 98, 99, 100, 101, 102, 103, 104, 105, 106, 107, 108, 109, 110, 111,
        112, 113, 114, 115, 116], Event.tick]).isSome = true)).imp
    (fun d0 h => by
      have e : (run_events ready fresh
          [Event.write [97, 98, 99, 100, 101, 102, 103, 104, 105, 106, 107, 108, 109, 110, 111,
            112, 113, 114, 115, 116], Event.tick]).map
          (fun d => (d.scrollmax, d.scrollpos)) = some (42, 1) := by decide!
      rw [h] at e
      have e2 := Option.some.inj e
      have hm : d0.scrollmax = 42 := congrArg Prod.fst e2
      have hp : d0.scrollpos = 1 := congrArg Prod.snd e2
      have c : (run_events ready fresh
          [Event.write [97, 98, 99, 100, 101, 102, 103, 104, 105, 106, 107, 108, 109, 110, 111,
            112, 113, 114, 115, 116], Event.tick]).bind
          (fun d0 => (alt_lcd_16207_timeout ready d0).map
            (fun d2 => (decide (data_bytes d2.log ≠ data_bytes d0.log),
              decide ((d2.line 0).visible 0 ≠ (d0.line 0).visible 0)))) = some (true, true) := by
        decide!
      rw [h, Option.some_bind] at c
      obtain ⟨d2, hd2, c2⟩ := Option.map_eq_some'.1 c
      have c3 := of_decide_eq_true (congrArg Prod.fst c2)
      have c4 := of_decide_eq_true (congrArg Prod.snd c2)
      obtain ⟨d, hd, _, r⟩ := C20_tick_during_write ready { d0 with active := true } rfl
      refine ⟨h, by omega, hp, ⟨d2, hd2, c3, fun hl => c4 (by rw [hl])⟩, rfl, d, hd, ?_, r⟩
      rw [alt_lcd_16207_timeout_scrollpos ready _ d hd]
      show (if d0.scrollpos + 1 ≥ d0.scrollmax then 0 else d0.scrollpos + 1) = 2
      rw [hm, hp]
      rfl)

/-- C15 (amended).  One Animator tick sets `scrollpos` to `0` when
`scrollpos + 1 ≥ scrollmax` and to `scrollpos + 1` otherwise.  So for every
state with `scrollmax > 0` and `0 ≤ scrollpos < scrollmax` the new position is
`(scrollpos + 1) mod scrollmax`, and the tick is defined as soon as `active`
is set or every row width is in `1..81`.  For every state with
`scrollmax = 0` and `scrollpos ≥ 0` the tick sets `scrollpos` to `0` and
changes nothing else (no poll, no transfer): it is a no-op only when
`scrollpos` was `0` already. -/
theorem C15_tick (busy : Nat → Bool) (dev : Dev) (hs : 0 ≤ dev.scrollpos) :
    (0 < dev.scrollmax → dev.scrollpos < dev.scrollmax →
      (∀ d, alt_lcd_16207_timeout busy dev = some d →
        d.scrollpos = (dev.scrollpos + 1) % dev.scrollmax) ∧
      ((dev.active = true ∨ ∀ y : Fin 2, 0 < (dev.line y).width ∧ (dev.line y).width ≤ 81) →
        ∃ d, alt_lcd_16207_timeout busy dev = some d)) ∧
    (dev.scrollmax = 0 →
      alt_lcd_16207_timeout busy dev = some { dev with scrollpos := 0 }) := by
  constructor
  · intro hm hlt
    constructor
    · intro d hd
      rw [alt_lcd_16207_timeout_scrollpos busy dev d hd]
      by_cases hc : dev.scrollpos + 1 ≥ dev.scrollmax
      · rw [if_pos hc]
        have e : dev.scrollpos + 1 = dev.scrollmax := by omega
        rw [e, Int.emod_self]
      · rw [if_neg hc, Int.emod_eq_of_lt (by omega) (by omega)]
    · intro hd
      rcases hd with ha | hw
      · exact ⟨_, alt_lcd_16207_timeout_active busy dev ha⟩
      · unfold alt_lcd_16207_timeout
        dsimp only
        split_ifs
        · obtain ⟨d, hd, _⟩ := lcd_repaint_screen_some busy { dev with scrollpos := 0 } hw
            (Int.le_refl 0)
          exact ⟨d, hd⟩
        · exact ⟨_, rfl⟩
        · obtain ⟨d, hd, _⟩ := lcd_repaint_screen_some busy
            { dev with scrollpos := dev.scrollpos + 1 } hw (by simp only; omega)
          exact ⟨d, hd⟩
        · exact ⟨_, rfl⟩
  · intro hm
    rw [alt_lcd_16207_timeout_static busy dev (by omega), if_pos (by omega)]

/-- C15, as stated, fails in both parts.  After a write of 20 characters,
three ticks and a write of `ESC [ 2 J` the device has `scrollmax = 0` and
`scrollpos = 3`, and the next tick changes `scrollpos` to 0: not a no-op.  And
from `scrollpos = -100` with `scrollmax = 10` the tick gives -99, which is
`(scrollpos + 1) mod scrollmax` under no reading of `mod` (1 rounding down, -9
truncating). -/
theorem C15_counterexample :
    (run_events ready fresh [Event.write (List.replicate 20 66), Event.tick, Event.tick,
        Event.tick, Event.write [27, 91, 50, 74]]).map
      (fun d => (d.scrollmax, d.scrollpos)) = some (0, 3) ∧
    (run_events ready fresh [Event.write (List.replicate 20 66), Event.tick, Event.tick,
        Event.tick, Event.write [27, 91, 50, 74], Event.tick]).map
      (fun d => (d.scrollmax, d.scrollpos)) = some (0, 0) ∧
    (alt_lcd_16207_timeout ready
        { fresh with scrollmax := 10, scrollpos := -100, active := true }).map
      (fun d => (d.scrollpos, (-100 + 1 : Int) % 10, Int.tmod (-100 + 1) 10)) =
      some (-99, 1, -9) := by
  decide!

/-- C15 (amended) at a concrete input: a tick on a device with
`scrollmax = 38` and `scrollpos = 37` wraps to 0. -/
theorem C15_witness :
    (0 : Int) ≤ ({ fresh with scrollmax := 38, scrollpos := 37, active := true } : Dev).scrollpos ∧
    ∀ d, alt_lcd_16207_timeout ready
        { fresh with scrollmax := 38, scrollpos := 37, active := true } = some d →
      d.scrollpos = (37 + 1) % 38 :=
  ⟨by decide,
    ((C15_tick ready { fresh with scrollmax := 38, scrollpos := 37, active := true }
      (by decide)).1 (by decide) (by decide)).1⟩

/-! ## C14: clearing the screen and the scroll position -/

/-- C14 (amended).  For every display state in the normal parser state, the
bytes `ESC [ 2 J` leave `scrollpos` as it was (and `scrollmax` too):
`lcd_clear_screen` resets the cursor, the tracked address and the rows, not
the scroll position. -/
theorem C14_clear_keeps_scrollpos (busy : Nat → Bool) (dev : Dev) (hn : dev.esccount < 0) :
    ∃ d, write_parse busy dev [27, 91, 50, 74] = some d ∧
      d.scrollpos = dev.scrollpos ∧ d.scrollmax = dev.scrollmax := by
  refine ⟨_, parse_esc_2J busy dev hn, ?_, ?_⟩
  · exact (lcd_write_command_frame busy _ 1).1.2.2.2.1
  · exact (lcd_write_command_frame busy _ 1).1.2.2.2.2.1

/-- C14, as stated, fails: after a write of 20 characters and three ticks the
scroll position is 3, and it is still 3 after a write of `ESC [ 2 J`. -/
theorem C14_counterexample :
    (run_events ready fresh [Event.write (List.replicate 20 66), Event.tick, Event.tick,
        Event.tick]).map (fun d => d.scrollpos) = some 3 ∧
    (run_events ready fresh [Event.write (List.replicate 20 66), Event.tick, Event.tick,
        Event.tick, Event.write [27, 91, 50, 74]]).map (fun d => d.scrollpos) = some 3 := by
  decide!

/-- C14 (amended) at a concrete input: a device with `scrollpos = 3`. -/
theorem C14_witness :
    ({ fresh with scrollpos := 3 } : Dev).esccount < 0 ∧
    ∃ d, write_parse ready { fresh with scrollpos := 3 } [27, 91, 50, 74] = some d ∧
      d.scrollpos = 3 :=
  ⟨by decide, (C14_clear_keeps_scrollpos ready { fresh with scrollpos := 3 } (by decide)).imp
    (fun _ h => ⟨h.1, h.2.1⟩)⟩

/-! ## C16: row parameters beyond twice the height -/

/-- The commands `H` and `f` clamp and scroll as for row parameter 5 whenever
the row `parm1 - 1`, once converted to `unsigned char`, exceeds 4. -/
theorem lcd_handle_escape_H_clamped (busy : Nat → Bool) (dev : Dev) (cmd : Nat) (p1 p2 : Int)
    (hcmd : cmd = 72 ∨ cmd = 102)
    (hp : escape_parms dev.escape = some (p1, p2)) (h1 : p1 > 0)
    (h4 : to_uchar (p1 - 1) > 4) :
    ∃ d, lcd_handle_escape busy dev cmd = some d ∧ d.scrolls = dev.scrolls + 2 ∧ d.y = 2 ∧
      ∀ (r : Fin 2) (col : Fin 81), col.val < 80 → (d.line r).data col = 32 := by
  unfold lcd_handle_escape
  rw [hp]
  dsimp only [Option.some_bind]
  rw [if_pos hcmd, if_pos h1, if_pos h4]
  refine ⟨_, rfl, ?_, ?_, ?_⟩
  · by_cases hc : p2 > 0 <;> simp [hc, scroll_while, lcd_scroll_up]
  · by_cases hc : p2 > 0 <;> simp [hc, scroll_while, lcd_scroll_up]
  · intro r col hcol
    by_cases hc : p2 > 0 <;> simp [hc, scroll_while, lcd_scroll_up, hcol] <;>
      split <;> simp [hcol]

/-- C16 fails on the code for row parameters `r` with `(r - 1) mod 256 ≤ 4`.
On a display holding `Hi`, the bytes `ESC [ 2 5 7 H` leave the cursor on row 0
with no scroll-up and `Hi` still in row 0, because `dev->y = parm1 - 1` stores
256 into an `unsigned char` as 0 before the clamp is applied; for `r = 5` the
same display ends with the cursor on row 2 after 2 scroll-ups and blank rows. -/
theorem C16_row_truncated :
    (run_events ready fresh [Event.write [72, 105], Event.write [27, 91, 50, 53, 55, 72]]).map
      (fun d => (d.y, d.scrolls, (d.line 0).data 0, (d.line 0).data 1)) =
      some (0, 0, 72, 105) ∧
    (run_events ready fresh [Event.write [72, 105], Event.write [27, 91, 53, 72]]).map
      (fun d => (d.y, d.scrolls, (d.line 0).data 0, (d.line 0).data 1)) =
      some (2, 2, 32, 32) := by
  decide!

/-! ## C12: row widths in reachable states -/

theorem trimmed_width_le_self (data : Fin 81 → Nat) :
    ∀ (w : Nat) (h : w ≤ 80), trimmed_width data w h ≤ w := by
  intro w
  induction w with
  | zero => intro _; exact Nat.le_refl 0
  | succ w ih =>
    intro h
    simp only [trimmed_width]
    split
    · exact Nat.le_refl _
    · exact Nat.le_succ_of_le (ih _)

/-- The width computed by the layout is between the panel width and 81. -/
theorem line_width_bounds (data : Fin 81 → Nat) :
    16 ≤ line_width data ∧ line_width data ≤ 81 := by
  have h := trimmed_width_le_self data 80 (Nat.le_refl 80)
  unfold line_width
  split <;> omega

theorem write_layout_width (dev : Dev) (y : Fin 2) :
    ((write_layout dev).line y).width = line_width (dev.line y).data := by
  unfold write_layout
  dsimp only
  split_ifs <;> rfl

/-- The repaint loop of the write respects the repaint frame, but for
`active`. -/
theorem write_repaint_width (busy : Nat → Bool) (dev d : Dev)
    (h : write_repaint busy 1 dev = some d) (y : Fin 2) :
    (d.line y).data = (dev.line y).data ∧ (d.line y).width = (dev.line y).width ∧
      (d.line y).speed = (dev.line y).speed := by
  rw [write_repaint_one] at h
  cases h2 : lcd_repaint_screen busy dev with
  | none =>
    rw [h2] at h
    exact Option.noConfusion h
  | some m =>
    rw [h2] at h
    cases h
    exact (lcd_repaint_screen_spec busy dev m h2).1.2.2.2.2.2.2.2.2.1 y

/-- After every write each row width is between 16 and 81. -/
theorem alt_lcd_16207_write_width (busy : Nat → Bool) (dev : Dev) (bytes : List Nat)
    (r : Dev × Nat) (h : alt_lcd_16207_write busy dev bytes = some r) (y : Fin 2) :
    16 ≤ (r.1.line y).width ∧ (r.1.line y).width ≤ 81 := by
  unfold alt_lcd_16207_write at h
  cases h1 : write_parse busy { dev with active := true } bytes with
  | none =>
    rw [h1] at h
    exact Option.noConfusion h
  | some d1 =>
    rw [h1] at h
    simp only [Option.some_bind] at h
    cases h2 : write_repaint busy 1 (write_layout d1) with
    | none =>
      rw [h2] at h
      exact Option.noConfusion h
    | some d2 =>
      rw [h2] at h
      cases h
      rw [(write_repaint_width busy _ d2 h2 y).2.1, write_layout_width]
      exact line_width_bounds _

/-- A tick changes no row width. -/
theorem alt_lcd_16207_timeout_width (busy : Nat → Bool) (dev d : Dev)
    (h : alt_lcd_16207_timeout busy dev = some d) (y : Fin 2) :
    (d.line y).width = (dev.line y).width := by
  unfold alt_lcd_16207_timeout at h
  dsimp only at h
  split_ifs at h
  · exact ((lcd_repaint_screen_spec busy _ d h).1.2.2.2.2.2.2.2.2.1 y).2.1
  · cases h; rfl
  · exact ((lcd_repaint_screen_spec busy _ d h).1.2.2.2.2.2.2.2.2.1 y).2.1
  · cases h; rfl

/-- Row widths between 16 and 81 are kept by every sequence of writes and
ticks. -/
theorem run_events_width_kept (busy : Nat → Bool) (es : List Event) :
    ∀ (dev d : Dev), (∀ y : Fin 2, 16 ≤ (dev.line y).width ∧ (dev.line y).width ≤ 81) →
      run_events busy dev es = some d →
      ∀ y : Fin 2, 16 ≤ (d.line y).width ∧ (d.line y).width ≤ 81 := by
  induction es with
  | nil =>
    intro dev d hw h
    cases h
    exact hw
  | cons e es ih =>
    intro dev d hw h
    cases e with
    | write bytes =>
      simp only [run_events] at h
      cases hm : alt_lcd_16207_write busy dev bytes with
      | none =>
        rw [hm] at h
        exact Option.noConfusion h
      | some m =>
        rw [hm] at h
        exact ih m.1 d (alt_lcd_16207_write_width busy dev bytes m hm) h
    | tick =>
      simp only [run_events] at h
      cases hm : alt_lcd_16207_timeout busy dev with
      | none =>
        rw [hm] at h
        exact Option.noConfusion h
      | some m =>
        rw [hm] at h
        exact ih m d (fun y => by rw [alt_lcd_16207_timeout_width busy dev m hm y]; exact hw y) h

/-- Row widths along a sequence of writes and ticks: between 16 and 81 once a
write has happened, unchanged before. -/
theorem run_events_width (busy : Nat → Bool) (es : List Event) :
    ∀ (dev d : Dev), run_events busy dev es = some d →
      ((∃ bytes, Event.write bytes ∈ es) →
        ∀ y : Fin 2, 16 ≤ (d.line y).width ∧ (d.line y).width ≤ 81) ∧
      ((¬ ∃ bytes, Event.write bytes ∈ es) →
        ∀ y : Fin 2, (d.line y).width = (dev.line y).width) := by
  induction es with
  | nil =>
    intro dev d h
    cases h
    exact ⟨fun ⟨_, hb⟩ => absurd hb (List.not_mem_nil _), fun _ _ => rfl⟩
  | cons e es ih =>
    intro dev d h
    cases e with
    | write bytes =>
      simp only [run_events] at h
      cases hm : alt_lcd_16207_write busy dev bytes with
      | none =>
        rw [hm] at h
        exact Option.noConfusion h
      | some m =>
        rw [hm] at h
        refine ⟨fun _ => run_events_width_kept busy es m.1 d
          (alt_lcd_16207_write_width busy dev bytes m hm) h, fun hno => ?_⟩
        exact absurd ⟨bytes, List.mem_cons_self _ _⟩ hno
    | tick =>
      simp only [run_events] at h
      cases hm : alt_lcd_16207_timeout busy dev with
      | none =>
        rw [hm] at h
        exact Option.noConfusion h
      | some m =>
        rw [hm] at h
        obtain ⟨i1, i2⟩ := ih m d h
        constructor
        · rintro ⟨bytes, hb⟩
          rcases List.mem_cons.1 hb with hb | hb
          · exact Event.noConfusion hb
          · exact i1 ⟨bytes, hb⟩
        · intro hno y
          rw [i2 (fun ⟨bytes, hb⟩ => hno ⟨bytes, List.mem_cons_of_mem _ hb⟩) y]
          exact alt_lcd_16207_timeout_width busy dev m hm y

/-- C12 (amended).  In every state reached from `alt_lcd_16207_init` by a
sequence of `alt_lcd_16207_write` calls and Animator ticks that contains at
least one write, every row's width is at least the panel width 16 (and at
most 81); in the state right after initialisation, and after ticks only, every
row's width is 0. -/
theorem C12_width_at_least_panel (busy : Nat → Bool) (dev0 : Dev) (es : List Event) (d : Dev)
    (h : run_events busy (alt_lcd_16207_init busy dev0) es = some d) :
    ((∃ bytes, Event.write bytes ∈ es) →
      ∀ y : Fin 2, 16 ≤ (d.line y).width ∧ (d.line y).width ≤ 81) ∧
    ((¬ ∃ bytes, Event.write bytes ∈ es) → ∀ y : Fin 2, (d.line y).width = 0) := by
  obtain ⟨h1, h2⟩ := run_events_width busy es _ d h
  refine ⟨h1, fun hno y => ?_⟩
  rw [h2 hno y]
  exact (alt_lcd_16207_init_spec busy dev0).2.2.2.2.2.2.2 y

/-- C12, as stated, fails in the state right after initialisation, where both
rows have width 0. -/
theorem C12_counterexample :
    (run_events ready (alt_lcd_16207_init ready zero_dev) []).map
      (fun d => ((d.line 0).width, (d.line 1).width)) = some (0, 0) := by
  decide!

/-- C12 (amended) at concrete inputs.  After initialisation, a write of twenty
letters `a`, one Animator tick and a write of LF `H` `i`, with a controller
that is always ready, both rows have a width of at least 16: row 0, which
holds the twenty letters, has width 21 and row 1, which holds `Hi`, has
width 16.  In the state right after initialisation with a stuck controller
both widths are 0. -/
theorem C12_witness :
    (∃ d, run_events ready (alt_lcd_16207_init ready zero_dev)
        [Event.write (List.replicate 20 97), Event.tick, Event.write [10, 72, 105]] = some d ∧
      (∃ bytes, Event.write bytes ∈
        [Event.write (List.replicate 20 97), Event.tick, Event.write [10, 72, 105]]) ∧
      (∀ y : Fin 2, 16 ≤ (d.line y).width ∧ (d.line y).width ≤ 81) ∧
      (d.line 0).width = 21 ∧ (d.line 1).width = 16) ∧
    (run_events stuck (alt_lcd_16207_init stuck zero_dev) [] =
      some (alt_lcd_16207_init stuck zero_dev) ∧
    ∀ y : Fin 2, ((alt_lcd_16207_init stuck zero_dev).line y).width = 0) :=
  ⟨(Option.isSome_iff_exists.1 (by decide! :
    (run_events ready (alt_lcd_16207_init ready zero_dev)
      [Event.write (List.replicate 20 97), Event.tick, Event.write [10, 72, 105]]).isSome
      = true)).imp
    (fun d h => ⟨h, ⟨_, List.mem_cons_self _ _⟩,
      (C12_width_at_least_panel ready zero_dev _ d h).1 ⟨_, List.mem_cons_self _ _⟩,
      by
        have e : (run_events ready (alt_lcd_16207_init ready zero_dev)
            [Event.write (List.replicate 20 97), Event.tick, Event.write [10, 72, 105]]).map
            (fun d => ((d.line 0).width, (d.line 1).width)) = some (21, 16) := by decide!
        rw [h] at e
        have e2 := Option.some.inj e
        exact ⟨congrArg Prod.fst e2, congrArg Prod.snd e2⟩⟩),
    rfl, (C12_width_at_least_panel stuck zero_dev [] _ rfl).2
      (fun ⟨_, hb⟩ => absurd hb (List.not_mem_nil _))⟩

/-! ## C13: the shadow and the transfers -/

/-- A property kept by every turn of a loop is kept by the loop. -/
theorem for_upto_rel {N : Nat} (body : Dev → Fin N → Option Dev) (R : Dev → Dev → Prop)
    (hrefl : ∀ d, R d d) (htrans : ∀ a b c, R a b → R b c → R a c)
    (hstep : ∀ d x d1, body d x = some d1 → R d d1) :
    ∀ (n : Nat) (hn : n ≤ N) (dev d : Dev), for_upto body n hn dev = some d → R dev d := by
  intro n
  induction n with
  | zero =>
    intro hn dev d h
    simp only [for_upto] at h
    cases h
    exact hrefl _
  | succ n ih =>
    intro hn dev d h
    simp only [for_upto] at h
    cases hm : for_upto body n (Nat.le_of_succ_le hn) dev with
    | none =>
      rw [hm] at h
      exact Option.noConfusion h
    | some m =>
      rw [hm] at h
      exact htrans _ _ _ (ih _ dev m hm) (hstep m _ d h)

theorem port_quiet_refl (busy : Nat → Bool) (a : Dev) : port_quiet busy a a :=
  fun h => ⟨h, rfl⟩

theorem port_quiet_trans (busy : Nat → Bool) (a b c : Dev)
    (h1 : port_quiet busy a b) (h2 : port_quiet busy b c) : port_quiet busy a c :=
  fun h => ⟨(h2 (h1 h).1).1, (h2 (h1 h).1).2.trans (h1 h).2⟩

/-- A command sent to a device that cannot transfer is not transferred. -/
theorem lcd_write_command_quiet (busy : Nat → Bool) (dev : Dev) (c : Nat) :
    port_quiet busy dev (lcd_write_command busy dev c) := by
  intro hd
  unfold lcd_write_command
  by_cases hb : dev.broken = true
  · rw [if_pos hb]
    exact ⟨hd, rfl⟩
  · rw [if_neg hb]
    rcases hd with hd | hd
    · exact absurd hd hb
    · have hw := lcd_wait_stuck busy 1000000 dev.polls (by omega) (fun k _ => hd k)
      simp only [hw]
      exact ⟨Or.inl rfl, rfl⟩

/-- A data byte sent to a device that cannot transfer is not transferred. -/
theorem lcd_write_data_quiet (busy : Nat → Bool) (dev : Dev) (c : Nat) :
    port_quiet busy dev (lcd_write_data busy dev c) := by
  intro hd
  unfold lcd_write_data
  by_cases hb : dev.broken = true
  · rw [if_pos hb]
    exact ⟨hd, rfl⟩
  · rw [if_neg hb]
    rcases hd with hd | hd
    · exact absurd hd hb
    · have hw := lcd_wait_stuck busy 1000000 dev.polls (by omega) (fun k _ => hd k)
      simp only [hw]
      exact ⟨Or.inl rfl, rfl⟩

theorem repaint_cell_quiet (busy : Nat → Bool) (y : Fin 2) (width offset : Int) (dev : Dev)
    (x : Fin 16) (d : Dev) (h : repaint_cell busy y width offset dev x = some d) :
    port_quiet busy dev d := by
  unfold repaint_cell at h
  cases hc : repaint_char dev y width offset x with
  | none =>
    rw [hc] at h
    exact Option.noConfusion h
  | some c =>
    rw [hc] at h
    dsimp only [Option.some_bind] at h
    by_cases hv : (dev.line y).visible x ≠ c
    · rw [if_pos hv] at h
      cases h
      by_cases ha : (((x.val + colstart y) % 256 : Nat) : Int) ≠ dev.address
      · rw [if_pos ha]
        have q1 : port_quiet busy dev
            { lcd_write_command busy dev (0x80 ||| ((x.val + colstart y) % 256)) with
              address := (((x.val + colstart y) % 256 : Nat) : Int) } :=
          lcd_write_command_quiet busy dev _
        have q2 := lcd_write_data_quiet busy
            { lcd_write_command busy dev (0x80 ||| ((x.val + colstart y) % 256)) with
              address := (((x.val + colstart y) % 256 : Nat) : Int) } c
        exact port_quiet_trans busy _ _ _ q1 q2
      · rw [if_neg ha]
        exact lcd_write_data_quiet busy dev c
    · rw [if_neg hv] at h
      cases h
      exact port_quiet_refl busy dev

/-- A repaint on a device that cannot transfer transfers nothing. -/
theorem lcd_repaint_screen_quiet (busy : Nat → Bool) (dev d : Dev)
    (h : lcd_repaint_screen busy dev = some d) : port_quiet busy dev d := by
  unfold lcd_repaint_screen at h
  refine for_upto_rel (repaint_row busy dev.scrollpos) (port_quiet busy)
    (port_quiet_refl busy) (port_quiet_trans busy) ?_ 2 (Nat.le_refl 2) dev d h
  intro m y m1 hm
  unfold repaint_row at hm
  exact for_upto_rel _ (port_quiet busy) (port_quiet_refl busy) (port_quiet_trans busy)
    (fun a x b hab => repaint_cell_quiet busy y _ _ a x b hab) 16 (Nat.le_refl 16) m m1 hm

/-- C13 (amended).  `lcd_repaint_screen` sets every shadow cell to the
character it read for that cell whether or not the Port transfer was
performed: when the device is broken, or its busy bit stays set so that the
transfer aborts on the busy timeout, no command and no data byte is
transferred (the log is unchanged) and every shadow cell still takes the new
value.  `lcd_clear_screen` likewise blanks every shadow cell, also when the
clear command is not transferred.  (The repaint is defined when every row
width is in `1..81` and the scroll position is not negative.) -/
theorem C13_shadow_updated_regardless (busy : Nat → Bool) (dev : Dev) :
    (∀ d, lcd_repaint_screen busy dev = some d →
      (∀ (y : Fin 2) (x : Fin 16),
        repaint_char dev y (dev.line y).width (row_offset dev y) x =
          some ((d.line y).visible x)) ∧
      (port_dead busy dev → d.log = dev.log)) ∧
    ((∀ y : Fin 2, 0 < (dev.line y).width ∧ (dev.line y).width ≤ 81) → 0 ≤ dev.scrollpos →
      ∃ d, lcd_repaint_screen busy dev = some d) ∧
    (∀ (r : Fin 2) (x : Fin 16), ((lcd_clear_screen busy dev).line r).visible x = 32) ∧
    (port_dead busy dev → (lcd_clear_screen busy dev).log = dev.log) :=
  ⟨fun d h => ⟨(lcd_repaint_screen_spec busy dev d h).2,
      fun hd => (lcd_repaint_screen_quiet busy dev d h hd).2⟩,
    fun hw hs => (lcd_repaint_screen_some busy dev hw hs).imp (fun _ h => h.1),
    fun _ _ => rfl,
    fun hd => (lcd_write_command_quiet busy dev 1 hd).2⟩

/-- C13, as stated, fails: on a broken device whose row 0 holds `Hi` under a
blank shadow, the repaint transfers nothing (the log keeps its 8 entries) and
yet shadow cell 0 of row 0 changes from blank to `H`. -/
theorem C13_counterexample :
    ((({ write_layout (printed fresh [72, 105]) with broken := true } : Dev).line 0).visible 0,
      ({ write_layout (printed fresh [72, 105]) with broken := true } : Dev).log.length) =
      (32, 8) ∧
    (lcd_repaint_screen ready
        { write_layout (printed fresh [72, 105]) with broken := true }).map
      (fun d => ((d.line 0).visible 0, d.log.length)) = some (72, 8) := by
  decide!

/-- C13 (amended) at a concrete input: the broken device of the
counterexample with a controller whose busy bit is stuck. -/
theorem C13_witness :
    ∃ d, lcd_repaint_screen stuck
        { write_layout (printed fresh [72, 105]) with broken := true } = some d ∧
      some ((d.line 0).visible 0) = some 72 ∧
      d.log = ({ write_layout (printed fresh [72, 105]) with broken := true } : Dev).log :=
  have t := C13_shadow_updated_regardless stuck
    { write_layout (printed fresh [72, 105]) with broken := true }
  (t.2.1 (by decide) (by decide)).imp
    (fun d h => ⟨h, ((t.1 d h).1 0 0).symm.trans (by decide), (t.1 d h).2 (Or.inl rfl)⟩)

/-! ## C19: the layout against its reference -/

/-- The loop of the layout computes the trimmed length. -/
theorem trimmed_width_spec (data : Fin 81 → Nat) :
    ∀ (w : Nat) (h : w ≤ 80),
      trimmed_width data w h ≤ w ∧
      (∀ col : Fin 81, trimmed_width data w h ≤ col.val → col.val < w → data col = 32) ∧
      (∀ col : Fin 81, col.val + 1 = trimmed_width data w h → data col ≠ 32) := by
  intro w
  induction w with
  | zero =>
    intro _
    simp only [trimmed_width]
    exact ⟨Nat.le_refl 0, fun col _ h => absurd h (Nat.not_lt_zero _),
      fun col h => absurd h (Nat.succ_ne_zero _)⟩
  | succ w ih =>
    intro h
    simp only [trimmed_width]
    by_cases hne : data ⟨w, by omega⟩ ≠ 32
    · rw [if_pos hne]
      refine ⟨Nat.le_refl _, fun col h1 h2 => absurd h2 (by omega), fun col hc => ?_⟩
      have e : col = ⟨w, by omega⟩ := Fin.ext (by simp only; omega)
      rw [e]
      exact hne
    · rw [if_neg hne]
      obtain ⟨i1, i2, i3⟩ := ih (Nat.le_of_succ_le h)
      refine ⟨Nat.le_succ_of_le i1, fun col h1 h2 => ?_, i3⟩
      by_cases hw : col.val < w
      · exact i2 col h1 hw
      · have e : col = ⟨w, by omega⟩ := Fin.ext (by simp only; omega)
        rw [e]
        exact not_not.1 hne

theorem trimmed_width_is (data : Fin 81 → Nat) :
    is_trimmed_length data (trimmed_width data 80 (Nat.le_refl 80)) :=
  trimmed_width_spec data 80 (Nat.le_refl 80)

/-- The trimmed length of a row is unique. -/
theorem is_trimmed_length_unique (data : Fin 81 → Nat) (t1 t2 : Nat)
    (h1 : is_trimmed_length data t1) (h2 : is_trimmed_length data t2) : t1 = t2 := by
  obtain ⟨a1, a2, a3⟩ := h1
  obtain ⟨b1, b2, b3⟩ := h2
  by_contra hne
  rcases Nat.lt_or_gt_of_ne hne with hlt | hgt
  · cases t2 with
    | zero => omega
    | succ k =>
      exact b3 ⟨k, by omega⟩ rfl (a2 ⟨k, by omega⟩ (by simp only; omega) (by simp only; omega))
  · cases t1 with
    | zero => omega
    | succ k =>
      exact a3 ⟨k, by omega⟩ rfl (b2 ⟨k, by omega⟩ (by simp only; omega) (by simp only; omega))

theorem line_width_ref (data : Fin 81 → Nat) :
    line_width data = ref_width (trimmed_width data 80 (Nat.le_refl 80)) := rfl

/-- The speed the layout gives to a row, in terms of the widths of the rows. -/
theorem write_layout_speed (dev : Dev) (y : Fin 2) :
    (((write_layout dev).line y).speed : Int) =
      ref_speed (line_width (dev.line y).data)
        (max (line_width (dev.line 0).data) (line_width (dev.line 1).data)) := by
  have b0 := line_width_bounds (dev.line 0).data
  have b1 := line_width_bounds (dev.line 1).data
  have by1 := line_width_bounds (dev.line y).data
  have hy : line_width (dev.line y).data ≤
      max (line_width (dev.line 0).data) (line_width (dev.line 1).data) := by
    rcases fin2_cases y with h | h <;> subst h
    · exact le_max_left _ _
    · exact le_max_right _ _
  have hm : (if (if (16 : Int) < line_width (dev.line 0).data then line_width (dev.line 0).data
        else 16) < line_width (dev.line 1).data then line_width (dev.line 1).data
      else (if (16 : Int) < line_width (dev.line 0).data then line_width (dev.line 0).data
        else 16)) = max (line_width (dev.line 0).data) (line_width (dev.line 1).data) := by
    rw [max_def]
    split_ifs <;> omega
  unfold write_layout ref_speed
  dsimp only
  rw [hm]
  generalize max (line_width (dev.line 0).data) (line_width (dev.line 1).data) = m at hy ⊢
  by_cases hm16 : m ≤ 16
  · rw [if_pos hm16, if_pos (by omega)]
    rfl
  · rw [if_neg hm16]
    dsimp only
    generalize line_width (dev.line y).data = w at hy by1 ⊢
    by_cases hw : w > 16
    · rw [if_pos hw, if_neg (by omega)]
      have hpos : 0 ≤ 256 * w / (m * 2) := Int.ediv_nonneg (by omega) (by omega)
      have hlt : 256 * w / (m * 2) < 129 := Int.ediv_lt_of_lt_mul (by omega) (by omega)
      have e2 : 2 * m = m * 2 := by ring
      rw [e2]
      unfold to_uchar
      omega
    · rw [if_neg hw, if_pos (by omega)]
      rfl

/-- C19.  After every `alt_lcd_16207_write` the layout equals its reference:
for each row, with `t` the length of its virtual data without trailing
blanks, `width` is 16 if `t ≤ 16` and `t + 1` otherwise; a row with
`width = 16` has `speed = 0`; and a row with `width > 16` has
`speed = floor(256 * width / (2 * max_width))`, where `max_width` is the
larger of the two row widths. -/
theorem C19_layout_reference (busy : Nat → Bool) (dev : Dev) (bytes : List Nat)
    (r : Dev × Nat) (h : alt_lcd_16207_write busy dev bytes = some r) (y : Fin 2) :
    (∃ t, is_trimmed_length (r.1.line y).data t ∧ (r.1.line y).width = ref_width t) ∧
    ((r.1.line y).width = 16 → (r.1.line y).speed = 0) ∧
    ((r.1.line y).width > 16 →
      ((r.1.line y).speed : Int) =
        256 * (r.1.line y).width / (2 * max (r.1.line 0).width (r.1.line 1).width)) := by
  unfold alt_lcd_16207_write at h
  cases h1 : write_parse busy { dev with active := true } bytes with
  | none =>
    rw [h1] at h
    exact Option.noConfusion h
  | some d1 =>
    rw [h1] at h
    simp only [Option.some_bind] at h
    cases h2 : write_repaint busy 1 (write_layout d1) with
    | none =>
      rw [h2] at h
      exact Option.noConfusion h
    | some d2 =>
      rw [h2] at h
      cases h
      have f := write_repaint_width busy _ d2 h2
      have hd : ∀ z : Fin 2, (d2.line z).data = (d1.line z).data := by
        intro z
        rw [(f z).1]
        unfold write_layout
        dsimp only
        split_ifs <;> rfl
      have hw : ∀ z : Fin 2, (d2.line z).width = line_width (d1.line z).data := by
        intro z
        rw [(f z).2.1, write_layout_width]
      have hs : ((d2.line y).speed : Int) = ref_speed (line_width (d1.line y).data)
          (max (line_width (d1.line 0).data) (line_width (d1.line 1).data)) := by
        rw [(f y).2.2, write_layout_speed]
      show (∃ t, is_trimmed_length (d2.line y).data t ∧ (d2.line y).width = ref_width t) ∧
        ((d2.line y).width = 16 → (d2.line y).speed = 0) ∧
        ((d2.line y).width > 16 →
          ((d2.line y).speed : Int) =
            256 * (d2.line y).width / (2 * max (d2.line 0).width (d2.line 1).width))
      rw [hw y, hw 0, hw 1, hd y, hs]
      refine ⟨⟨_, trimmed_width_is _, line_width_ref _⟩, ?_, ?_⟩
      · intro h16
        have : ((d2.line y).speed : Int) = 0 := by
          rw [hs]
          unfold ref_speed
          rw [if_pos (by omega)]
        exact_mod_cast this
      · intro h16
        unfold ref_speed
        rw [if_neg (by omega)]

/-- C19 at a concrete input: a line of 20 characters over a line of 3,
written on a fresh display; the statement is for row 0. -/
theorem C19_witness :
    ∃ r, alt_lcd_16207_write ready fresh (List.replicate 20 66 ++ [13, 10, 67, 67, 67]) =
        some r ∧
      (∃ t, is_trimmed_length (r.1.line 0).data t ∧ (r.1.line 0).width = ref_width t) ∧
      ((r.1.line 0).width = 16 → (r.1.line 0).speed = 0) ∧
      ((r.1.line 0).width > 16 →
        ((r.1.line 0).speed : Int) =
          256 * (r.1.line 0).width / (2 * max (r.1.line 0).width (r.1.line 1).width)) :=
  (Option.isSome_iff_exists.1 (by decide!)).imp
    (fun r h => ⟨h, C19_layout_reference ready fresh
      (List.replicate 20 66 ++ [13, 10, 67, 67, 67]) r h 0⟩)

/-- The layout of that input, evaluated: widths 21 and 16, speeds 128 and 0. -/
theorem C19_evaluated :
    (alt_lcd_16207_write ready fresh (List.replicate 20 66 ++ [13, 10, 67, 67, 67])).map
      (fun r => ((r.1.line 0).width, (r.1.line 0).speed, (r.1.line 1).width,
        (r.1.line 1).speed)) = some (21, 128, 16, 0) := by
  decide!

/-! ## C18: what the repaint transfers -/

/-- In a state the driver never reaches, with the scroll position set to -2, a
row of width 21 and speed 128 has offset -1 and column 0 reads `data[-1]`,
before the row: the model leaves that repaint undefined. -/
theorem repaint_negative_position :
    row_offset { write_layout (printed fresh (List.replicate 20 65)) with scrollpos := -2 } 0
      = -1 ∧
    (lcd_repaint_screen ready
      { write_layout (printed fresh (List.replicate 20 65)) with scrollpos := -2 }).isNone
      = true :=
  ⟨by decide!, by decide!⟩

/-- The repaint of the display holding `Hi` transfers the two bytes `H` and
`i` and nothing else; repainting the result transfers nothing. -/
theorem repaint_hi_transfers :
    ref_transfers (write_layout (printed fresh [72, 105])) = [72, 105] ∧
    (lcd_repaint_screen ready (write_layout (printed fresh [72, 105]))).map
      (fun d => data_bytes d.log) = some [72, 105] ∧
    (lcd_repaint_screen ready (write_layout (printed fresh [72, 105]))).map ref_transfers
      = some [] := by
  decide!

/-! ## C11: the terminal model does not depend on the controller -/

theorem same_model_refl (a : Dev) : same_model a a :=
  ⟨rfl, rfl, rfl, rfl, rfl, rfl, rfl, rfl, fun _ => ⟨rfl, rfl, rfl⟩⟩

theorem same_model_symm {a b : Dev} (h : same_model a b) : same_model b a :=
  ⟨h.1.symm, h.2.1.symm, h.2.2.1.symm, h.2.2.2.1.symm, h.2.2.2.2.1.symm,
    h.2.2.2.2.2.1.symm, h.2.2.2.2.2.2.1.symm, h.2.2.2.2.2.2.2.1.symm,
    fun r => ⟨(h.2.2.2.2.2.2.2.2 r).1.symm, (h.2.2.2.2.2.2.2.2 r).2.1.symm,
      (h.2.2.2.2.2.2.2.2 r).2.2.symm⟩⟩

theorem same_model_trans {a b c : Dev} (h1 : same_model a b) (h2 : same_model b c) :
    same_model a c :=
  ⟨h2.1.trans h1.1, h2.2.1.trans h1.2.1, h2.2.2.1.trans h1.2.2.1,
    h2.2.2.2.1.trans h1.2.2.2.1, h2.2.2.2.2.1.trans h1.2.2.2.2.1,
    h2.2.2.2.2.2.1.trans h1.2.2.2.2.2.1, h2.2.2.2.2.2.2.1.trans h1.2.2.2.2.2.2.1,
    h2.2.2.2.2.2.2.2.1.trans h1.2.2.2.2.2.2.2.1,
    fun r => ⟨(h2.2.2.2.2.2.2.2.2 r).1.trans (h1.2.2.2.2.2.2.2.2 r).1,
      (h2.2.2.2.2.2.2.2.2 r).2.1.trans (h1.2.2.2.2.2.2.2.2 r).2.1,
      (h2.2.2.2.2.2.2.2.2 r).2.2.trans (h1.2.2.2.2.2.2.2.2 r).2.2⟩⟩

/-- What a repaint leaves alone includes the whole terminal model. -/
theorem repaint_frame_same {a b : Dev} (h : repaint_frame a b) : same_model a b :=
  ⟨h.1, h.2.1, h.2.2.1, h.2.2.2.1, h.2.2.2.2.1, h.2.2.2.2.2.1, h.2.2.2.2.2.2.1,
    h.2.2.2.2.2.2.2.1, h.2.2.2.2.2.2.2.2.1⟩

/-- Two steps that each respect the repaint frame keep two devices with the
same terminal model in that relation. -/
theorem same_model_frames {a b a1 b1 : Dev} (h : same_model a b)
    (fa : repaint_frame a a1) (fb : repaint_frame b b1) : same_model a1 b1 :=
  same_model_trans (same_model_symm (repaint_frame_same fa))
    (same_model_trans h (repaint_frame_same fb))

theorem both_bind {R S : Dev → Dev → Prop} {o1 o2 : Option Dev} {f g : Dev → Option Dev}
    (h : both R o1 o2) (hf : ∀ a b, R a b → both S (f a) (g b)) :
    both S (o1.bind f) (o2.bind g) := by
  cases o1 with
  | none =>
    cases o2 with
    | none => exact trivial
    | some b => exact h.elim
  | some a =>
    cases o2 with
    | none => exact h.elim
    | some b => exact hf a b h

theorem lcd_clear_screen_same (busy1 busy2 : Nat → Bool) (a b : Dev) (h : same_model a b) :
    same_model (lcd_clear_screen busy1 a) (lcd_clear_screen busy2 b) := by
  have h1 := same_model_frames h (lcd_write_command_frame busy1 a 0x01).1
    (lcd_write_command_frame busy2 b 0x01).1
  obtain ⟨_, _, h3, h4, h5, h6, h7, h8, hl⟩ := h1
  exact ⟨rfl, rfl, h3, h4, h5, h6, h7, h8, fun r => ⟨rfl, rfl, (hl r).2.2⟩⟩

theorem lcd_scroll_up_same (a b : Dev) (h : same_model a b) :
    same_model (lcd_scroll_up a) (lcd_scroll_up b) := by
  obtain ⟨h1, h2, h3, h4, h5, h6, h7, h8, hl⟩ := h
  refine ⟨h1, ?_, h3, h4, h5, h6, h7, ?_, ?_⟩
  · show (b.y + 255) % 256 = (a.y + 255) % 256
    rw [h2]
  · show b.scrolls + 1 = a.scrolls + 1
    rw [h8]
  · intro r
    simp only [lcd_scroll_up]
    by_cases hr : r = 0
    · simp only [hr, if_true, (hl 0).1, (hl 1).1, (hl 0).2.1, (hl 0).2.2, and_self]
    · simp only [hr, if_false, (hl 1).1, (hl 1).2.1, (hl 1).2.2, and_self]

theorem scroll_while_same : ∀ (fuel : Nat) (a b : Dev), same_model a b →
    same_model (scroll_while fuel a) (scroll_while fuel b) := by
  intro fuel
  induction fuel with
  | zero => intro a b h; exact h
  | succ n ih =>
    intro a b h
    simp only [scroll_while]
    rw [h.2.1]
    by_cases hy : a.y > 2
    · rw [if_pos hy, if_pos hy]
      exact ih _ _ (lcd_scroll_up_same a b h)
    · rw [if_neg hy, if_neg hy]
      exact h

theorem same_model_x {a b : Dev} (h : same_model a b) (v : Nat) :
    same_model { a with x := v } { b with x := v } :=
  ⟨rfl, h.2.1, h.2.2.1, h.2.2.2.1, h.2.2.2.2.1, h.2.2.2.2.2.1, h.2.2.2.2.2.2.1,
    h.2.2.2.2.2.2.2.1, h.2.2.2.2.2.2.2.2⟩

theorem same_model_y {a b : Dev} (h : same_model a b) (v : Nat) :
    same_model { a with y := v } { b with y := v } :=
  ⟨h.1, rfl, h.2.2.1, h.2.2.2.1, h.2.2.2.2.1, h.2.2.2.2.2.1, h.2.2.2.2.2.2.1,
    h.2.2.2.2.2.2.2.1, h.2.2.2.2.2.2.2.2⟩

theorem same_model_esccount {a b : Dev} (h : same_model a b) (v : Int) :
    same_model { a with esccount := v } { b with esccount := v } :=
  ⟨h.1, h.2.1, rfl, h.2.2.2.1, h.2.2.2.2.1, h.2.2.2.2.2.1, h.2.2.2.2.2.2.1,
    h.2.2.2.2.2.2.2.1, h.2.2.2.2.2.2.2.2⟩

theorem same_model_active {a b : Dev} (h : same_model a b) (v : Bool) :
    same_model { a with active := v } { b with active := v } :=
  ⟨h.1, h.2.1, h.2.2.1, h.2.2.2.1, h.2.2.2.2.1, rfl, h.2.2.2.2.2.2.1,
    h.2.2.2.2.2.2.2.1, h.2.2.2.2.2.2.2.2⟩

theorem same_model_escape {a b : Dev} (h : same_model a b) (i : Fin 8) (v : Nat) :
    same_model { a with escape := upd a.escape i v } { b with escape := upd b.escape i v } :=
  ⟨h.1, h.2.1, h.2.2.1, h.2.2.2.1, h.2.2.2.2.1, h.2.2.2.2.2.1,
    by show upd b.escape i v = upd a.escape i v; rw [h.2.2.2.2.2.2.1],
    h.2.2.2.2.2.2.2.1, h.2.2.2.2.2.2.2.2⟩

theorem blank_to_eol_same {a b : Dev} (h : same_model a b) (y : Fin 2) :
    same_model (blank_to_eol a y) (blank_to_eol b y) := by
  obtain ⟨h1, h2, h3, h4, h5, h6, h7, h8, hl⟩ := h
  refine ⟨h1, h2, h3, h4, h5, h6, h7, h8, ?_⟩
  intro r
  simp only [blank_to_eol, set_line]
  by_cases hr : r = y
  · subst hr
    simp only [if_true, h1, (hl r).1, (hl r).2.1, (hl r).2.2, and_self]
  · simp only [hr, if_false]
    exact hl r

/-- Storing a character in row `y`. -/
theorem store_same {a b : Dev} (h : same_model a b) (y : Fin 2) (i : Fin 81) (c : Nat) :
    same_model
      { a with line := set_line a.line y { a.line y with data := upd (a.line y).data i c } }
      { b with line := set_line b.line y { b.line y with data := upd (b.line y).data i c } } := by
  obtain ⟨h1, h2, h3, h4, h5, h6, h7, h8, hl⟩ := h
  refine ⟨h1, h2, h3, h4, h5, h6, h7, h8, ?_⟩
  intro r
  simp only [set_line]
  by_cases hr : r = y
  · subst hr
    simp only [if_true, (hl r).1, (hl r).2.1, (hl r).2.2, and_self]
  · simp only [hr, if_false]
    exact hl r

/-- The row part of the `H` command. -/
theorem handle_row_same {a b : Dev} (h : same_model a b) (p1 : Int) :
    same_model
      (let dev2 : Dev := { a with y := to_uchar (p1 - 1) }
       let dev3 := if dev2.y > 4 then { dev2 with y := 4 } else dev2
       scroll_while dev3.y dev3)
      (let dev2 : Dev := { b with y := to_uchar (p1 - 1) }
       let dev3 := if dev2.y > 4 then { dev2 with y := 4 } else dev2
       scroll_while dev3.y dev3) := by
  dsimp only
  by_cases h4 : to_uchar (p1 - 1) > 4
  · rw [if_pos h4, if_pos h4]
    exact scroll_while_same 4 _ _ (same_model_y (same_model_y h _) 4)
  · rw [if_neg h4, if_neg h4]
    exact scroll_while_same _ _ _ (same_model_y h _)

theorem lcd_handle_escape_same (busy1 busy2 : Nat → Bool) (a b : Dev) (c : Nat)
    (h : same_model a b) :
    both same_model (lcd_handle_escape busy1 a c) (lcd_handle_escape busy2 b c) := by
  have he : escape_parms b.escape = escape_parms a.escape := by rw [h.2.2.2.2.2.2.1]
  unfold lcd_handle_escape
  rw [he]
  cases escape_parms a.escape with
  | none => exact trivial
  | some parms =>
    dsimp only [Option.some_bind]
    by_cases hH : c = 72 ∨ c = 102
    · rw [if_pos hH, if_pos hH]
      have h1 : same_model (if parms.2 > 0 then { a with x := to_uchar (parms.2 - 1) } else a)
          (if parms.2 > 0 then { b with x := to_uchar (parms.2 - 1) } else b) := by
        by_cases hp : parms.2 > 0
        · rw [if_pos hp, if_pos hp]
          exact same_model_x h _
        · rw [if_neg hp, if_neg hp]
          exact h
      by_cases hp1 : parms.1 > 0
      · rw [if_pos hp1, if_pos hp1]
        exact handle_row_same h1 parms.1
      · rw [if_neg hp1, if_neg hp1]
        exact h1
    · rw [if_neg hH, if_neg hH]
      by_cases hJ : c = 74
      · rw [if_pos hJ, if_pos hJ]
        by_cases hp : parms.1 = 2
        · rw [if_pos hp, if_pos hp]
          exact lcd_clear_screen_same busy1 busy2 a b h
        · rw [if_neg hp, if_neg hp]
          exact h
      · rw [if_neg hJ, if_neg hJ]
        by_cases hK : c = 75
        · rw [if_pos hK, if_pos hK]
          by_cases hp : parms.1 < 1
          · rw [if_pos hp, if_pos hp, h.1]
            by_cases hx : a.x < 80
            · rw [if_pos hx, if_pos hx]
              by_cases hy : a.y < 2
              · have hy2 : b.y < 2 := by rw [h.2.1]; exact hy
                rw [dif_pos hy, dif_pos hy2]
                have e : (⟨b.y, hy2⟩ : Fin 2) = ⟨a.y, hy⟩ := Fin.ext h.2.1
                rw [e]
                exact blank_to_eol_same h _
              · have hy2 : ¬ b.y < 2 := by rw [h.2.1]; exact hy
                rw [dif_neg hy, dif_neg hy2]
                exact trivial
            · rw [if_neg hx, if_neg hx]
              exact h
          · rw [if_neg hp, if_neg hp]
            exact h
        · rw [if_neg hK, if_neg hK]
          exact h

/-- The store of a printable byte, from the state in which the row has been
brought back into the panel. -/
theorem store_byte_same {a b : Dev} (h : same_model a b) (c : Nat) :
    both same_model
      (if hx : a.x < 80 then
        if h : a.y < 2 then
          some { a with
            line := set_line a.line ⟨a.y, h⟩
              { a.line ⟨a.y, h⟩ with
                data := upd (a.line ⟨a.y, h⟩).data ⟨a.x, by omega⟩ c },
            x := (a.x + 1) % 256 }
        else none
      else some { a with x := (a.x + 1) % 256 })
      (if hx : b.x < 80 then
        if h : b.y < 2 then
          some { b with
            line := set_line b.line ⟨b.y, h⟩
              { b.line ⟨b.y, h⟩ with
                data := upd (b.line ⟨b.y, h⟩).data ⟨b.x, by omega⟩ c },
            x := (b.x + 1) % 256 }
        else none
      else some { b with x := (b.x + 1) % 256 }) := by
  have ex : b.x = a.x := h.1
  have ey : b.y = a.y := h.2.1
  by_cases hx : a.x < 80
  · have hx2 : b.x < 80 := by rw [ex]; exact hx
    rw [dif_pos hx, dif_pos hx2]
    by_cases hy : a.y < 2
    · have hy2 : b.y < 2 := by rw [ey]; exact hy
      rw [dif_pos hy, dif_pos hy2]
      have e1 : (⟨b.y, hy2⟩ : Fin 2) = ⟨a.y, hy⟩ := Fin.ext ey
      have e2 : (⟨b.x, by omega⟩ : Fin 81) = ⟨a.x, by omega⟩ := Fin.ext ex
      have s := same_model_x (store_same h ⟨a.y, hy⟩ ⟨a.x, by omega⟩ c) ((a.x + 1) % 256)
      obtain ⟨s1, s2, s3, s4, s5, s6, s7, s8, sl⟩ := s
      refine ⟨?_, s2, s3, s4, s5, s6, s7, s8, ?_⟩
      · show (b.x + 1) % 256 = (a.x + 1) % 256
        rw [ex]
      · intro r
        have t := sl r
        simp only [e1, e2]
        exact t
    · have hy2 : ¬ b.y < 2 := by rw [ey]; exact hy
      rw [dif_neg hy, dif_neg hy2]
      exact trivial
  · have hx2 : ¬ b.x < 80 := by rw [ex]; exact hx
    rw [dif_neg hx, dif_neg hx2]
    refine ⟨?_, h.2⟩
    show (b.x + 1) % 256 = (a.x + 1) % 256
    rw [ex]

theorem write_byte_same (busy1 busy2 : Nat → Bool) (a b : Dev) (c : Nat)
    (h : same_model a b) :
    both same_model (write_byte busy1 a c) (write_byte busy2 b c) := by
  have ex : b.x = a.x := h.1
  have ey : b.y = a.y := h.2.1
  have ee : b.esccount = a.esccount := h.2.2.1
  unfold write_byte
  by_cases h0 : a.esccount ≥ 0
  · have h0b : b.esccount ≥ 0 := by rw [ee]; exact h0
    rw [if_pos h0, if_pos h0b]
    by_cases h1 : (a.esccount = 0 ∧ c ≠ 91) ∨ (a.esccount > 0 ∧ isdigit c = false ∧ c ≠ 59)
    · have h1b : (b.esccount = 0 ∧ c ≠ 91) ∨ (b.esccount > 0 ∧ isdigit c = false ∧ c ≠ 59) := by
        rw [ee]; exact h1
      rw [if_pos h1, if_pos h1b]
      by_cases h2 : a.esccount.toNat < 8
      · have h2b : b.esccount.toNat < 8 := by rw [ee]; exact h2
        rw [dif_pos h2, dif_pos h2b]
        have e1 : (⟨b.esccount.toNat, h2b⟩ : Fin 8) = ⟨a.esccount.toNat, h2⟩ :=
          Fin.ext (congrArg Int.toNat ee)
        rw [e1]
        refine both_bind (lcd_handle_escape_same busy1 busy2 _ _ c
          (same_model_escape h ⟨a.esccount.toNat, h2⟩ 0)) ?_
        intro a1 b1 h3
        exact same_model_esccount h3 (-1)
      · have h2b : ¬ b.esccount.toNat < 8 := by rw [ee]; exact h2
        rw [dif_neg h2, dif_neg h2b]
        exact trivial
    · have h1b : ¬ ((b.esccount = 0 ∧ c ≠ 91) ∨
          (b.esccount > 0 ∧ isdigit c = false ∧ c ≠ 59)) := by
        rw [ee]; exact h1
      rw [if_neg h1, if_neg h1b]
      by_cases h2 : a.esccount < 7
      · have h2b : b.esccount < 7 := by rw [ee]; exact h2
        rw [dif_pos h2, dif_pos h2b]
        have s := same_model_esccount
          (same_model_escape h ⟨a.esccount.toNat, by omega⟩ c) (a.esccount + 1)
        obtain ⟨s1, s2, s3, s4, s5, s6, s7, s8, sl⟩ := s
        refine ⟨s1, s2, ?_, s4, s5, s6, ?_, s8, sl⟩
        · show b.esccount + 1 = a.esccount + 1
          rw [ee]
        · exact congrArg₂ (fun e (i : Fin 8) => upd e i c) h.2.2.2.2.2.2.1
            (Fin.ext (congrArg Int.toNat ee))
      · have h2b : ¬ b.esccount < 7 := by rw [ee]; exact h2
        rw [dif_neg h2, dif_neg h2b]
        exact h
  · have h0b : ¬ b.esccount ≥ 0 := by rw [ee]; exact h0
    rw [if_neg h0, if_neg h0b]
    by_cases c27 : c = 27
    · rw [if_pos c27, if_pos c27]
      exact same_model_esccount h 0
    · rw [if_neg c27, if_neg c27]
      by_cases c13 : c = 13
      · rw [if_pos c13, if_pos c13]
        exact same_model_x h 0
      · rw [if_neg c13, if_neg c13]
        by_cases c10 : c = 10
        · rw [if_pos c10, if_pos c10]
          dsimp only
          have s : same_model { a with x := 0, y := (a.y + 1) % 256 }
              { b with x := 0, y := (b.y + 1) % 256 } := by
            rw [ey]
            exact same_model_y (same_model_x h 0) _
          by_cases hy : (a.y + 1) % 256 > 2
          · have hy2 : (b.y + 1) % 256 > 2 := by rw [ey]; exact hy
            rw [if_pos hy, if_pos hy2]
            exact lcd_scroll_up_same _ _ s
          · have hy2 : ¬ (b.y + 1) % 256 > 2 := by rw [ey]; exact hy
            rw [if_neg hy, if_neg hy2]
            exact s
        · rw [if_neg c10, if_neg c10]
          by_cases c8 : c = 8
          · rw [if_pos c8, if_pos c8]
            by_cases hx : a.x > 0
            · have hx2 : b.x > 0 := by rw [ex]; exact hx
              rw [if_pos hx, if_pos hx2]
              refine ⟨?_, h.2⟩
              show b.x - 1 = a.x - 1
              rw [ex]
            · have hx2 : ¬ b.x > 0 := by rw [ex]; exact hx
              rw [if_neg hx, if_neg hx2]
              exact h
          · rw [if_neg c8, if_neg c8]
            by_cases cp : isprint c = true
            · rw [if_pos cp, if_pos cp]
              have s : same_model (if a.y ≥ 2 then lcd_scroll_up a else a)
                  (if b.y ≥ 2 then lcd_scroll_up b else b) := by
                by_cases hy : a.y ≥ 2
                · have hy2 : b.y ≥ 2 := by rw [ey]; exact hy
                  rw [if_pos hy, if_pos hy2]
                  exact lcd_scroll_up_same a b h
                · have hy2 : ¬ b.y ≥ 2 := by rw [ey]; exact hy
                  rw [if_neg hy, if_neg hy2]
                  exact h
              exact store_byte_same s c
            · rw [if_neg cp, if_neg cp]
              exact h

theorem write_parse_same (busy1 busy2 : Nat → Bool) (bytes : List Nat) :
    ∀ (a b : Dev), same_model a b →
      both same_model (write_parse busy1 a bytes) (write_parse busy2 b bytes) := by
  induction bytes with
  | nil => intro a b h; exact h
  | cons c cs ih =>
    intro a b h
    simp only [write_parse]
    exact both_bind (write_byte_same busy1 busy2 a b c h) ih

theorem write_layout_same (a b : Dev) (h : same_model a b) :
    same_model (write_layout a) (write_layout b) := by
  obtain ⟨h1, h2, h3, h4, h5, h6, h7, h8, hl⟩ := h
  have hd : ∀ r : Fin 2, (b.line r).data = (a.line r).data := fun r => (hl r).1
  unfold write_layout
  simp only [hd]
  split_ifs <;> exact ⟨h1, h2, h3, h4, rfl, h6, h7, h8, fun _ => ⟨rfl, rfl, rfl⟩⟩

theorem repaint_cols_defined (busy : Nat → Bool) (y : Fin 2) (width offset : Int) (dev : Dev)
    (h : ∀ x : Fin 16, ∃ c, repaint_char dev y width offset x = some c) :
    ∀ (n : Nat) (hn : n ≤ 16),
      ∃ d, for_upto (repaint_cell busy y width offset) n hn dev = some d := by
  intro n
  induction n with
  | zero => intro _; exact ⟨dev, rfl⟩
  | succ n ih =>
    intro hn
    obtain ⟨m, hm⟩ := ih (Nat.le_of_succ_le hn)
    have f := (repaint_cols_spec busy y width offset n _ dev m hm).1
    obtain ⟨c, hc⟩ := h ⟨n, Nat.lt_of_succ_le hn⟩
    rw [← repaint_char_congr m dev y width offset _ (f.2.2.2.2.2.2.2.2.1 y).1] at hc
    simp only [for_upto]
    rw [hm]
    rcases repaint_cell_eq busy y width offset m ⟨n, Nat.lt_of_succ_le hn⟩ c hc with
      ⟨e, _⟩ | ⟨d1, _, _, _, e⟩
    · exact ⟨_, e⟩
    · exact ⟨_, e⟩

/-- The repaint is defined as soon as every character it has to read lies
inside its row. -/
theorem lcd_repaint_screen_defined (busy : Nat → Bool) (dev : Dev)
    (h : ∀ (y : Fin 2) (x : Fin 16),
      ∃ c, repaint_char dev y (dev.line y).width (row_offset dev y) x = some c) :
    ∃ d, lcd_repaint_screen busy dev = some d := by
  obtain ⟨m, hm⟩ := repaint_cols_defined busy 0 _ _ dev (h 0) 16 (Nat.le_refl 16)
  have f := (repaint_cols_spec busy 0 _ _ 16 _ dev m hm).1
  have hd := f.2.2.2.2.2.2.2.2.1 1
  have h1 : ∀ x : Fin 16, ∃ c, repaint_char m 1 (m.line 1).width
      (if dev.scrollpos * ((m.line 1).speed : Int) / 256 ≥ (m.line 1).width then 0
       else dev.scrollpos * ((m.line 1).speed : Int) / 256) x = some c := by
    intro x
    rw [repaint_char_congr m dev _ _ _ _ hd.1, hd.2.1, hd.2.2]
    exact h 1 x
  obtain ⟨d, hd1⟩ := repaint_cols_defined busy 1 _ _ m h1 16 (Nat.le_refl 16)
  refine ⟨d, ?_⟩
  unfold lcd_repaint_screen
  simp only [for_upto, Option.some_bind]
  have e0 : repaint_row busy dev.scrollpos dev ⟨0, by omega⟩ = some m := hm
  rw [e0]
  exact hd1

theorem repaint_chars_same {a b : Dev} (h : same_model a b) (y : Fin 2) (x : Fin 16) :
    repaint_char b y (b.line y).width (row_offset b y) x =
      repaint_char a y (a.line y).width (row_offset a y) x := by
  have hl := h.2.2.2.2.2.2.2.2 y
  have ho : row_offset b y = row_offset a y := by
    unfold row_offset
    rw [h.2.2.2.1, hl.2.1, hl.2.2]
  rw [repaint_char_congr b a y _ _ _ hl.1, hl.2.1, ho]

theorem lcd_repaint_screen_transfer (busy1 busy2 : Nat → Bool) (a b : Dev)
    (h : same_model a b) (d : Dev) (hd : lcd_repaint_screen busy1 a = some d) :
    ∃ d2, lcd_repaint_screen busy2 b = some d2 ∧ same_model d d2 := by
  obtain ⟨fa, ta⟩ := lcd_repaint_screen_spec busy1 a d hd
  obtain ⟨d2, hd2⟩ := lcd_repaint_screen_defined busy2 b (fun y x =>
    ⟨_, (repaint_chars_same h y x).trans (ta y x)⟩)
  exact ⟨d2, hd2, same_model_frames h fa (lcd_repaint_screen_spec busy2 b d2 hd2).1⟩

theorem lcd_repaint_screen_same (busy1 busy2 : Nat → Bool) (a b : Dev)
    (h : same_model a b) :
    both same_model (lcd_repaint_screen busy1 a) (lcd_repaint_screen busy2 b) := by
  cases ha : lcd_repaint_screen busy1 a with
  | none =>
    cases hb : lcd_repaint_screen busy2 b with
    | none => exact trivial
    | some d2 =>
      obtain ⟨d, hd, _⟩ := lcd_repaint_screen_transfer busy2 busy1 b a (same_model_symm h) d2 hb
      rw [ha] at hd
      exact Option.noConfusion hd
  | some d =>
    obtain ⟨d2, hd2, s⟩ := lcd_repaint_screen_transfer busy1 busy2 a b h d ha
    rw [hd2]
    exact s

theorem write_repaint_same (busy1 busy2 : Nat → Bool) (a b : Dev) (h : same_model a b) :
    both same_model (write_repaint busy1 1 a) (write_repaint busy2 1 b) := by
  rw [write_repaint_one, write_repaint_one]
  exact both_bind (lcd_repaint_screen_same busy1 busy2 a b h)
    (fun _ _ s => same_model_active s false)

/-- The device a write ends with, whatever the controller does: both runs are
undefined, or both are defined and end with the same terminal model. -/
theorem alt_lcd_16207_write_same (busy1 busy2 : Nat → Bool) (a b : Dev) (bytes : List Nat)
    (h : same_model a b) :
    both same_model ((alt_lcd_16207_write busy1 a bytes).map Prod.fst)
      ((alt_lcd_16207_write busy2 b bytes).map Prod.fst) := by
  have e : ∀ (busy : Nat → Bool) (dev : Dev),
      (alt_lcd_16207_write busy dev bytes).map Prod.fst =
        (write_parse busy { dev with active := true } bytes).bind fun d1 =>
          write_repaint busy 1 (write_layout d1) := by
    intro busy dev
    unfold alt_lcd_16207_write
    cases write_parse busy { dev with active := true } bytes with
    | none => rfl
    | some d1 =>
      simp only [Option.some_bind]
      cases write_repaint busy 1 (write_layout d1) with
      | none => rfl
      | some d2 => rfl
  rw [e, e]
  refine both_bind (write_parse_same busy1 busy2 bytes _ _ (same_model_active h true)) ?_
  intro a1 b1 s
  exact write_repaint_same busy1 busy2 _ _ (write_layout_same a1 b1 s)

/-- A write that returns, returns the number of bytes it was given and has
cleared `active`. -/
theorem alt_lcd_16207_write_count (busy : Nat → Bool) (dev : Dev) (bytes : List Nat)
    (r : Dev × Nat) (h : alt_lcd_16207_write busy dev bytes = some r) :
    r.2 = bytes.length ∧ r.1.active = false := by
  unfold alt_lcd_16207_write at h
  cases h1 : write_parse busy { dev with active := true } bytes with
  | none =>
    rw [h1] at h
    exact Option.noConfusion h
  | some d1 =>
    rw [h1] at h
    simp only [Option.some_bind] at h
    rw [write_repaint_one] at h
    cases h2 : lcd_repaint_screen busy (write_layout d1) with
    | none =>
      rw [h2] at h
      exact Option.noConfusion h
    | some d2 =>
      rw [h2] at h
      cases h
      exact ⟨rfl, rfl⟩

/-- The digit scan stops at the latest at a cell of `escape` that holds no
digit. -/
theorem scan_digits_some (escape : Fin 8 → Nat) (t : Fin 8)
    (ht : isdigit (escape t) = false) :
    ∀ (fuel p : Nat) (parm : Int), p ≤ t.val → t.val < p + fuel →
      ∃ r, scan_digits escape fuel p parm = some r ∧ r.1 ≤ t.val ∧
        ∃ hq : r.1 < 8, r.2.2 = escape ⟨r.1, hq⟩ := by
  intro fuel
  induction fuel with
  | zero =>
    intro p parm h1 h2
    omega
  | succ n ih =>
    intro p parm h1 h2
    have hp : p < 8 := by have := t.isLt; omega
    simp only [scan_digits]
    rw [dif_pos hp]
    by_cases hd : isdigit (escape ⟨p, hp⟩) = true
    · rw [if_pos hd]
      have hne : p ≠ t.val := by
        intro e
        have e2 : (⟨p, hp⟩ : Fin 8) = t := Fin.ext e
        rw [e2, ht] at hd
        exact Bool.noConfusion hd
      exact ih (p + 1) _ (by omega) (by omega)
    · rw [if_neg hd]
      exact ⟨_, rfl, h1, hp, rfl⟩

/-- The parameters of an escape sequence are computed without leaving
`escape` when the sequence is terminated inside it. -/
theorem escape_parms_some (escape : Fin 8 → Nat) (t : Fin 8) (ht : escape t = 0) :
    ∃ r, escape_parms escape = some r := by
  have hdig : isdigit (escape t) = false := by rw [ht]; decide
  unfold escape_parms
  by_cases h0 : escape 0 = 91
  · rw [if_pos h0]
    have ht1 : 1 ≤ t.val := by
      have : t ≠ 0 := by
        intro e
        rw [e, h0] at ht
        exact absurd ht (by decide)
      have : t.val ≠ 0 := fun e => this (Fin.ext e)
      omega
    obtain ⟨r1, e1, b1, hq, c1⟩ := scan_digits_some escape t hdig 8 1 0 ht1 (by
      have := t.isLt; omega)
    rw [e1]
    dsimp only [Option.some_bind]
    by_cases h59 : r1.2.2 = 59
    · rw [if_pos h59]
      have hne : r1.1 ≠ t.val := by
        intro e
        have e2 : (⟨r1.1, hq⟩ : Fin 8) = t := Fin.ext e
        rw [c1, e2, ht] at h59
        exact absurd h59 (by decide)
      obtain ⟨r2, e2, _⟩ := scan_digits_some escape t hdig 8 (r1.1 + 1) 0 (by omega) (by
        have := t.isLt; omega)
      rw [e2]
      exact ⟨_, rfl⟩
    · rw [if_neg h59]
      exact ⟨_, rfl⟩
  · rw [if_neg h0]
    exact ⟨_, rfl⟩

theorem lcd_scroll_up_fields (dev : Dev) :
    (lcd_scroll_up dev).esccount = dev.esccount ∧
      (lcd_scroll_up dev).scrollpos = dev.scrollpos :=
  ⟨rfl, rfl⟩

theorem scroll_while_fields : ∀ (fuel : Nat) (dev : Dev),
    (scroll_while fuel dev).esccount = dev.esccount ∧
      (scroll_while fuel dev).scrollpos = dev.scrollpos := by
  intro fuel
  induction fuel with
  | zero => intro dev; exact ⟨rfl, rfl⟩
  | succ n ih =>
    intro dev
    simp only [scroll_while]
    by_cases hy : dev.y > 2
    · rw [if_pos hy]
      exact ih _
    · rw [if_neg hy]
      exact ⟨rfl, rfl⟩

theorem to_uchar_lt (v : Int) : to_uchar v < 256 := by
  unfold to_uchar
  have h1 : 0 ≤ v % 256 := Int.emod_nonneg _ (by decide)
  have h2 : v % 256 < 256 := Int.emod_lt_of_pos _ (by decide)
  omega

/-- Every command but `K` is carried out without leaving the rows, from a
state within the bounds and with a terminated escape sequence. -/
theorem lcd_handle_escape_some (busy : Nat → Bool) (dev : Dev) (c : Nat) (t : Fin 8)
    (ht : dev.escape t = 0) (hc : c ≠ 75) (hi : in_range dev) :
    ∃ d, lcd_handle_escape busy dev c = some d ∧ d.y ≤ 2 ∧
      d.esccount = dev.esccount ∧ d.scrollpos = dev.scrollpos := by
  obtain ⟨parms, hp⟩ := escape_parms_some dev.escape t ht
  unfold lcd_handle_escape
  rw [hp]
  dsimp only [Option.some_bind]
  by_cases hH : c = 72 ∨ c = 102
  · rw [if_pos hH]
    have h1 : (if parms.2 > 0 then { dev with x := to_uchar (parms.2 - 1) } else dev).y ≤ 2 ∧
        (if parms.2 > 0 then { dev with x := to_uchar (parms.2 - 1) } else dev).esccount
          = dev.esccount ∧
        (if parms.2 > 0 then { dev with x := to_uchar (parms.2 - 1) } else dev).scrollpos
          = dev.scrollpos := by
      by_cases hp2 : parms.2 > 0
      · rw [if_pos hp2]
        exact ⟨hi.1, rfl, rfl⟩
      · rw [if_neg hp2]
        exact ⟨hi.1, rfl, rfl⟩
    generalize (if parms.2 > 0 then { dev with x := to_uchar (parms.2 - 1) } else dev) = dev1
      at h1 ⊢
    by_cases hp1 : parms.1 > 0
    · rw [if_pos hp1]
      refine ⟨_, rfl, ?_, ?_⟩
      · apply scroll_while_settles
        · exact Nat.le_add_right _ _
        · by_cases h4 : to_uchar (parms.1 - 1) > 4
          · rw [if_pos h4]
            show 4 < 256
            decide
          · rw [if_neg h4]
            exact to_uchar_lt _
      · have f := scroll_while_fields
          (if ({ dev1 with y := to_uchar (parms.1 - 1) } : Dev).y > 4 then
              { ({ dev1 with y := to_uchar (parms.1 - 1) } : Dev) with y := 4 }
            else { dev1 with y := to_uchar (parms.1 - 1) }).y
          (if ({ dev1 with y := to_uchar (parms.1 - 1) } : Dev).y > 4 then
              { ({ dev1 with y := to_uchar (parms.1 - 1) } : Dev) with y := 4 }
            else { dev1 with y := to_uchar (parms.1 - 1) })
        refine ⟨f.1.trans ?_, f.2.trans ?_⟩
        · by_cases h4 : to_uchar (parms.1 - 1) > 4
          · rw [if_pos h4]; exact h1.2.1
          · rw [if_neg h4]; exact h1.2.1
        · by_cases h4 : to_uchar (parms.1 - 1) > 4
          · rw [if_pos h4]; exact h1.2.2
          · rw [if_neg h4]; exact h1.2.2
    · rw [if_neg hp1]
      exact ⟨_, rfl, h1⟩
  · rw [if_neg hH]
    by_cases hJ : c = 74
    · rw [if_pos hJ]
      by_cases hp2 : parms.1 = 2
      · rw [if_pos hp2]
        have f := (lcd_write_command_frame busy dev 0x01).1
        exact ⟨_, rfl, Nat.zero_le 2, f.2.2.1, f.2.2.2.1⟩
      · rw [if_neg hp2]
        exact ⟨_, rfl, hi.1, rfl, rfl⟩
    · rw [if_neg hJ, if_neg hc]
      exact ⟨_, rfl, hi.1, rfl, rfl⟩

/-- The store of a printable byte with the cursor on a row of the panel. -/
theorem store_byte_some (dev1 : Dev) (c : Nat) (y1 : dev1.y < 2) :
    ∃ d,
      (if hx : dev1.x < 80 then
        if h : dev1.y < 2 then
          some { dev1 with
            line := set_line dev1.line ⟨dev1.y, h⟩
              { dev1.line ⟨dev1.y, h⟩ with
                data := upd (dev1.line ⟨dev1.y, h⟩).data ⟨dev1.x, by omega⟩ c },
            x := (dev1.x + 1) % 256 }
        else none
      else some { dev1 with x := (dev1.x + 1) % 256 }) = some d ∧
      d.y = dev1.y ∧ d.esccount = dev1.esccount ∧ d.scrollpos = dev1.scrollpos := by
  by_cases hx : dev1.x < 80
  · rw [dif_pos hx, dif_pos y1]
    exact ⟨_, rfl, rfl, rfl, rfl⟩
  · rw [dif_neg hx]
    exact ⟨_, rfl, rfl, rfl, rfl⟩

/-- One byte other than `K` is parsed without leaving the rows or the escape
buffer, and the bounds are kept. -/
theorem write_byte_some (busy : Nat → Bool) (dev : Dev) (c : Nat)
    (hi : in_range dev) (hc : c ≠ 75) :
    ∃ d, write_byte busy dev c = some d ∧ in_range d := by
  obtain ⟨hy, he, hs⟩ := hi
  unfold write_byte
  by_cases h0 : dev.esccount ≥ 0
  · rw [if_pos h0]
    by_cases h1 : (dev.esccount = 0 ∧ c ≠ 91) ∨
        (dev.esccount > 0 ∧ isdigit c = false ∧ c ≠ 59)
    · rw [if_pos h1]
      have h2 : dev.esccount.toNat < 8 := by omega
      rw [dif_pos h2]
      obtain ⟨d, hd, dy, _, ds⟩ := lcd_handle_escape_some busy
        { dev with escape := upd dev.escape ⟨dev.esccount.toNat, h2⟩ 0 } c
        ⟨dev.esccount.toNat, h2⟩ (by simp [upd]) hc ⟨hy, he, hs⟩
      rw [hd]
      exact ⟨_, rfl, dy, by show (-1 : Int) ≤ 7; decide, by rw [← ds] at hs; exact hs⟩
    · rw [if_neg h1]
      by_cases h2 : dev.esccount < 7
      · rw [dif_pos h2]
        exact ⟨_, rfl, hy, by show dev.esccount + 1 ≤ 7; omega, hs⟩
      · rw [dif_neg h2]
        exact ⟨_, rfl, hy, he, hs⟩
  · rw [if_neg h0]
    by_cases c27 : c = 27
    · rw [if_pos c27]
      exact ⟨_, rfl, hy, by show (0 : Int) ≤ 7; decide, hs⟩
    · rw [if_neg c27]
      by_cases c13 : c = 13
      · rw [if_pos c13]
        exact ⟨_, rfl, hy, he, hs⟩
      · rw [if_neg c13]
        by_cases c10 : c = 10
        · rw [if_pos c10]
          dsimp only
          by_cases h3 : (dev.y + 1) % 256 > 2
          · rw [if_pos h3]
            refine ⟨_, rfl, ?_, he, hs⟩
            show ((dev.y + 1) % 256 + 255) % 256 ≤ 2
            omega
          · rw [if_neg h3]
            exact ⟨_, rfl, by show (dev.y + 1) % 256 ≤ 2; omega, he, hs⟩
        · rw [if_neg c10]
          by_cases c8 : c = 8
          · rw [if_pos c8]
            by_cases hx : dev.x > 0
            · rw [if_pos hx]
              exact ⟨_, rfl, hy, he, hs⟩
            · rw [if_neg hx]
              exact ⟨_, rfl, hy, he, hs⟩
          · rw [if_neg c8]
            by_cases cp : isprint c = true
            · rw [if_pos cp]
              have h1 : (if dev.y ≥ 2 then lcd_scroll_up dev else dev).y < 2 ∧
                  (if dev.y ≥ 2 then lcd_scroll_up dev else dev).esccount = dev.esccount ∧
                  (if dev.y ≥ 2 then lcd_scroll_up dev else dev).scrollpos
                    = dev.scrollpos := by
                by_cases h2 : dev.y ≥ 2
                · rw [if_pos h2]
                  refine ⟨?_, rfl, rfl⟩
                  show (dev.y + 255) % 256 < 2
                  omega
                · rw [if_neg h2]
                  exact ⟨by omega, rfl, rfl⟩
              obtain ⟨d, e, dy, de, ds⟩ := store_byte_some
                (if dev.y ≥ 2 then lcd_scroll_up dev else dev) c h1.1
              refine ⟨d, e, ?_, ?_, ?_⟩
              · rw [dy]; omega
              · rw [de, h1.2.1]; exact he
              · rw [ds, h1.2.2]; exact hs
            · rw [if_neg cp]
              exact ⟨_, rfl, hy, he, hs⟩

theorem write_parse_some (busy : Nat → Bool) (bytes : List Nat) :
    ∀ dev : Dev, in_range dev → (∀ c ∈ bytes, c ≠ 75) →
      ∃ d, write_parse busy dev bytes = some d ∧ in_range d := by
  induction bytes with
  | nil => intro dev hi _; exact ⟨dev, rfl, hi⟩
  | cons c cs ih =>
    intro dev hi hc
    obtain ⟨d1, e1, i1⟩ := write_byte_some busy dev c hi (hc c (List.mem_cons_self c cs))
    obtain ⟨d2, e2, i2⟩ := ih d1 i1 (fun c1 h1 => hc c1 (List.mem_cons_of_mem c h1))
    refine ⟨d2, ?_, i2⟩
    simp only [write_parse]
    rw [e1]
    exact e2

theorem write_layout_scrollpos (dev : Dev) :
    (write_layout dev).scrollpos = dev.scrollpos := by
  unfold write_layout
  dsimp only
  split_ifs <;> rfl

/-- A write of bytes other than `K` from a state within the bounds
returns. -/
theorem alt_lcd_16207_write_some (busy : Nat → Bool) (dev : Dev) (bytes : List Nat)
    (hi : in_range dev) (hc : ∀ c ∈ bytes, c ≠ 75) :
    ∃ r, alt_lcd_16207_write busy dev bytes = some r := by
  obtain ⟨d1, e1, i1⟩ := write_parse_some busy bytes { dev with active := true } hi hc
  have hw : ∀ y : Fin 2, 0 < ((write_layout d1).line y).width ∧
      ((write_layout d1).line y).width ≤ 81 := by
    intro y
    rw [write_layout_width]
    have := line_width_bounds (d1.line y).data
    omega
  obtain ⟨d2, e2, _⟩ := lcd_repaint_screen_some busy (write_layout d1) hw (by
    rw [write_layout_scrollpos]; exact i1.2.2)
  refine ⟨({ d2 with active := false }, bytes.length), ?_⟩
  unfold alt_lcd_16207_write
  rw [e1]
  simp only [Option.some_bind]
  rw [write_repaint_one, e2]
  rfl

/-- The result of `alt_lcd_16207_write` does not depend on the controller: for
every start state, every byte sequence and every two behaviours of the busy
bit, either both runs are undefined (an access outside a row or outside
`escape`), or both return, each returns the number of bytes given, and the two
runs end with the same cursor, the same virtual row data, the same parser
state and the same width, speed and scroll period (`same_model`). -/
theorem alt_lcd_16207_write_independent (busy1 busy2 : Nat → Bool) (dev : Dev)
    (bytes : List Nat) :
    ((alt_lcd_16207_write busy1 dev bytes).isSome =
      (alt_lcd_16207_write busy2 dev bytes).isSome) ∧
    (∀ r1 r2, alt_lcd_16207_write busy1 dev bytes = some r1 →
      alt_lcd_16207_write busy2 dev bytes = some r2 →
      r1.2 = bytes.length ∧ r2.2 = bytes.length ∧ same_model r1.1 r2.1) := by
  have hb := alt_lcd_16207_write_same busy1 busy2 dev dev bytes (same_model_refl dev)
  refine ⟨?_, ?_⟩
  · cases h1 : alt_lcd_16207_write busy1 dev bytes with
    | none =>
      cases h2 : alt_lcd_16207_write busy2 dev bytes with
      | none => rfl
      | some r2 =>
        rw [h1, h2] at hb
        exact hb.elim
    | some r1 =>
      cases h2 : alt_lcd_16207_write busy2 dev bytes with
      | none =>
        rw [h1, h2] at hb
        exact hb.elim
      | some r2 => rfl
  · intro r1 r2 h1 h2
    rw [h1, h2] at hb
    exact ⟨(alt_lcd_16207_write_count busy1 dev bytes r1 h1).1,
      (alt_lcd_16207_write_count busy2 dev bytes r2 h2).1, hb⟩

/-- A line longer than the panel, a malformed escape sequence and a
clear-screen command, written to the initialised display with a controller
that is always ready and with one whose busy bit is stuck: both writes return
31, the number of bytes, and end with the same terminal model. -/
theorem write_independent_example :
    (∃ r1 r2,
      alt_lcd_16207_write ready fresh
        (List.replicate 20 65 ++ [27, 91, 59, 59, 120, 27, 91, 50, 74, 72, 105]) = some r1 ∧
      alt_lcd_16207_write stuck fresh
        (List.replicate 20 65 ++ [27, 91, 59, 59, 120, 27, 91, 50, 74, 72, 105]) = some r2) ∧
    (∀ r1 r2,
      alt_lcd_16207_write ready fresh
        (List.replicate 20 65 ++ [27, 91, 59, 59, 120, 27, 91, 50, 74, 72, 105]) = some r1 →
      alt_lcd_16207_write stuck fresh
        (List.replicate 20 65 ++ [27, 91, 59, 59, 120, 27, 91, 50, 74, 72, 105]) = some r2 →
      r1.2 = 31 ∧ r2.2 = 31 ∧ same_model r1.1 r2.1) :=
  ⟨(alt_lcd_16207_write_some ready fresh _ (by unfold in_range; decide!) (by decide!)).elim
      (fun r1 h1 =>
        (alt_lcd_16207_write_some stuck fresh _ (by unfold in_range; decide!) (by decide!)).elim
          (fun r2 h2 => ⟨r1, r2, h1, h2⟩)),
    (alt_lcd_16207_write_independent ready stuck fresh
      (List.replicate 20 65 ++ [27, 91, 59, 59, 120, 27, 91, 50, 74, 72, 105])).2⟩

/-! ## C17: timer interrupts during the repaint loop of a write -/

theorem next_pos_nonneg (M s : Int) (hs : 0 ≤ s) : 0 ≤ next_pos M s := by
  unfold next_pos
  split <;> omega

/-- The characters a repaint reads depend on the rows' data, width and speed
and on the scroll position only. -/
theorem repaint_chars_eq (a b : Dev) (hs : b.scrollpos = a.scrollpos)
    (hl : ∀ r : Fin 2, (b.line r).data = (a.line r).data ∧
      (b.line r).width = (a.line r).width ∧ (b.line r).speed = (a.line r).speed)
    (y : Fin 2) (x : Fin 16) :
    repaint_char b y (b.line y).width (row_offset b y) x =
      repaint_char a y (a.line y).width (row_offset a y) x := by
  have ho : row_offset b y = row_offset a y := by
    unfold row_offset
    rw [hs, (hl y).2.1, (hl y).2.2]
  rw [repaint_char_congr b a y _ _ _ (hl y).1, (hl y).2.1, ho]

/-- After a repaint every shadow holds the character for the current scroll
position. -/
theorem lcd_repaint_screen_painted (busy : Nat → Bool) (dev d : Dev)
    (h : lcd_repaint_screen busy dev = some d) : painted d := by
  obtain ⟨f, t⟩ := lcd_repaint_screen_spec busy dev d h
  intro y x
  rw [repaint_chars_eq dev d f.2.2.2.1 f.2.2.2.2.2.2.2.2.1 y x]
  exact t y x

theorem timeout_pos (dev : Dev) :
    (if dev.scrollpos + 1 ≥ dev.scrollmax then { dev with scrollpos := 0 }
      else { dev with scrollpos := dev.scrollpos + 1 }) =
      { dev with scrollpos := next_pos dev.scrollmax dev.scrollpos } := by
  unfold next_pos
  split <;> rfl

/-- One timer interrupt: the scroll position moves, and the screen is
repainted for it when something scrolls and the foreground is not active. -/
theorem alt_lcd_16207_timeout_spec (busy : Nat → Bool) (dev d : Dev)
    (h : alt_lcd_16207_timeout busy dev = some d) :
    repaint_frame { dev with scrollpos := next_pos dev.scrollmax dev.scrollpos } d ∧
      (0 < dev.scrollmax → dev.active = false → painted d) := by
  unfold alt_lcd_16207_timeout at h
  dsimp only at h
  rw [timeout_pos] at h
  by_cases hc : dev.scrollmax > 0 ∧ dev.active = false
  · rw [if_pos hc] at h
    exact ⟨(lcd_repaint_screen_spec busy _ d h).1,
      fun _ _ => lcd_repaint_screen_painted busy _ d h⟩
  · rw [if_neg hc] at h
    cases h
    exact ⟨repaint_frame_refl _, fun h1 h2 => absurd ⟨h1, h2⟩ hc⟩

theorem alt_lcd_16207_timeout_some (busy : Nat → Bool) (dev : Dev)
    (hw : ∀ y : Fin 2, 0 < (dev.line y).width ∧ (dev.line y).width ≤ 81)
    (hs : 0 ≤ dev.scrollpos) :
    ∃ d, alt_lcd_16207_timeout busy dev = some d := by
  unfold alt_lcd_16207_timeout
  dsimp only
  rw [timeout_pos]
  by_cases hc : dev.scrollmax > 0 ∧ dev.active = false
  · rw [if_pos hc]
    obtain ⟨d, hd, _⟩ := lcd_repaint_screen_some busy
      { dev with scrollpos := next_pos dev.scrollmax dev.scrollpos } hw
      (next_pos_nonneg _ _ hs)
    exact ⟨d, hd⟩
  · rw [if_neg hc]
    exact ⟨_, rfl⟩

theorem scroll_while_keeps : ∀ (fuel : Nat) (dev : Dev),
    (scroll_while fuel dev).scrollpos = dev.scrollpos ∧
      (scroll_while fuel dev).active = dev.active := by
  intro fuel
  induction fuel with
  | zero => intro dev; exact ⟨rfl, rfl⟩
  | succ n ih =>
    intro dev
    simp only [scroll_while]
    by_cases hy : dev.y > 2
    · rw [if_pos hy]
      exact ih _
    · rw [if_neg hy]
      exact ⟨rfl, rfl⟩

/-- No command of an escape sequence touches `scrollpos` or `active`. -/
theorem lcd_handle_escape_keeps (busy : Nat → Bool) (dev d : Dev) (c : Nat)
    (h : lcd_handle_escape busy dev c = some d) :
    d.scrollpos = dev.scrollpos ∧ d.active = dev.active := by
  unfold lcd_handle_escape at h
  obtain ⟨parms, _, h⟩ := Option.bind_eq_some.1 h
  dsimp only at h
  by_cases hH : c = 72 ∨ c = 102
  · rw [if_pos hH] at h
    have h1 : (if parms.2 > 0 then { dev with x := to_uchar (parms.2 - 1) } else dev).scrollpos
          = dev.scrollpos ∧
        (if parms.2 > 0 then { dev with x := to_uchar (parms.2 - 1) } else dev).active
          = dev.active := by
      by_cases hp2 : parms.2 > 0
      · rw [if_pos hp2]
        exact ⟨rfl, rfl⟩
      · rw [if_neg hp2]
        exact ⟨rfl, rfl⟩
    generalize (if parms.2 > 0 then { dev with x := to_uchar (parms.2 - 1) } else dev) = dev1
      at h1 h
    by_cases hp1 : parms.1 > 0
    · rw [if_pos hp1] at h
      cases h
      have f := scroll_while_keeps
        (if ({ dev1 with y := to_uchar (parms.1 - 1) } : Dev).y > 4 then
            { ({ dev1 with y := to_uchar (parms.1 - 1) } : Dev) with y := 4 }
          else { dev1 with y := to_uchar (parms.1 - 1) }).y
        (if ({ dev1 with y := to_uchar (parms.1 - 1) } : Dev).y > 4 then
            { ({ dev1 with y := to_uchar (parms.1 - 1) } : Dev) with y := 4 }
          else { dev1 with y := to_uchar (parms.1 - 1) })
      refine ⟨f.1.trans ?_, f.2.trans ?_⟩
      · by_cases h4 : to_uchar (parms.1 - 1) > 4
        · rw [if_pos h4]; exact h1.1
        · rw [if_neg h4]; exact h1.1
      · by_cases h4 : to_uchar (parms.1 - 1) > 4
        · rw [if_pos h4]; exact h1.2
        · rw [if_neg h4]; exact h1.2
    · rw [if_neg hp1] at h
      cases h
      exact h1
  · rw [if_neg hH] at h
    by_cases hJ : c = 74
    · rw [if_pos hJ] at h
      by_cases hp2 : parms.1 = 2
      · rw [if_pos hp2] at h
        cases h
        have f := (lcd_write_command_frame busy dev 0x01).1
        exact ⟨f.2.2.2.1, f.2.2.2.2.2.1⟩
      · rw [if_neg hp2] at h
        cases h
        exact ⟨rfl, rfl⟩
    · rw [if_neg hJ] at h
      by_cases hK : c = 75
      · rw [if_pos hK] at h
        by_cases hp : parms.1 < 1
        · rw [if_pos hp] at h
          by_cases hx : dev.x < 80
          · rw [if_pos hx] at h
            by_cases hy : dev.y < 2
            · rw [dif_pos hy] at h
              cases h
              exact ⟨rfl, rfl⟩
            · rw [dif_neg hy] at h
              exact Option.noConfusion h
          · rw [if_neg hx] at h
            cases h
            exact ⟨rfl, rfl⟩
        · rw [if_neg hp] at h
          cases h
          exact ⟨rfl, rfl⟩
      · rw [if_neg hK] at h
        cases h
        exact ⟨rfl, rfl⟩

/-- The store of a printable byte touches neither `scrollpos` nor
`active`. -/
theorem store_byte_keeps (dev1 d : Dev) (c : Nat)
    (h : (if hx : dev1.x < 80 then
        if h : dev1.y < 2 then
          some { dev1 with
            line := set_line dev1.line ⟨dev1.y, h⟩
              { dev1.line ⟨dev1.y, h⟩ with
                data := upd (dev1.line ⟨dev1.y, h⟩).data ⟨dev1.x, by omega⟩ c },
            x := (dev1.x + 1) % 256 }
        else none
      else some { dev1 with x := (dev1.x + 1) % 256 }) = some d) :
    d.scrollpos = dev1.scrollpos ∧ d.active = dev1.active := by
  by_cases hx : dev1.x < 80
  · rw [dif_pos hx] at h
    by_cases hy : dev1.y < 2
    · rw [dif_pos hy] at h
      cases h
      exact ⟨rfl, rfl⟩
    · rw [dif_neg hy] at h
      exact Option.noConfusion h
  · rw [dif_neg hx] at h
    cases h
    exact ⟨rfl, rfl⟩

/-- The parse of one byte touches neither `scrollpos` nor `active`. -/
theorem write_byte_keeps (busy : Nat → Bool) (dev d : Dev) (c : Nat)
    (h : write_byte busy dev c = some d) :
    d.scrollpos = dev.scrollpos ∧ d.active = dev.active := by
  unfold write_byte at h
  by_cases h0 : dev.esccount ≥ 0
  · rw [if_pos h0] at h
    by_cases h1 : (dev.esccount = 0 ∧ c ≠ 91) ∨
        (dev.esccount > 0 ∧ isdigit c = false ∧ c ≠ 59)
    · rw [if_pos h1] at h
      by_cases h2 : dev.esccount.toNat < 8
      · rw [dif_pos h2] at h
        obtain ⟨d1, e1, h⟩ := Option.bind_eq_some.1 h
        cases h
        exact lcd_handle_escape_keeps busy
          { dev with escape := upd dev.escape ⟨dev.esccount.toNat, h2⟩ 0 } d1 c e1
      · rw [dif_neg h2] at h
        exact Option.noConfusion h
    · rw [if_neg h1] at h
      by_cases h2 : dev.esccount < 7
      · rw [dif_pos h2] at h
        cases h
        exact ⟨rfl, rfl⟩
      · rw [dif_neg h2] at h
        cases h
        exact ⟨rfl, rfl⟩
  · rw [if_neg h0] at h
    by_cases c27 : c = 27
    · rw [if_pos c27] at h
      cases h
      exact ⟨rfl, rfl⟩
    · rw [if_neg c27] at h
      by_cases c13 : c = 13
      · rw [if_pos c13] at h
        cases h
        exact ⟨rfl, rfl⟩
      · rw [if_neg c13] at h
        by_cases c10 : c = 10
        · rw [if_pos c10] at h
          dsimp only at h
          by_cases h3 : (dev.y + 1) % 256 > 2
          · rw [if_pos h3] at h
            cases h
            exact ⟨rfl, rfl⟩
          · rw [if_neg h3] at h
            cases h
            exact ⟨rfl, rfl⟩
        · rw [if_neg c10] at h
          by_cases c8 : c = 8
          · rw [if_pos c8] at h
            by_cases hx : dev.x > 0
            · rw [if_pos hx] at h
              cases h
              exact ⟨rfl, rfl⟩
            · rw [if_neg hx] at h
              cases h
              exact ⟨rfl, rfl⟩
          · rw [if_neg c8] at h
            by_cases cp : isprint c = true
            · rw [if_pos cp] at h
              have k := store_byte_keeps (if dev.y ≥ 2 then lcd_scroll_up dev else dev) d c h
              have h1 : (if dev.y ≥ 2 then lcd_scroll_up dev else dev).scrollpos
                    = dev.scrollpos ∧
                  (if dev.y ≥ 2 then lcd_scroll_up dev else dev).active = dev.active := by
                by_cases h2 : dev.y ≥ 2
                · rw [if_pos h2]
                  exact ⟨rfl, rfl⟩
                · rw [if_neg h2]
                  exact ⟨rfl, rfl⟩
              exact ⟨k.1.trans h1.1, k.2.trans h1.2⟩
            · rw [if_neg cp] at h
              cases h
              exact ⟨rfl, rfl⟩

theorem write_parse_keeps (busy : Nat → Bool) (bytes : List Nat) :
    ∀ (dev d : Dev), write_parse busy dev bytes = some d →
      d.scrollpos = dev.scrollpos ∧ d.active = dev.active := by
  induction bytes with
  | nil =>
    intro dev d h
    cases h
    exact ⟨rfl, rfl⟩
  | cons c cs ih =>
    intro dev d h
    simp only [write_parse] at h
    obtain ⟨d1, e1, h⟩ := Option.bind_eq_some.1 h
    have k1 := write_byte_keeps busy dev d1 c e1
    have k2 := ih d1 d h
    exact ⟨k2.1.trans k1.1, k2.2.trans k1.2⟩

/-- The write of the witness of C17 evaluated: it leaves the loop in its
second turn with the scroll position 4 and the screen painted for it (the
interrupt taken while parsing finds the scroll period 0 and leaves the
position at 0). -/
theorem write_irq_evaluated :
    (alt_lcd_16207_write_irq ready 1
      [busy_turn, quiet]
      fresh (List.replicate 20 97)).map
      (fun r => (r.1.active, r.1.scrollpos, r.1.scrollmax,
        decide (∀ (y : Fin 2) (x : Fin 16),
          repaint_char r.1 y (r.1.line y).width (row_offset r.1 y) x =
            some ((r.1.line y).visible x)))) =
      some (false, 4, 42, true) := by
  decide!
theorem for_upto_irq_zero {N : Nat} (busy : Nat → Bool) (body : Dev → Fin N → Option Dev) :
    ∀ (n : Nat) (hn : n ≤ N) (dev : Dev),
      for_upto_irq busy (fun _ => 0) body n hn dev = for_upto body n hn dev := by
  intro n
  induction n with
  | zero => intro _ _; rfl
  | succ n ih =>
    intro hn dev
    simp only [for_upto_irq, for_upto, ticks]
    rw [ih]
    cases for_upto body n (Nat.le_of_succ_le hn) dev with
    | none => rfl
    | some m => rfl

/-- With no interrupt the repaint with interrupts is `lcd_repaint_screen`. -/
theorem lcd_repaint_screen_irq_zero (busy : Nat → Bool) (dev : Dev) :
    lcd_repaint_screen_irq busy (fun _ _ => 0) dev = lcd_repaint_screen busy dev := by
  unfold lcd_repaint_screen_irq lcd_repaint_screen repaint_row_irq
  simp only [for_upto, Option.some_bind, for_upto_irq_zero]
  rfl

/-- With no interrupt the write with interrupts is `alt_lcd_16207_write`. -/
theorem alt_lcd_16207_write_irq_quiet (busy : Nat → Bool) (dev : Dev) (bytes : List Nat) :
    alt_lcd_16207_write_irq busy 0 [quiet] dev bytes = alt_lcd_16207_write busy dev bytes := by
  unfold alt_lcd_16207_write_irq alt_lcd_16207_write
  cases write_parse busy { dev with active := true } bytes with
  | none => rfl
  | some d1 =>
    simp only [Option.some_bind, ticks, write_repaint_irq, write_repaint, quiet,
      lcd_repaint_screen_irq_zero]

/-! ## C21: the escape parser as a three-state machine -/

/-- The store of a printable byte leaves `esccount` alone. -/
theorem store_byte_esccount (dev1 d : Dev) (c : Nat)
    (h : (if hx : dev1.x < 80 then
        if h : dev1.y < 2 then
          some { dev1 with
            line := set_line dev1.line ⟨dev1.y, h⟩
              { dev1.line ⟨dev1.y, h⟩ with
                data := upd (dev1.line ⟨dev1.y, h⟩).data ⟨dev1.x, by omega⟩ c },
            x := (dev1.x + 1) % 256 }
        else none
      else some { dev1 with x := (dev1.x + 1) % 256 }) = some d) :
    d.esccount = dev1.esccount := by
  by_cases hx : dev1.x < 80
  · rw [dif_pos hx] at h
    by_cases hy : dev1.y < 2
    · rw [dif_pos hy] at h
      cases h
      rfl
    · rw [dif_neg hy] at h
      exact Option.noConfusion h
  · rw [dif_neg hx] at h
    cases h
    rfl

/-- Outside an escape sequence every byte but ESC leaves `esccount` alone. -/
theorem write_byte_normal_esccount (busy : Nat → Bool) (dev d : Dev) (c : Nat)
    (hn : dev.esccount < 0) (hc : c ≠ 27) (h : write_byte busy dev c = some d) :
    d.esccount = dev.esccount := by
  unfold write_byte at h
  rw [if_neg (by omega), if_neg hc] at h
  by_cases c13 : c = 13
  · rw [if_pos c13] at h
    cases h
    rfl
  · rw [if_neg c13] at h
    by_cases c10 : c = 10
    · rw [if_pos c10] at h
      dsimp only at h
      by_cases h3 : (dev.y + 1) % 256 > 2
      · rw [if_pos h3] at h
        cases h
        rfl
      · rw [if_neg h3] at h
        cases h
        rfl
    · rw [if_neg c10] at h
      by_cases c8 : c = 8
      · rw [if_pos c8] at h
        by_cases hx : dev.x > 0
        · rw [if_pos hx] at h
          cases h
          rfl
        · rw [if_neg hx] at h
          cases h
          rfl
      · rw [if_neg c8] at h
        by_cases cp : isprint c = true
        · rw [if_pos cp] at h
          have h1 : (if dev.y ≥ 2 then lcd_scroll_up dev else dev).esccount
              = dev.esccount := by
            by_cases h2 : dev.y ≥ 2
            · rw [if_pos h2]
              rfl
            · rw [if_neg h2]
          exact (store_byte_esccount (if dev.y ≥ 2 then lcd_scroll_up dev else dev) d c h).trans h1
        · rw [if_neg cp] at h
          cases h
          rfl

/-- A byte that continues an escape sequence when `escape` is full is
dropped. -/
theorem write_byte_drop (busy : Nat → Bool) (dev : Dev) (c : Nat)
    (h7 : 7 ≤ dev.esccount) (hc : isdigit c = true ∨ c = 59) :
    write_byte busy dev c = some dev := by
  have h2 : ¬ ((dev.esccount = 0 ∧ c ≠ 91) ∨
      (dev.esccount > 0 ∧ isdigit c = false ∧ c ≠ 59)) := by
    rintro (⟨h, _⟩ | ⟨_, h, h3⟩)
    · omega
    · rcases hc with hc | hc
      · rw [hc] at h
        exact Bool.noConfusion h
      · exact h3 hc
  unfold write_byte
  rw [if_pos (by omega), if_neg h2, dif_neg (by omega)]

/-- Every command is carried out without leaving the rows when the escape
sequence is terminated inside `escape`, but for `K` with the cursor below the
panel. -/
theorem lcd_handle_escape_defined (busy : Nat → Bool) (dev : Dev) (c : Nat) (t : Fin 8)
    (ht : dev.escape t = 0) (hk : c = 75 → dev.y < 2) :
    ∃ d, lcd_handle_escape busy dev c = some d := by
  obtain ⟨parms, hp⟩ := escape_parms_some dev.escape t ht
  unfold lcd_handle_escape
  rw [hp]
  dsimp only [Option.some_bind]
  by_cases hH : c = 72 ∨ c = 102
  · rw [if_pos hH]
    by_cases hp1 : parms.1 > 0
    · rw [if_pos hp1]
      exact ⟨_, rfl⟩
    · rw [if_neg hp1]
      exact ⟨_, rfl⟩
  · rw [if_neg hH]
    by_cases hJ : c = 74
    · rw [if_pos hJ]
      by_cases hp2 : parms.1 = 2
      · rw [if_pos hp2]
        exact ⟨_, rfl⟩
      · rw [if_neg hp2]
        exact ⟨_, rfl⟩
    · rw [if_neg hJ]
      by_cases hK : c = 75
      · rw [if_pos hK]
        by_cases hp : parms.1 < 1
        · rw [if_pos hp]
          by_cases hx : dev.x < 80
          · rw [if_pos hx, dif_pos (hk hK)]
            exact ⟨_, rfl⟩
          · rw [if_neg hx]
            exact ⟨_, rfl⟩
        · rw [if_neg hp]
          exact ⟨_, rfl⟩
      · rw [if_neg hK]
        exact ⟨_, rfl⟩

/-- A command letter other than `H`, `f`, `J`, `K` changes nothing. -/
theorem lcd_handle_escape_other (busy : Nat → Bool) (dev : Dev) (c : Nat) (t : Fin 8)
    (ht : dev.escape t = 0) (h1 : c ≠ 72) (h2 : c ≠ 102) (h3 : c ≠ 74) (h4 : c ≠ 75) :
    lcd_handle_escape busy dev c = some dev := by
  obtain ⟨parms, hp⟩ := escape_parms_some dev.escape t ht
  unfold lcd_handle_escape
  rw [hp]
  dsimp only [Option.some_bind]
  rw [if_neg (by omega), if_neg h3, if_neg h4]

/-- One byte is parsed without leaving the rows or the escape buffer, from a
state with the escape index at most 7, unless `K` is dispatched with the
cursor below the panel or a printable byte arrives with the cursor below
row 2. -/
theorem write_byte_defined (busy : Nat → Bool) (dev : Dev) (c : Nat)
    (he : dev.esccount ≤ 7) (hk : 0 ≤ dev.esccount → c = 75 → dev.y < 2)
    (hy : dev.esccount < 0 → dev.y ≤ 2) :
    ∃ d, write_byte busy dev c = some d := by
  by_cases h0 : dev.esccount ≥ 0
  · by_cases h1 : (dev.esccount = 0 ∧ c ≠ 91) ∨
        (dev.esccount > 0 ∧ isdigit c = false ∧ c ≠ 59)
    · have h2 : dev.esccount.toNat < 8 := by omega
      obtain ⟨d, hd⟩ := lcd_handle_escape_defined busy
        { dev with escape := upd dev.escape ⟨dev.esccount.toNat, h2⟩ 0 } c
        ⟨dev.esccount.toNat, h2⟩ (by simp [upd]) (hk h0)
      unfold write_byte
      rw [if_pos h0, if_pos h1, dif_pos h2, hd]
      exact ⟨_, rfl⟩
    · unfold write_byte
      rw [if_pos h0, if_neg h1]
      by_cases h2 : dev.esccount < 7
      · rw [dif_pos h2]
        exact ⟨_, rfl⟩
      · rw [dif_neg h2]
        exact ⟨_, rfl⟩
  · have hy2 := hy (by omega)
    unfold write_byte
    rw [if_neg h0]
    by_cases c27 : c = 27
    · rw [if_pos c27]
      exact ⟨_, rfl⟩
    · rw [if_neg c27]
      by_cases c13 : c = 13
      · rw [if_pos c13]
        exact ⟨_, rfl⟩
      · rw [if_neg c13]
        by_cases c10 : c = 10
        · rw [if_pos c10]
          dsimp only
          by_cases h3 : (dev.y + 1) % 256 > 2
          · rw [if_pos h3]
            exact ⟨_, rfl⟩
          · rw [if_neg h3]
            exact ⟨_, rfl⟩
        · rw [if_neg c10]
          by_cases c8 : c = 8
          · rw [if_pos c8]
            by_cases hx : dev.x > 0
            · rw [if_pos hx]
              exact ⟨_, rfl⟩
            · rw [if_neg hx]
              exact ⟨_, rfl⟩
          · rw [if_neg c8]
            by_cases cp : isprint c = true
            · rw [if_pos cp]
              have h1 : (if dev.y ≥ 2 then lcd_scroll_up dev else dev).y < 2 := by
                by_cases h2 : dev.y ≥ 2
                · rw [if_pos h2]
                  show (dev.y + 255) % 256 < 2
                  omega
                · rw [if_neg h2]
                  omega
              obtain ⟨d, e, _⟩ := store_byte_some
                (if dev.y ≥ 2 then lcd_scroll_up dev else dev) c h1
              exact ⟨d, e⟩
            · rw [if_neg cp]
              exact ⟨_, rfl⟩

theorem parser_state_normal (dev : Dev) (h : dev.esccount < 0) :
    parser_state dev = ParserState.NORMAL := by
  unfold parser_state
  rw [if_pos h]

theorem parser_state_pending (dev : Dev) (h : dev.esccount = 0) :
    parser_state dev = ParserState.ESCAPE_PENDING := by
  unfold parser_state
  rw [if_neg (by omega), if_pos h]

theorem parser_state_csi (dev : Dev) (h : 0 < dev.esccount) :
    parser_state dev = ParserState.CSI_PARAMS := by
  unfold parser_state
  rw [if_neg (by omega), if_neg (by omega)]

/-- The parser state after a dispatch is the normal one. -/
theorem write_byte_dispatched (busy : Nat → Bool) (dev d : Dev) (c : Nat)
    (h0 : 0 ≤ dev.esccount) (he : dev.esccount ≤ 7)
    (hc : (dev.esccount = 0 ∧ c ≠ 91) ∨ (0 < dev.esccount ∧ isdigit c = false ∧ c ≠ 59))
    (h : write_byte busy dev c = some d) : d.esccount = -1 := by
  have hk : dev.esccount = ((dev.esccount.toNat : Nat) : Int) := by omega
  rw [write_byte_dispatch busy dev c dev.esccount.toNat hk (by omega) (by
    rcases hc with ⟨a, b⟩ | ⟨a, b⟩
    · left; exact ⟨by omega, b⟩
    · right; exact ⟨by omega, b⟩)] at h
  obtain ⟨d1, _, h⟩ := Option.bind_eq_some.1 h
  cases h
  rfl

/-- The escape parser follows the reference machine, and the escape index
stays within the buffer. -/
theorem write_byte_parser_state (busy : Nat → Bool) (dev d : Dev) (c : Nat)
    (he : dev.esccount ≤ 7) (h : write_byte busy dev c = some d) :
    parser_state d = ref_parser_step (parser_state dev) c ∧ d.esccount ≤ 7 := by
  by_cases hn : dev.esccount < 0
  · rw [parser_state_normal dev hn]
    by_cases c27 : c = 27
    · subst c27
      rw [write_byte_esc busy dev hn] at h
      cases h
      exact ⟨rfl, by show (0 : Int) ≤ 7; decide⟩
    · have e := write_byte_normal_esccount busy dev d c hn c27 h
      refine ⟨?_, by omega⟩
      rw [parser_state_normal d (by omega)]
      show _ = if c = 27 then _ else _
      rw [if_neg c27]
  · by_cases hz : dev.esccount = 0
    · rw [parser_state_pending dev hz]
      show _ = (if c = 91 then _ else _) ∧ _
      by_cases c91 : c = 91
      · rw [write_byte_collect busy dev c 0 hz (by decide) (Or.inl ⟨rfl, c91⟩)] at h
        cases h
        rw [if_pos c91]
        exact ⟨parser_state_csi _ (by show (0 : Int) < ((0 : Nat) : Int) + 1; decide),
          by show ((0 : Nat) : Int) + 1 ≤ 7; decide⟩
      · have e := write_byte_dispatched busy dev d c (by omega) he (Or.inl ⟨hz, c91⟩) h
        rw [if_neg c91]
        exact ⟨parser_state_normal d (by omega), by omega⟩
    · have hp : 0 < dev.esccount := by omega
      rw [parser_state_csi dev hp]
      show _ = (if isdigit c = true ∨ c = 59 then _ else _) ∧ _
      by_cases hc : isdigit c = true ∨ c = 59
      · rw [if_pos hc]
        by_cases h7 : dev.esccount < 7
        · have hk : dev.esccount = ((dev.esccount.toNat : Nat) : Int) := by omega
          rw [write_byte_collect busy dev c dev.esccount.toNat hk (by omega)
            (Or.inr ⟨by omega, hc⟩)] at h
          cases h
          exact ⟨parser_state_csi _ (by show (0 : Int) < (dev.esccount.toNat : Int) + 1; omega),
            by show (dev.esccount.toNat : Int) + 1 ≤ 7; omega⟩
        · rw [write_byte_drop busy dev c (by omega) hc] at h
          cases h
          exact ⟨parser_state_csi _ hp, he⟩
      · have hc2 : isdigit c = false ∧ c ≠ 59 := by
          constructor
          · cases hd : isdigit c with
            | false => rfl
            | true => exact absurd (Or.inl hd) hc
          · exact fun h59 => hc (Or.inr h59)
        have e := write_byte_dispatched busy dev d c (by omega) he (Or.inr ⟨hp, hc2⟩) h
        rw [if_neg hc]
        exact ⟨parser_state_normal d (by omega), by omega⟩

/-- C21.  From every state whose escape index is at most 7 (as it is after
`alt_lcd_16207_init`), for every byte `c`:
* the parse of `c`, when it returns, moves the parser as the three-state
  machine does (ESC enters `ESCAPE_PENDING` from `NORMAL`; `[` enters
  `CSI_PARAMS` from `ESCAPE_PENDING`; a digit or `;` stays in `CSI_PARAMS`;
  every other byte in an escape sequence returns to `NORMAL`) and leaves the
  escape index at most 7;
* it returns, unless `K` is dispatched with the cursor below the panel or,
  outside an escape sequence, the cursor is below row 2;
* a byte that continues the sequence is stored at the escape index while that
  is below 7 and dropped, the state unchanged, when it is 7;
* a byte that ends the sequence is dispatched to `lcd_handle_escape` with the
  buffer terminated, and `esccount` is set to -1; when the byte is none of
  `H`, `f`, `J`, `K` nothing else changes: the cursor and the rows are as
  they were. -/
theorem C21_parser_machine (busy : Nat → Bool) (dev : Dev) (c : Nat)
    (he : dev.esccount ≤ 7) :
    (∀ d, write_byte busy dev c = some d →
      parser_state d = ref_parser_step (parser_state dev) c ∧ d.esccount ≤ 7) ∧
    ((0 ≤ dev.esccount → c = 75 → dev.y < 2) → (dev.esccount < 0 → dev.y ≤ 2) →
      ∃ d, write_byte busy dev c = some d) ∧
    (∀ k : Nat, dev.esccount = (k : Int) →
      ((k = 0 ∧ c = 91) ∨ (0 < k ∧ (isdigit c = true ∨ c = 59))) →
      (∀ hk : k < 7, write_byte busy dev c = some
        { dev with escape := upd dev.escape ⟨k, Nat.lt_succ_of_lt hk⟩ c,
                   esccount := (k : Int) + 1 }) ∧
      (k = 7 → write_byte busy dev c = some dev)) ∧
    (∀ (k : Nat) (hk : k < 8), dev.esccount = (k : Int) →
      ((k = 0 ∧ c ≠ 91) ∨ (0 < k ∧ isdigit c = false ∧ c ≠ 59)) →
      write_byte busy dev c =
        (lcd_handle_escape busy { dev with escape := upd dev.escape ⟨k, hk⟩ 0 } c).bind
          (fun d => some { d with esccount := -1 }) ∧
      (c ≠ 72 → c ≠ 102 → c ≠ 74 → c ≠ 75 →
        write_byte busy dev c = some
          { dev with escape := upd dev.escape ⟨k, hk⟩ 0, esccount := -1 })) := by
  refine ⟨fun d h => write_byte_parser_state busy dev d c he h,
    fun hk hy => write_byte_defined busy dev c he hk hy, ?_, ?_⟩
  · intro k hk hc
    refine ⟨fun hk7 => write_byte_collect busy dev c k hk hk7 hc, fun h7 => ?_⟩
    subst h7
    rcases hc with ⟨h0, _⟩ | ⟨_, hc⟩
    · omega
    · exact write_byte_drop busy dev c (by omega) hc
  · intro k hk8 hk hc
    have e := write_byte_dispatch busy dev c k hk hk8 hc
    refine ⟨e, fun h1 h2 h3 h4 => ?_⟩
    rw [e, lcd_handle_escape_other busy _ c ⟨k, hk8⟩ (by simp [upd]) h1 h2 h3 h4]
    rfl
/-- C21 at a concrete input: a digit arriving with the escape index at 7 is
dropped and the parser stays in `CSI_PARAMS`. -/
theorem C21_witness :
    ({ fresh with esccount := 7 } : Dev).esccount ≤ 7 ∧
    write_byte ready { fresh with esccount := 7 } 55 = some { fresh with esccount := 7 } ∧
    ∀ d, write_byte ready { fresh with esccount := 7 } 55 = some d →
      parser_state d = ref_parser_step (parser_state { fresh with esccount := 7 }) 55 ∧
        d.esccount ≤ 7 :=
  ⟨by decide,
    ((C21_parser_machine ready { fresh with esccount := 7 } 55 (by decide)).2.2.1 7 rfl
      (Or.inr ⟨by decide, Or.inl rfl⟩)).2 rfl,
    (C21_parser_machine ready { fresh with esccount := 7 } 55 (by decide)).1⟩

/-- The escape index along `ESC [ 1 2 3 4 5 6 7 8 x` written to the
initialised display: it stops at 7 and returns to -1 at the command letter,
which leaves the cursor where it was. -/
theorem parser_trace_evaluated :
    (List.range 12).map (fun n =>
      (write_parse ready fresh
        ([27, 91, 49, 50, 51, 52, 53, 54, 55, 56, 120].take n)).map
        (fun d => (d.esccount, d.x, d.y))) =
      [some (-1, 0, 0), some (0, 0, 0), some (1, 0, 0), some (2, 0, 0), some (3, 0, 0),
        some (4, 0, 0), some (5, 0, 0), some (6, 0, 0), some (7, 0, 0), some (7, 0, 0),
        some (7, 0, 0), some (-1, 0, 0)] := by
  decide!

/-! ## C22: row accesses while parsing -/

/-- The command `K` with the cursor below the panel blanks `line[dev->y]`
with `dev->y ≥ 2`, a row that does not exist. -/
theorem lcd_handle_escape_K_below (busy : Nat → Bool) (dev : Dev) (p1 p2 : Int)
    (hp : escape_parms dev.escape = some (p1, p2)) (h1 : p1 < 1) (hx : dev.x < 80)
    (hy : 2 ≤ dev.y) :
    lcd_handle_escape busy dev 75 = none := by
  unfold lcd_handle_escape
  rw [hp]
  dsimp only [Option.some_bind]
  rw [if_neg (by omega), if_neg (by omega), if_pos rfl, if_pos h1, if_pos hx,
    dif_neg (by omega)]

/-- No command leaves the cursor below row 2. -/
theorem lcd_handle_escape_row (busy : Nat → Bool) (dev d : Dev) (c : Nat)
    (hy : dev.y ≤ 2) (h : lcd_handle_escape busy dev c = some d) : d.y ≤ 2 := by
  unfold lcd_handle_escape at h
  obtain ⟨parms, _, h⟩ := Option.bind_eq_some.1 h
  dsimp only at h
  by_cases hH : c = 72 ∨ c = 102
  · rw [if_pos hH] at h
    have h1 : (if parms.2 > 0 then { dev with x := to_uchar (parms.2 - 1) } else dev).y ≤ 2 := by
      by_cases hp2 : parms.2 > 0
      · rw [if_pos hp2]
        exact hy
      · rw [if_neg hp2]
        exact hy
    generalize (if parms.2 > 0 then { dev with x := to_uchar (parms.2 - 1) } else dev) = dev1
      at h1 h
    by_cases hp1 : parms.1 > 0
    · rw [if_pos hp1] at h
      cases h
      apply scroll_while_settles
      · exact Nat.le_add_right _ _
      · by_cases h4 : to_uchar (parms.1 - 1) > 4
        · rw [if_pos h4]
          show 4 < 256
          decide
        · rw [if_neg h4]
          exact to_uchar_lt _
    · rw [if_neg hp1] at h
      cases h
      exact h1
  · rw [if_neg hH] at h
    by_cases hJ : c = 74
    · rw [if_pos hJ] at h
      by_cases hp2 : parms.1 = 2
      · rw [if_pos hp2] at h
        cases h
        exact Nat.zero_le 2
      · rw [if_neg hp2] at h
        cases h
        exact hy
    · rw [if_neg hJ] at h
      by_cases hK : c = 75
      · rw [if_pos hK] at h
        by_cases hp : parms.1 < 1
        · rw [if_pos hp] at h
          by_cases hx : dev.x < 80
          · rw [if_pos hx] at h
            by_cases hy2 : dev.y < 2
            · rw [dif_pos hy2] at h
              cases h
              exact hy
            · rw [dif_neg hy2] at h
              exact Option.noConfusion h
          · rw [if_neg hx] at h
            cases h
            exact hy
        · rw [if_neg hp] at h
          cases h
          exact hy
      · rw [if_neg hK] at h
        cases h
        exact hy

theorem store_byte_row (dev1 d : Dev) (c : Nat)
    (h : (if hx : dev1.x < 80 then
        if h : dev1.y < 2 then
          some { dev1 with
            line := set_line dev1.line ⟨dev1.y, h⟩
              { dev1.line ⟨dev1.y, h⟩ with
                data := upd (dev1.line ⟨dev1.y, h⟩).data ⟨dev1.x, by omega⟩ c },
            x := (dev1.x + 1) % 256 }
        else none
      else some { dev1 with x := (dev1.x + 1) % 256 }) = some d) :
    d.y = dev1.y := by
  by_cases hx : dev1.x < 80
  · rw [dif_pos hx] at h
    by_cases hy : dev1.y < 2
    · rw [dif_pos hy] at h
      cases h
      rfl
    · rw [dif_neg hy] at h
      exact Option.noConfusion h
  · rw [dif_neg hx] at h
    cases h
    rfl

/-- No byte leaves the cursor below row 2. -/
theorem write_byte_row (busy : Nat → Bool) (dev d : Dev) (c : Nat)
    (hy : dev.y ≤ 2) (h : write_byte busy dev c = some d) : d.y ≤ 2 := by
  unfold write_byte at h
  by_cases h0 : dev.esccount ≥ 0
  · rw [if_pos h0] at h
    by_cases h1 : (dev.esccount = 0 ∧ c ≠ 91) ∨
        (dev.esccount > 0 ∧ isdigit c = false ∧ c ≠ 59)
    · rw [if_pos h1] at h
      by_cases h2 : dev.esccount.toNat < 8
      · rw [dif_pos h2] at h
        obtain ⟨d1, e1, h⟩ := Option.bind_eq_some.1 h
        cases h
        exact lcd_handle_escape_row busy
          { dev with escape := upd dev.escape ⟨dev.esccount.toNat, h2⟩ 0 } d1 c hy e1
      · rw [dif_neg h2] at h
        exact Option.noConfusion h
    · rw [if_neg h1] at h
      by_cases h2 : dev.esccount < 7
      · rw [dif_pos h2] at h
        cases h
        exact hy
      · rw [dif_neg h2] at h
        cases h
        exact hy
  · rw [if_neg h0] at h
    by_cases c27 : c = 27
    · rw [if_pos c27] at h
      cases h
      exact hy
    · rw [if_neg c27] at h
      by_cases c13 : c = 13
      · rw [if_pos c13] at h
        cases h
        exact hy
      · rw [if_neg c13] at h
        by_cases c10 : c = 10
        · rw [if_pos c10] at h
          dsimp only at h
          by_cases h3 : (dev.y + 1) % 256 > 2
          · rw [if_pos h3] at h
            cases h
            show ((dev.y + 1) % 256 + 255) % 256 ≤ 2
            omega
          · rw [if_neg h3] at h
            cases h
            show (dev.y + 1) % 256 ≤ 2
            omega
        · rw [if_neg c10] at h
          by_cases c8 : c = 8
          · rw [if_pos c8] at h
            by_cases hx : dev.x > 0
            · rw [if_pos hx] at h
              cases h
              exact hy
            · rw [if_neg hx] at h
              cases h
              exact hy
          · rw [if_neg c8] at h
            by_cases cp : isprint c = true
            · rw [if_pos cp] at h
              rw [store_byte_row (if dev.y ≥ 2 then lcd_scroll_up dev else dev) d c h]
              by_cases h2 : dev.y ≥ 2
              · rw [if_pos h2]
                show (dev.y + 255) % 256 ≤ 2
                omega
              · rw [if_neg h2]
                exact hy
            · rw [if_neg cp] at h
              cases h
              exact hy

/-- The bounds on the cursor row, the escape index and the scroll position
are kept by the parse loop. -/
theorem write_parse_in_range (busy : Nat → Bool) (bytes : List Nat) :
    ∀ (dev d : Dev), in_range dev → write_parse busy dev bytes = some d → in_range d := by
  induction bytes with
  | nil =>
    intro dev d hi h
    cases h
    exact hi
  | cons c cs ih =>
    intro dev d hi h
    simp only [write_parse] at h
    obtain ⟨d1, e1, h⟩ := Option.bind_eq_some.1 h
    refine ih d1 d ⟨write_byte_row busy dev d1 c hi.1 e1,
      (write_byte_parser_state busy dev d1 c hi.2.1 e1).2, ?_⟩ h
    rw [(write_byte_keeps busy dev d1 c e1).1]
    exact hi.2.2

theorem write_layout_in_range (dev : Dev) (hi : in_range dev) : in_range (write_layout dev) := by
  have e : (write_layout dev).y = dev.y ∧ (write_layout dev).esccount = dev.esccount := by
    unfold write_layout
    dsimp only
    split_ifs <;> exact ⟨rfl, rfl⟩
  refine ⟨?_, ?_, ?_⟩
  · rw [e.1]; exact hi.1
  · rw [e.2]; exact hi.2.1
  · rw [write_layout_scrollpos]; exact hi.2.2

/-- The bounds are kept by a write. -/
theorem alt_lcd_16207_write_in_range (busy : Nat → Bool) (dev : Dev) (bytes : List Nat)
    (r : Dev × Nat) (hi : in_range dev) (h : alt_lcd_16207_write busy dev bytes = some r) :
    in_range r.1 := by
  unfold alt_lcd_16207_write at h
  obtain ⟨d1, h1, h⟩ := Option.bind_eq_some.1 h
  obtain ⟨d2, h2, h⟩ := Option.bind_eq_some.1 h
  cases h
  have i1 := write_layout_in_range d1
    (write_parse_in_range busy bytes { dev with active := true } d1 hi h1)
  rw [write_repaint_one] at h2
  obtain ⟨m, hm, h2⟩ := Option.bind_eq_some.1 h2
  cases h2
  have f := (lcd_repaint_screen_spec busy _ m hm).1
  refine ⟨?_, ?_, ?_⟩
  · show m.y ≤ 2
    rw [f.2.1]; exact i1.1
  · show m.esccount ≤ 7
    rw [f.2.2.1]; exact i1.2.1
  · show 0 ≤ m.scrollpos
    rw [f.2.2.2.1]; exact i1.2.2

/-- The bounds are kept by a tick. -/
theorem alt_lcd_16207_timeout_in_range (busy : Nat → Bool) (dev d : Dev)
    (hi : in_range dev) (h : alt_lcd_16207_timeout busy dev = some d) : in_range d := by
  have s := repaint_frame_same (alt_lcd_16207_timeout_spec busy dev d h).1
  refine ⟨?_, ?_, ?_⟩
  · rw [s.2.1]; exact hi.1
  · rw [s.2.2.1]; exact hi.2.1
  · rw [s.2.2.2.1]; exact next_pos_nonneg _ _ hi.2.2

/-- Every state reached by writes and ticks from a state within the bounds is
within the bounds. -/
theorem run_events_in_range (busy : Nat → Bool) (es : List Event) :
    ∀ (dev d : Dev), in_range dev → run_events busy dev es = some d → in_range d := by
  induction es with
  | nil =>
    intro dev d hi h
    cases h
    exact hi
  | cons e es ih =>
    intro dev d hi h
    cases e with
    | write bytes =>
      simp only [run_events] at h
      obtain ⟨r, hr, h⟩ := Option.bind_eq_some.1 h
      exact ih r.1 d (alt_lcd_16207_write_in_range busy dev bytes r hi hr) h
    | tick =>
      simp only [run_events] at h
      obtain ⟨d1, h1, h⟩ := Option.bind_eq_some.1 h
      exact ih d1 d (alt_lcd_16207_timeout_in_range busy dev d1 hi h1) h

/-- The state after `alt_lcd_16207_init` is within the bounds. -/
theorem alt_lcd_16207_init_in_range (busy : Nat → Bool) (dev0 : Dev) :
    in_range (alt_lcd_16207_init busy dev0) := by
  obtain ⟨h1, _, h3, h4, _⟩ := alt_lcd_16207_init_spec busy dev0
  refine ⟨?_, ?_, ?_⟩
  · rw [h3]; exact Nat.zero_le 2
  · rw [h1]; decide
  · rw [h4]

/-- C22 fails on the code.  Written to the initialised display, the bytes
LF LF ESC `[` leave the cursor at column 0 of row 2, the blank row below the
panel, with the parser in `CSI_PARAMS`; the byte `K` then makes
`lcd_handle_escape` run `memset(dev->line[dev->y].data + dev->x, ...)` with
`dev->y = 2`, outside the two rows: the parse is undefined, in one write or
in two, and also for `ESC K` without `[`.  The same bytes with a printable
byte `A` in front of ESC bring the cursor back to row 1 (the store scrolls
first) and are parsed. -/
theorem C22_K_below_panel :
    (write_parse ready fresh [10, 10, 27, 91]).map
      (fun d => (d.x, d.y, parser_state d)) = some (0, 2, ParserState.CSI_PARAMS) ∧
    (write_parse ready fresh [10, 10, 27, 91, 75]).isNone = true ∧
    (alt_lcd_16207_write ready fresh [10, 10, 27, 91, 75]).isNone = true ∧
    (run_events ready fresh [Event.write [10, 10], Event.write [27, 91, 75]]).isNone = true ∧
    (write_parse ready fresh [10, 10, 27, 75]).isNone = true ∧
    (write_parse ready fresh [10, 10, 65, 27, 91, 75]).map
      (fun d => (d.x, d.y, parser_state d)) = some (1, 1, ParserState.NORMAL) := by
  decide!

/-! ## C23: the repaint in reachable states -/

theorem row_offset_nonneg (dev : Dev) (y : Fin 2) (hs : 0 ≤ dev.scrollpos) :
    0 ≤ row_offset dev y := by
  unfold row_offset
  split
  · exact Int.le_refl 0
  · exact Int.ediv_nonneg (Int.mul_nonneg hs (Int.ofNat_nonneg _)) (by omega)

/-- Widths in `1..81` and a scroll position that is not negative keep the
repaint inside the rows. -/
theorem repaint_safe_of (dev : Dev)
    (hw : ∀ y : Fin 2, 0 < (dev.line y).width ∧ (dev.line y).width ≤ 81)
    (hs : 0 ≤ dev.scrollpos) : repaint_safe dev := by
  intro y
  refine ⟨(hw y).1, fun x => ?_⟩
  have ho := row_offset_nonneg dev y hs
  have h0 : (0 : Int) ≤ x.val + row_offset dev y := by omega
  have e : Int.tmod (x.val + row_offset dev y) (dev.line y).width =
      (x.val + row_offset dev y) % (dev.line y).width :=
    Int.tmod_eq_emod h0 (by have := (hw y).1; omega)
  have h1 : 0 ≤ (x.val + row_offset dev y) % (dev.line y).width :=
    Int.emod_nonneg _ (by have := (hw y).1; omega)
  have h2 : (x.val + row_offset dev y) % (dev.line y).width < (dev.line y).width :=
    Int.emod_lt_of_pos _ (hw y).1
  rw [e]
  have := (hw y).2
  constructor <;> omega

/-- A repaint that is safe is carried out: it reads inside the rows. -/
theorem repaint_safe_defined (busy : Nat → Bool) (dev : Dev) (h : repaint_safe dev) :
    ∃ d, lcd_repaint_screen busy dev = some d := by
  apply lcd_repaint_screen_defined
  intro y x
  unfold repaint_char
  rw [if_neg (by have := (h y).1; omega), dif_pos ((h y).2 x)]
  exact ⟨_, rfl⟩

/-- In every state reached from a state with `scrollmax = 0`, the rows have a
width between 16 and 81 whenever something scrolls. -/
theorem run_events_scrolling_width (busy : Nat → Bool) (es : List Event) :
    ∀ (dev d : Dev),
      (0 < dev.scrollmax → ∀ y : Fin 2, 16 ≤ (dev.line y).width ∧ (dev.line y).width ≤ 81) →
      run_events busy dev es = some d →
      (0 < d.scrollmax → ∀ y : Fin 2, 16 ≤ (d.line y).width ∧ (d.line y).width ≤ 81) := by
  induction es with
  | nil =>
    intro dev d hw h
    cases h
    exact hw
  | cons e es ih =>
    intro dev d hw h
    cases e with
    | write bytes =>
      simp only [run_events] at h
      obtain ⟨r, hr, h⟩ := Option.bind_eq_some.1 h
      exact ih r.1 d (fun _ => alt_lcd_16207_write_width busy dev bytes r hr) h
    | tick =>
      simp only [run_events] at h
      obtain ⟨d1, h1, h⟩ := Option.bind_eq_some.1 h
      have s := repaint_frame_same (alt_lcd_16207_timeout_spec busy dev d1 h1).1
      refine ih d1 d (fun hM y => ?_) h
      rw [alt_lcd_16207_timeout_width busy dev d1 h1 y]
      exact hw (by rw [← s.2.2.2.2.1]; exact hM) y

/-- C23.  In every state `d` reached from `alt_lcd_16207_init` by a sequence
of `alt_lcd_16207_write` calls and Animator ticks, each repaint that the next
call makes is safe: every row has a width above zero and every index
`(x + offset) % width` read lies inside the 81 cells of the row.  For a
write of any bytes whose parse stays inside the rows, the repaint is called
on the state the layout produces, it is safe, and the write returns; for a
tick, the repaint is called when `scrollmax > 0` and `active` is clear, on
the state with the scroll position moved, it is safe, and the tick
returns. -/
theorem C23_repaint_in_bounds (busy : Nat → Bool) (dev0 : Dev) (es : List Event) (d : Dev)
    (h : run_events busy (alt_lcd_16207_init busy dev0) es = some d) :
    (∀ bytes d1, write_parse busy { d with active := true } bytes = some d1 →
      repaint_safe (write_layout d1) ∧
        alt_lcd_16207_write busy d bytes =
          (lcd_repaint_screen busy (write_layout d1)).map
            (fun m => ({ m with active := false }, bytes.length)) ∧
        ∃ r, alt_lcd_16207_write busy d bytes = some r) ∧
    ((0 < d.scrollmax → d.active = false →
      repaint_safe { d with scrollpos := next_pos d.scrollmax d.scrollpos } ∧
        alt_lcd_16207_timeout busy d =
          lcd_repaint_screen busy { d with scrollpos := next_pos d.scrollmax d.scrollpos }) ∧
      ∃ d2, alt_lcd_16207_timeout busy d = some d2) := by
  have hi := run_events_in_range busy es _ d (alt_lcd_16207_init_in_range busy dev0) h
  have hw := run_events_scrolling_width busy es _ d (fun hM => by
    rw [(alt_lcd_16207_init_spec busy dev0).2.2.2.2.1] at hM
    exact absurd hM (by decide)) h
  refine ⟨?_, ?_, ?_⟩
  · intro bytes d1 h1
    have i1 := write_parse_in_range busy bytes { d with active := true } d1 hi h1
    have hs : repaint_safe (write_layout d1) := by
      apply repaint_safe_of
      · intro y
        rw [write_layout_width]
        have := line_width_bounds (d1.line y).data
        omega
      · rw [write_layout_scrollpos]
        exact i1.2.2
    have e : alt_lcd_16207_write busy d bytes =
        (lcd_repaint_screen busy (write_layout d1)).map
          (fun m => ({ m with active := false }, bytes.length)) := by
      unfold alt_lcd_16207_write
      rw [h1]
      dsimp only [Option.some_bind]
      rw [write_repaint_one]
      cases lcd_repaint_screen busy (write_layout d1) with
      | none => rfl
      | some m => rfl
    obtain ⟨m, hm⟩ := repaint_safe_defined busy _ hs
    refine ⟨hs, e, ?_⟩
    rw [e, hm]
    exact ⟨_, rfl⟩
  · intro hM ha
    refine ⟨?_, ?_⟩
    · apply repaint_safe_of
      · intro y
        have := hw hM y
        show 0 < (d.line y).width ∧ (d.line y).width ≤ 81
        omega
      · exact next_pos_nonneg _ _ hi.2.2
    · unfold alt_lcd_16207_timeout
      dsimp only
      rw [timeout_pos, if_pos ⟨hM, ha⟩]
  · by_cases hc : 0 < d.scrollmax ∧ d.active = false
    · apply alt_lcd_16207_timeout_some busy d _ hi.2.2
      intro y
      have := hw hc.1 y
      omega
    · unfold alt_lcd_16207_timeout
      dsimp only
      rw [timeout_pos, if_neg hc]
      exact ⟨_, rfl⟩

/-- C23 at a concrete input: the state after a write of 20 characters and two
ticks. -/
theorem C23_witness :
    ∃ d, run_events ready (alt_lcd_16207_init ready zero_dev)
        [Event.write (List.replicate 20 97), Event.tick, Event.tick] = some d ∧
      (0 < d.scrollmax → d.active = false →
        repaint_safe { d with scrollpos := next_pos d.scrollmax d.scrollpos } ∧
          alt_lcd_16207_timeout ready d =
            lcd_repaint_screen ready
              { d with scrollpos := next_pos d.scrollmax d.scrollpos }) ∧
      ∃ d2, alt_lcd_16207_timeout ready d = some d2 :=
  (Option.isSome_iff_exists.1 (by decide!)).imp
    (fun d h => ⟨h, (C23_repaint_in_bounds ready zero_dev
      [Event.write (List.replicate 20 97), Event.tick, Event.tick] d h).2⟩)

/-- The state of the witness of C23, evaluated: something scrolls, `active` is
clear and the scroll position is 2. -/
theorem C23_evaluated :
    (run_events ready (alt_lcd_16207_init ready zero_dev)
        [Event.write (List.replicate 20 97), Event.tick, Event.tick]).map
      (fun d => (d.scrollmax, d.active, d.scrollpos, (d.line 0).width, (d.line 1).width)) =
      some (42, false, 2, 21, 16) := by
  decide!

/-! ## C24: one write or two -/

theorem same_text_refl (a : Dev) : same_text a a :=
  ⟨rfl, rfl, rfl, rfl, rfl, rfl, rfl, fun _ => rfl⟩

theorem same_text_symm {a b : Dev} (h : same_text a b) : same_text b a :=
  ⟨h.1.symm, h.2.1.symm, h.2.2.1.symm, h.2.2.2.1.symm, h.2.2.2.2.1.symm,
    h.2.2.2.2.2.1.symm, h.2.2.2.2.2.2.1.symm, fun r => (h.2.2.2.2.2.2.2 r).symm⟩

theorem same_text_trans {a b c : Dev} (h1 : same_text a b) (h2 : same_text b c) :
    same_text a c :=
  ⟨h2.1.trans h1.1, h2.2.1.trans h1.2.1, h2.2.2.1.trans h1.2.2.1,
    h2.2.2.2.1.trans h1.2.2.2.1, h2.2.2.2.2.1.trans h1.2.2.2.2.1,
    h2.2.2.2.2.2.1.trans h1.2.2.2.2.2.1, h2.2.2.2.2.2.2.1.trans h1.2.2.2.2.2.2.1,
    fun r => (h2.2.2.2.2.2.2.2 r).trans (h1.2.2.2.2.2.2.2 r)⟩

/-- Two devices with the same terminal model have the same text. -/
theorem same_model_text {a b : Dev} (h : same_model a b) : same_text a b :=
  ⟨h.1, h.2.1, h.2.2.1, h.2.2.2.1, h.2.2.2.2.2.1, h.2.2.2.2.2.2.1, h.2.2.2.2.2.2.2.1,
    fun r => (h.2.2.2.2.2.2.2.2 r).1⟩

theorem lcd_clear_screen_text (busy1 busy2 : Nat → Bool) (a b : Dev) (h : same_text a b) :
    same_text (lcd_clear_screen busy1 a) (lcd_clear_screen busy2 b) := by
  have fa := same_model_text (repaint_frame_same (lcd_write_command_frame busy1 a 0x01).1)
  have fb := same_model_text (repaint_frame_same (lcd_write_command_frame busy2 b 0x01).1)
  obtain ⟨_, _, h3, h4, h5, h6, h7, _⟩ := same_text_trans (same_text_symm fa) (same_text_trans h fb)
  exact ⟨rfl, rfl, h3, h4, h5, h6, h7, fun _ => rfl⟩

theorem lcd_scroll_up_text (a b : Dev) (h : same_text a b) :
    same_text (lcd_scroll_up a) (lcd_scroll_up b) := by
  obtain ⟨h1, h2, h3, h4, h5, h6, h7, hl⟩ := h
  refine ⟨h1, ?_, h3, h4, h5, h6, ?_, ?_⟩
  · show (b.y + 255) % 256 = (a.y + 255) % 256
    rw [h2]
  · show b.scrolls + 1 = a.scrolls + 1
    rw [h7]
  · intro r
    simp only [lcd_scroll_up]
    by_cases hr : r = 0
    · simp only [hr, if_true, hl 0, hl 1]
    · simp only [hr, if_false, hl 1]

theorem scroll_while_text : ∀ (fuel : Nat) (a b : Dev), same_text a b →
    same_text (scroll_while fuel a) (scroll_while fuel b) := by
  intro fuel
  induction fuel with
  | zero => intro a b h; exact h
  | succ n ih =>
    intro a b h
    simp only [scroll_while]
    rw [h.2.1]
    by_cases hy : a.y > 2
    · rw [if_pos hy, if_pos hy]
      exact ih _ _ (lcd_scroll_up_text a b h)
    · rw [if_neg hy, if_neg hy]
      exact h

theorem same_text_x {a b : Dev} (h : same_text a b) (v : Nat) :
    same_text { a with x := v } { b with x := v } :=
  ⟨rfl, h.2⟩

theorem same_text_y {a b : Dev} (h : same_text a b) (v : Nat) :
    same_text { a with y := v } { b with y := v } :=
  ⟨h.1, rfl, h.2.2⟩

theorem same_text_esccount {a b : Dev} (h : same_text a b) (v : Int) :
    same_text { a with esccount := v } { b with esccount := v } :=
  ⟨h.1, h.2.1, rfl, h.2.2.2⟩

theorem same_text_active {a b : Dev} (h : same_text a b) (v : Bool) :
    same_text { a with active := v } { b with active := v } :=
  ⟨h.1, h.2.1, h.2.2.1, h.2.2.2.1, rfl, h.2.2.2.2.2⟩

theorem same_text_escape {a b : Dev} (h : same_text a b) (i : Fin 8) (v : Nat) :
    same_text { a with escape := upd a.escape i v } { b with escape := upd b.escape i v } :=
  ⟨h.1, h.2.1, h.2.2.1, h.2.2.2.1, h.2.2.2.2.1,
    by show upd b.escape i v = upd a.escape i v; rw [h.2.2.2.2.2.1],
    h.2.2.2.2.2.2⟩

theorem blank_to_eol_text {a b : Dev} (h : same_text a b) (y : Fin 2) :
    same_text (blank_to_eol a y) (blank_to_eol b y) := by
  obtain ⟨h1, h2, h3, h4, h5, h6, h7, hl⟩ := h
  refine ⟨h1, h2, h3, h4, h5, h6, h7, ?_⟩
  intro r
  simp only [blank_to_eol, set_line]
  by_cases hr : r = y
  · subst hr
    simp only [if_true, h1, hl r]
  · simp only [hr, if_false]
    exact hl r

theorem store_text {a b : Dev} (h : same_text a b) (y : Fin 2) (i : Fin 81) (c : Nat) :
    same_text
      { a with line := set_line a.line y { a.line y with data := upd (a.line y).data i c } }
      { b with line := set_line b.line y { b.line y with data := upd (b.line y).data i c } } := by
  obtain ⟨h1, h2, h3, h4, h5, h6, h7, hl⟩ := h
  refine ⟨h1, h2, h3, h4, h5, h6, h7, ?_⟩
  intro r
  simp only [set_line]
  by_cases hr : r = y
  · subst hr
    simp only [if_true, hl r]
  · simp only [hr, if_false]
    exact hl r

/-- The row part of the `H` command. -/
theorem handle_row_text {a b : Dev} (h : same_text a b) (p1 : Int) :
    same_text
      (let dev2 : Dev := { a with y := to_uchar (p1 - 1) }
       let dev3 := if dev2.y > 4 then { dev2 with y := 4 } else dev2
       scroll_while dev3.y dev3)
      (let dev2 : Dev := { b with y := to_uchar (p1 - 1) }
       let dev3 := if dev2.y > 4 then { dev2 with y := 4 } else dev2
       scroll_while dev3.y dev3) := by
  dsimp only
  by_cases h4 : to_uchar (p1 - 1) > 4
  · rw [if_pos h4, if_pos h4]
    exact scroll_while_text 4 _ _ (same_text_y (same_text_y h _) 4)
  · rw [if_neg h4, if_neg h4]
    exact scroll_while_text _ _ _ (same_text_y h _)

theorem lcd_handle_escape_text (busy1 busy2 : Nat → Bool) (a b : Dev) (c : Nat)
    (h : same_text a b) :
    both same_text (lcd_handle_escape busy1 a c) (lcd_handle_escape busy2 b c) := by
  have he : escape_parms b.escape = escape_parms a.escape := by rw [h.2.2.2.2.2.1]
  unfold lcd_handle_escape
  rw [he]
  cases escape_parms a.escape with
  | none => exact trivial
  | some parms =>
    dsimp only [Option.some_bind]
    by_cases hH : c = 72 ∨ c = 102
    · rw [if_pos hH, if_pos hH]
      have h1 : same_text (if parms.2 > 0 then { a with x := to_uchar (parms.2 - 1) } else a)
          (if parms.2 > 0 then { b with x := to_uchar (parms.2 - 1) } else b) := by
        by_cases hp : parms.2 > 0
        · rw [if_pos hp, if_pos hp]
          exact same_text_x h _
        · rw [if_neg hp, if_neg hp]
          exact h
      by_cases hp1 : parms.1 > 0
      · rw [if_pos hp1, if_pos hp1]
        exact handle_row_text h1 parms.1
      · rw [if_neg hp1, if_neg hp1]
        exact h1
    · rw [if_neg hH, if_neg hH]
      by_cases hJ : c = 74
      · rw [if_pos hJ, if_pos hJ]
        by_cases hp : parms.1 = 2
        · rw [if_pos hp, if_pos hp]
          exact lcd_clear_screen_text busy1 busy2 a b h
        · rw [if_neg hp, if_neg hp]
          exact h
      · rw [if_neg hJ, if_neg hJ]
        by_cases hK : c = 75
        · rw [if_pos hK, if_pos hK]
          by_cases hp : parms.1 < 1
          · rw [if_pos hp, if_pos hp, h.1]
            by_cases hx : a.x < 80
            · rw [if_pos hx, if_pos hx]
              by_cases hy : a.y < 2
              · have hy2 : b.y < 2 := by rw [h.2.1]; exact hy
                rw [dif_pos hy, dif_pos hy2]
                have e : (⟨b.y, hy2⟩ : Fin 2) = ⟨a.y, hy⟩ := Fin.ext h.2.1
                rw [e]
                exact blank_to_eol_text h _
              · have hy2 : ¬ b.y < 2 := by rw [h.2.1]; exact hy
                rw [dif_neg hy, dif_neg hy2]
                exact trivial
            · rw [if_neg hx, if_neg hx]
              exact h
          · rw [if_neg hp, if_neg hp]
            exact h
        · rw [if_neg hK, if_neg hK]
          exact h

/-- The store of a printable byte, from the state in which the row has been
brought back into the panel. -/
theorem store_byte_text {a b : Dev} (h : same_text a b) (c : Nat) :
    both same_text
      (if hx : a.x < 80 then
        if h : a.y < 2 then
          some { a with
            line := set_line a.line ⟨a.y, h⟩
              { a.line ⟨a.y, h⟩ with
                data := upd (a.line ⟨a.y, h⟩).data ⟨a.x, by omega⟩ c },
            x := (a.x + 1) % 256 }
        else none
      else some { a with x := (a.x + 1) % 256 })
      (if hx : b.x < 80 then
        if h : b.y < 2 then
          some { b with
            line := set_line b.line ⟨b.y, h⟩
              { b.line ⟨b.y, h⟩ with
                data := upd (b.line ⟨b.y, h⟩).data ⟨b.x, by omega⟩ c },
            x := (b.x + 1) % 256 }
        else none
      else some { b with x := (b.x + 1) % 256 }) := by
  have ex : b.x = a.x := h.1
  have ey : b.y = a.y := h.2.1
  by_cases hx : a.x < 80
  · have hx2 : b.x < 80 := by rw [ex]; exact hx
    rw [dif_pos hx, dif_pos hx2]
    by_cases hy : a.y < 2
    · have hy2 : b.y < 2 := by rw [ey]; exact hy
      rw [dif_pos hy, dif_pos hy2]
      have e1 : (⟨b.y, hy2⟩ : Fin 2) = ⟨a.y, hy⟩ := Fin.ext ey
      have e2 : (⟨b.x, by omega⟩ : Fin 81) = ⟨a.x, by omega⟩ := Fin.ext ex
      have s := same_text_x (store_text h ⟨a.y, hy⟩ ⟨a.x, by omega⟩ c) ((a.x + 1) % 256)
      obtain ⟨s1, s2, s3, s4, s6, s7, s8, sl⟩ := s
      refine ⟨?_, s2, s3, s4, s6, s7, s8, ?_⟩
      · show (b.x + 1) % 256 = (a.x + 1) % 256
        rw [ex]
      · intro r
        have t := sl r
        simp only [e1, e2]
        exact t
    · have hy2 : ¬ b.y < 2 := by rw [ey]; exact hy
      rw [dif_neg hy, dif_neg hy2]
      exact trivial
  · have hx2 : ¬ b.x < 80 := by rw [ex]; exact hx
    rw [dif_neg hx, dif_neg hx2]
    refine ⟨?_, h.2⟩
    show (b.x + 1) % 256 = (a.x + 1) % 256
    rw [ex]

theorem write_byte_text (busy1 busy2 : Nat → Bool) (a b : Dev) (c : Nat)
    (h : same_text a b) :
    both same_text (write_byte busy1 a c) (write_byte busy2 b c) := by
  have ex : b.x = a.x := h.1
  have ey : b.y = a.y := h.2.1
  have ee : b.esccount = a.esccount := h.2.2.1
  unfold write_byte
  by_cases h0 : a.esccount ≥ 0
  · have h0b : b.esccount ≥ 0 := by rw [ee]; exact h0
    rw [if_pos h0, if_pos h0b]
    by_cases h1 : (a.esccount = 0 ∧ c ≠ 91) ∨ (a.esccount > 0 ∧ isdigit c = false ∧ c ≠ 59)
    · have h1b : (b.esccount = 0 ∧ c ≠ 91) ∨ (b.esccount > 0 ∧ isdigit c = false ∧ c ≠ 59) := by
        rw [ee]; exact h1
      rw [if_pos h1, if_pos h1b]
      by_cases h2 : a.esccount.toNat < 8
      · have h2b : b.esccount.toNat < 8 := by rw [ee]; exact h2
        rw [dif_pos h2, dif_pos h2b]
        have e1 : (⟨b.esccount.toNat, h2b⟩ : Fin 8) = ⟨a.esccount.toNat, h2⟩ :=
          Fin.ext (congrArg Int.toNat ee)
        rw [e1]
        refine both_bind (lcd_handle_escape_text busy1 busy2 _ _ c
          (same_text_escape h ⟨a.esccount.toNat, h2⟩ 0)) ?_
        intro a1 b1 h3
        exact same_text_esccount h3 (-1)
      · have h2b : ¬ b.esccount.toNat < 8 := by rw [ee]; exact h2
        rw [dif_neg h2, dif_neg h2b]
        exact trivial
    · have h1b : ¬ ((b.esccount = 0 ∧ c ≠ 91) ∨
          (b.esccount > 0 ∧ isdigit c = false ∧ c ≠ 59)) := by
        rw [ee]; exact h1
      rw [if_neg h1, if_neg h1b]
      by_cases h2 : a.esccount < 7
      · have h2b : b.esccount < 7 := by rw [ee]; exact h2
        rw [dif_pos h2, dif_pos h2b]
        have s := same_text_esccount
          (same_text_escape h ⟨a.esccount.toNat, by omega⟩ c) (a.esccount + 1)
        obtain ⟨s1, s2, s3, s4, s6, s7, s8, sl⟩ := s
        refine ⟨s1, s2, ?_, s4, s6, ?_, s8, sl⟩
        · show b.esccount + 1 = a.esccount + 1
          rw [ee]
        · exact congrArg₂ (fun e (i : Fin 8) => upd e i c) h.2.2.2.2.2.1
            (Fin.ext (congrArg Int.toNat ee))
      · have h2b : ¬ b.esccount < 7 := by rw [ee]; exact h2
        rw [dif_neg h2, dif_neg h2b]
        exact h
  · have h0b : ¬ b.esccount ≥ 0 := by rw [ee]; exact h0
    rw [if_neg h0, if_neg h0b]
    by_cases c27 : c = 27
    · rw [if_pos c27, if_pos c27]
      exact same_text_esccount h 0
    · rw [if_neg c27, if_neg c27]
      by_cases c13 : c = 13
      · rw [if_pos c13, if_pos c13]
        exact same_text_x h 0
      · rw [if_neg c13, if_neg c13]
        by_cases c10 : c = 10
        · rw [if_pos c10, if_pos c10]
          dsimp only
          have s : same_text { a with x := 0, y := (a.y + 1) % 256 }
              { b with x := 0, y := (b.y + 1) % 256 } := by
            rw [ey]
            exact same_text_y (same_text_x h 0) _
          by_cases hy : (a.y + 1) % 256 > 2
          · have hy2 : (b.y + 1) % 256 > 2 := by rw [ey]; exact hy
            rw [if_pos hy, if_pos hy2]
            exact lcd_scroll_up_text _ _ s
          · have hy2 : ¬ (b.y + 1) % 256 > 2 := by rw [ey]; exact hy
            rw [if_neg hy, if_neg hy2]
            exact s
        · rw [if_neg c10, if_neg c10]
          by_cases c8 : c = 8
          · rw [if_pos c8, if_pos c8]
            by_cases hx : a.x > 0
            · have hx2 : b.x > 0 := by rw [ex]; exact hx
              rw [if_pos hx, if_pos hx2]
              refine ⟨?_, h.2⟩
              show b.x - 1 = a.x - 1
              rw [ex]
            · have hx2 : ¬ b.x > 0 := by rw [ex]; exact hx
              rw [if_neg hx, if_neg hx2]
              exact h
          · rw [if_neg c8, if_neg c8]
            by_cases cp : isprint c = true
            · rw [if_pos cp, if_pos cp]
              have s : same_text (if a.y ≥ 2 then lcd_scroll_up a else a)
                  (if b.y ≥ 2 then lcd_scroll_up b else b) := by
                by_cases hy : a.y ≥ 2
                · have hy2 : b.y ≥ 2 := by rw [ey]; exact hy
                  rw [if_pos hy, if_pos hy2]
                  exact lcd_scroll_up_text a b h
                · have hy2 : ¬ b.y ≥ 2 := by rw [ey]; exact hy
                  rw [if_neg hy, if_neg hy2]
                  exact h
              exact store_byte_text s c
            · rw [if_neg cp, if_neg cp]
              exact h

theorem write_parse_text (busy1 busy2 : Nat → Bool) (bytes : List Nat) :
    ∀ (a b : Dev), same_text a b →
      both same_text (write_parse busy1 a bytes) (write_parse busy2 b bytes) := by
  induction bytes with
  | nil => intro a b h; exact h
  | cons c cs ih =>
    intro a b h
    simp only [write_parse]
    exact both_bind (write_byte_text busy1 busy2 a b c h) ih

/-- The layout depends on the text only. -/
theorem write_layout_text (a b : Dev) (h : same_text a b) :
    same_model (write_layout a) (write_layout b) := by
  obtain ⟨h1, h2, h3, h4, h5, h6, h7, hl⟩ := h
  unfold write_layout
  simp only [hl]
  split_ifs <;> exact ⟨h1, h2, h3, h4, rfl, h5, h6, h7, fun _ => ⟨rfl, rfl, rfl⟩⟩

/-- The layout leaves the text alone. -/
theorem write_layout_text_self (dev : Dev) : same_text dev (write_layout dev) := by
  unfold write_layout
  dsimp only
  split_ifs <;> exact ⟨rfl, rfl, rfl, rfl, rfl, rfl, rfl, fun _ => rfl⟩

/-- Two painted screens with the same terminal model show the same. -/
theorem painted_same {a b : Dev} (h : same_model a b) (pa : painted a) (pb : painted b)
    (y : Fin 2) (x : Fin 16) : (b.line y).visible x = (a.line y).visible x := by
  have e := repaint_chars_same h y x
  rw [pa y x, pb y x] at e
  exact Option.some.inj e

/-- The parts of a write that returns. -/
theorem alt_lcd_16207_write_parts (busy : Nat → Bool) (dev : Dev) (bytes : List Nat)
    (r : Dev × Nat) (h : alt_lcd_16207_write busy dev bytes = some r) :
    ∃ p m, write_parse busy { dev with active := true } bytes = some p ∧
      lcd_repaint_screen busy (write_layout p) = some m ∧
      r = ({ m with active := false }, bytes.length) := by
  unfold alt_lcd_16207_write at h
  obtain ⟨p, hp, h⟩ := Option.bind_eq_some.1 h
  obtain ⟨d2, h2, h⟩ := Option.bind_eq_some.1 h
  rw [write_repaint_one] at h2
  obtain ⟨m, hm, h2⟩ := Option.bind_eq_some.1 h2
  cases h2
  cases h
  exact ⟨p, m, hp, hm, rfl⟩

theorem alt_lcd_16207_write_of_parts (busy : Nat → Bool) (dev : Dev) (bytes : List Nat)
    (p m : Dev) (hp : write_parse busy { dev with active := true } bytes = some p)
    (hm : lcd_repaint_screen busy (write_layout p) = some m) :
    alt_lcd_16207_write busy dev bytes = some ({ m with active := false }, bytes.length) := by
  unfold alt_lcd_16207_write
  rw [hp]
  dsimp only [Option.some_bind]
  rw [write_repaint_one, hm]
  rfl

/-- The state in which the second of two writes starts to parse has the text
the first write ended its parse with. -/
theorem between_writes_text (busy : Nat → Bool) (dev p m : Dev) (a : List Nat)
    (hp : write_parse busy { dev with active := true } a = some p)
    (hm : lcd_repaint_screen busy (write_layout p) = some m) :
    same_text p { ({ m with active := false } : Dev) with active := true } := by
  have k := write_parse_keeps busy a _ p hp
  have f := same_model_text (repaint_frame_same (lcd_repaint_screen_spec busy _ m hm).1)
  obtain ⟨h1, h2, h3, h4, _, h6, h7, hl⟩ := same_text_trans (write_layout_text_self p) f
  exact ⟨h1, h2, h3, h4, k.2.symm, h6, h7, hl⟩

/-- C24.  For every start state and all byte sequences `a` and `b`: when
writing `a` and then `b` in two calls of `alt_lcd_16207_write`, with no tick
in between, returns, then so does writing `a ++ b` in one call, and the two
end with the same cursor, virtual row data, parser state, row widths and
speeds, scroll period (`same_model`) and the same visible shadows.  From a
start state whose scroll position is not negative the two calls return
whenever the one call does. -/
theorem C24_write_concat (busy : Nat → Bool) (dev : Dev) (a b : List Nat) :
    (∀ ra rb, alt_lcd_16207_write busy dev a = some ra →
      alt_lcd_16207_write busy ra.1 b = some rb →
      ∃ r, alt_lcd_16207_write busy dev (a ++ b) = some r ∧ same_model rb.1 r.1 ∧
        ∀ (y : Fin 2) (x : Fin 16), (r.1.line y).visible x = (rb.1.line y).visible x) ∧
    (0 ≤ dev.scrollpos → ∀ r, alt_lcd_16207_write busy dev (a ++ b) = some r →
      ∃ ra rb, alt_lcd_16207_write busy dev a = some ra ∧
        alt_lcd_16207_write busy ra.1 b = some rb) := by
  refine ⟨?_, ?_⟩
  · intro ra rb ha hb
    obtain ⟨p1, m1, hp1, hm1, e1⟩ := alt_lcd_16207_write_parts busy dev a ra ha
    subst e1
    obtain ⟨p2, m2, hp2, hm2, e2⟩ := alt_lcd_16207_write_parts busy _ b rb hb
    subst e2
    have t := write_parse_text busy busy b p1 _ (between_writes_text busy dev p1 m1 a hp1 hm1)
    rw [hp2] at t
    cases hp3 : write_parse busy p1 b with
    | none =>
      rw [hp3] at t
      exact t.elim
    | some p3 =>
      rw [hp3] at t
      have s : same_model (write_layout p2) (write_layout p3) :=
        write_layout_text p2 p3 (same_text_symm t)
      obtain ⟨m3, hm3, s3⟩ := lcd_repaint_screen_transfer busy busy _ _ s m2 hm2
      have hp : write_parse busy { dev with active := true } (a ++ b) = some p3 := by
        rw [write_parse_append, hp1]
        exact hp3
      refine ⟨_, alt_lcd_16207_write_of_parts busy dev (a ++ b) p3 m3 hp hm3,
        same_model_active s3 false, ?_⟩
      intro y x
      exact painted_same s3 (lcd_repaint_screen_painted busy _ m2 hm2)
        (lcd_repaint_screen_painted busy _ m3 hm3) y x
  · intro hs r hr
    obtain ⟨p3, m3, hp3, hm3, _⟩ := alt_lcd_16207_write_parts busy dev (a ++ b) r hr
    rw [write_parse_append] at hp3
    obtain ⟨p1, hp1, hp3⟩ := Option.bind_eq_some.1 hp3
    have k1 := write_parse_keeps busy a _ p1 hp1
    have hw : ∀ (d : Dev) (y : Fin 2), 0 < ((write_layout d).line y).width ∧
        ((write_layout d).line y).width ≤ 81 := by
      intro d y
      rw [write_layout_width]
      have := line_width_bounds (d.line y).data
      omega
    obtain ⟨m1, hm1, _⟩ := lcd_repaint_screen_some busy (write_layout p1) (hw p1) (by
      rw [write_layout_scrollpos, k1.1]
      exact hs)
    have t := write_parse_text busy busy b p1 _ (between_writes_text busy dev p1 m1 a hp1 hm1)
    rw [hp3] at t
    cases hp2 : write_parse busy
        { ({ m1 with active := false } : Dev) with active := true } b with
    | none =>
      rw [hp2] at t
      exact t.elim
    | some p2 =>
      rw [hp2] at t
      obtain ⟨m2, hm2, _⟩ := lcd_repaint_screen_some busy (write_layout p2) (hw p2) (by
        rw [write_layout_scrollpos, t.2.2.2.1, (write_parse_keeps busy b _ p3 hp3).1, k1.1]
        exact hs)
      exact ⟨_, _, alt_lcd_16207_write_of_parts busy dev a p1 m1 hp1 hm1,
        alt_lcd_16207_write_of_parts busy _ b p2 m2 hp2 hm2⟩

/-- C24 at a concrete input: `H i ESC [ 1` and then `; 5 H !`, the split
falling inside the escape sequence, written to the initialised display. -/
theorem C24_witness :
    (0 : Int) ≤ fresh.scrollpos ∧
    ∃ ra rb r, alt_lcd_16207_write ready fresh [72, 105, 27, 91, 49] = some ra ∧
      alt_lcd_16207_write ready ra.1 [59, 53, 72, 33] = some rb ∧
      alt_lcd_16207_write ready fresh ([72, 105, 27, 91, 49] ++ [59, 53, 72, 33]) = some r ∧
      same_model rb.1 r.1 ∧
      ∀ (y : Fin 2) (x : Fin 16), (r.1.line y).visible x = (rb.1.line y).visible x := by
  have t := C24_write_concat ready fresh [72, 105, 27, 91, 49] [59, 53, 72, 33]
  obtain ⟨r0, h0⟩ := Option.isSome_iff_exists.1
    (show (alt_lcd_16207_write ready fresh
      ([72, 105, 27, 91, 49] ++ [59, 53, 72, 33])).isSome = true by decide!)
  obtain ⟨ra, rb, ha, hb⟩ := t.2 (by decide!) r0 h0
  obtain ⟨r, hr, hs, hv⟩ := t.1 ra rb ha hb
  exact ⟨by decide!, ra, rb, r, ha, hb, hr, hs, hv⟩

/-- The two runs of the witness of C24, evaluated: both end with the cursor
at column 5 of row 0, the normal parser state and `Hi  !` on the panel. -/
theorem C24_evaluated :
    ((alt_lcd_16207_write ready fresh [72, 105, 27, 91, 49]).bind
      (fun ra => alt_lcd_16207_write ready ra.1 [59, 53, 72, 33])).map
      (fun r => (r.1.x, r.1.y, r.1.esccount,
        (List.range 6).map (fun i => (r.1.line 0).visible (Fin.ofNat i)))) =
      some (5, 0, -1, [72, 105, 32, 32, 33, 32]) ∧
    (alt_lcd_16207_write ready fresh ([72, 105, 27, 91, 49] ++ [59, 53, 72, 33])).map
      (fun r => (r.1.x, r.1.y, r.1.esccount,
        (List.range 6).map (fun i => (r.1.line 0).visible (Fin.ofNat i)))) =
      some (5, 0, -1, [72, 105, 32, 32, 33, 32]) := by
  decide!

/-! ## C25: the scroll offset during an animation cycle -/

/-- The scroll period the layout stores, in terms of the widths of the
rows. -/
theorem write_layout_scrollmax (dev : Dev) :
    (write_layout dev).scrollmax =
      if max (line_width (dev.line 0).data) (line_width (dev.line 1).data) ≤ 16 then 0
      else to_char (max (line_width (dev.line 0).data) (line_width (dev.line 1).data) * 2) := by
  have b0 := line_width_bounds (dev.line 0).data
  have b1 := line_width_bounds (dev.line 1).data
  have hm : (if (if (16 : Int) < line_width (dev.line 0).data then line_width (dev.line 0).data
        else 16) < line_width (dev.line 1).data then line_width (dev.line 1).data
      else (if (16 : Int) < line_width (dev.line 0).data then line_width (dev.line 0).data
        else 16)) = max (line_width (dev.line 0).data) (line_width (dev.line 1).data) := by
    rw [max_def]
    split_ifs <;> omega
  unfold write_layout
  dsimp only
  rw [hm]
  generalize max (line_width (dev.line 0).data) (line_width (dev.line 1).data) = m
  by_cases hm16 : m ≤ 16
  · rw [if_pos hm16, if_pos hm16]
  · rw [if_neg hm16, if_neg hm16]

/-- The offset of a row of width `w` and speed `floor(256 w / (2 m))` stays
below `w` while the scroll position is below `2 m`, and is half the scroll
position for a row of width `m`. -/
theorem offset_bound (s w m : Int) (hs : 0 ≤ s) (hlt : s < 2 * m) (hw : 16 < w)
    (hwm : w ≤ m) :
    s * (256 * w / (2 * m)) / 256 < w ∧ (w = m → s * (256 * w / (2 * m)) / 256 = s / 2) := by
  have hm : 0 < 2 * m := by omega
  have hq0 : 0 ≤ 256 * w / (2 * m) := Int.ediv_nonneg (by omega) (by omega)
  have hq : 256 * w / (2 * m) * (2 * m) ≤ 256 * w := Int.ediv_mul_le _ (by omega)
  refine ⟨?_, ?_⟩
  · apply Int.ediv_lt_of_lt_mul (by decide)
    have h1 : s * (256 * w / (2 * m)) ≤ (2 * m - 1) * (256 * w / (2 * m)) :=
      Int.mul_le_mul_of_nonneg_right (by omega) hq0
    by_cases hz : 256 * w / (2 * m) = 0
    · rw [hz, Int.mul_zero]
      omega
    · have hq1 : 1 ≤ 256 * w / (2 * m) := by omega
      nlinarith
  · intro e
    subst e
    have e1 : 256 * w = 128 * (2 * w) := by ring
    rw [e1, Int.mul_ediv_cancel _ (by omega)]
    have e2 : (256 : Int) = 2 * 128 := by decide
    rw [e2]
    exact Int.mul_ediv_mul_of_pos_left s 2 (by decide)

/-- The offsets of the layout during an animation cycle. -/
theorem write_layout_offset (dev : Dev) (s : Int) (hs : 0 ≤ s)
    (hlt : s < (write_layout dev).scrollmax) (y : Fin 2) :
    s * (((write_layout dev).line y).speed : Int) / 256 < ((write_layout dev).line y).width ∧
    (((write_layout dev).line y).width =
        max ((write_layout dev).line 0).width ((write_layout dev).line 1).width →
      s * (((write_layout dev).line y).speed : Int) / 256 = s / 2) := by
  have b0 := line_width_bounds (dev.line 0).data
  have b1 := line_width_bounds (dev.line 1).data
  have by1 := line_width_bounds (dev.line y).data
  have hy : line_width (dev.line y).data ≤
      max (line_width (dev.line 0).data) (line_width (dev.line 1).data) := by
    rcases fin2_cases y with h | h <;> subst h
    · exact le_max_left _ _
    · exact le_max_right _ _
  have hmax : max (line_width (dev.line 0).data) (line_width (dev.line 1).data) ≤ 81 :=
    max_le b0.2 b1.2
  rw [write_layout_scrollmax] at hlt
  rw [write_layout_speed, write_layout_width, write_layout_width, write_layout_width]
  generalize max (line_width (dev.line 0).data) (line_width (dev.line 1).data) = m
    at hy hmax hlt ⊢
  generalize line_width (dev.line y).data = w at hy by1 ⊢
  by_cases hm16 : m ≤ 16
  · rw [if_pos hm16] at hlt
    omega
  · rw [if_neg hm16] at hlt
    have h2m : s < 2 * m := by
      unfold to_char at hlt
      omega
    unfold ref_speed
    by_cases hw : w ≤ 16
    · rw [if_pos hw, Int.mul_zero, Int.zero_ediv]
      exact ⟨by omega, fun e => by omega⟩
    · rw [if_neg hw]
      exact offset_bound s w m hs h2m (by omega) hy

/-- C25.  After every `alt_lcd_16207_write`, for every scroll position `s`
with `0 ≤ s < scrollmax` and every row: the offset `(s * speed) >> 8` is
below the row's width, so `lcd_repaint_screen` called with that scroll
position does not reset the offset to 0; and for a row of the largest width
the offset is `floor(s / 2)`. -/
theorem C25_offset_in_row (busy : Nat → Bool) (dev : Dev) (bytes : List Nat)
    (r : Dev × Nat) (h : alt_lcd_16207_write busy dev bytes = some r)
    (s : Int) (hs : 0 ≤ s) (hlt : s < r.1.scrollmax) (y : Fin 2) :
    s * ((r.1.line y).speed : Int) / 256 < (r.1.line y).width ∧
    row_offset { r.1 with scrollpos := s } y = s * ((r.1.line y).speed : Int) / 256 ∧
    ((r.1.line y).width = max (r.1.line 0).width (r.1.line 1).width →
      s * ((r.1.line y).speed : Int) / 256 = s / 2) := by
  obtain ⟨p, m, hp, hm, e⟩ := alt_lcd_16207_write_parts busy dev bytes r h
  subst e
  have f := (lcd_repaint_screen_spec busy _ m hm).1
  have hl := f.2.2.2.2.2.2.2.2.1
  have hM : m.scrollmax = (write_layout p).scrollmax := f.2.2.2.2.1
  have t := write_layout_offset p s hs (by rw [← hM]; exact hlt) y
  show s * ((m.line y).speed : Int) / 256 < (m.line y).width ∧
    row_offset { ({ m with active := false } : Dev) with scrollpos := s } y =
      s * ((m.line y).speed : Int) / 256 ∧
    ((m.line y).width = max (m.line 0).width (m.line 1).width →
      s * ((m.line y).speed : Int) / 256 = s / 2)
  have hlt2 : s * ((m.line y).speed : Int) / 256 < (m.line y).width := by
    rw [(hl y).2.2, (hl y).2.1]
    exact t.1
  refine ⟨hlt2, ?_, ?_⟩
  · unfold row_offset
    show (if s * ((m.line y).speed : Int) / 256 ≥ (m.line y).width then 0
      else s * ((m.line y).speed : Int) / 256) = _
    rw [if_neg (by omega)]
  · rw [(hl y).2.2, (hl y).2.1, (hl 0).2.1, (hl 1).2.1]
    exact t.2

/-- C25 at a concrete input: a line of 20 characters over a line of 18,
written to the initialised display, at the last scroll position 41 of the
cycle and for row 1. -/
theorem C25_witness :
    ∃ r, alt_lcd_16207_write ready fresh
        (List.replicate 20 97 ++ [13, 10] ++ List.replicate 18 98) = some r ∧
      (0 : Int) ≤ 41 ∧ 41 < r.1.scrollmax ∧
      41 * ((r.1.line 1).speed : Int) / 256 < (r.1.line 1).width ∧
      row_offset { r.1 with scrollpos := 41 } 1 = 41 * ((r.1.line 1).speed : Int) / 256 := by
  obtain ⟨r, h⟩ := Option.isSome_iff_exists.1
    (show (alt_lcd_16207_write ready fresh
      (List.replicate 20 97 ++ [13, 10] ++ List.replicate 18 98)).isSome = true by decide!)
  have e : (alt_lcd_16207_write ready fresh
      (List.replicate 20 97 ++ [13, 10] ++ List.replicate 18 98)).map
      (fun r => r.1.scrollmax) = some 42 := by decide!
  rw [h] at e
  have e2 : r.1.scrollmax = 42 := Option.some.inj e
  have t := C25_offset_in_row ready fresh
    (List.replicate 20 97 ++ [13, 10] ++ List.replicate 18 98) r h 41 (by decide)
    (by rw [e2]; decide) 1
  exact ⟨r, h, by decide, by rw [e2]; decide, t.1, t.2.1⟩

/-- The layout of the witness of C25, evaluated: widths 21 and 19, speeds 128
and 115, scroll period 42; at scroll position 41 the offsets are 20 and
18. -/
theorem C25_evaluated :
    (alt_lcd_16207_write ready fresh
        (List.replicate 20 97 ++ [13, 10] ++ List.replicate 18 98)).map
      (fun r => ((r.1.line 0).width, (r.1.line 1).width, (r.1.line 0).speed,
        (r.1.line 1).speed, r.1.scrollmax)) = some (21, 19, 128, 115, 42) ∧
    (alt_lcd_16207_write ready fresh
        (List.replicate 20 97 ++ [13, 10] ++ List.replicate 18 98)).map
      (fun r => (41 * ((r.1.line 0).speed : Int) / 256,
        41 * ((r.1.line 1).speed : Int) / 256)) = some (20, 18) := by
  decide!

/-! ## C11: the write as a whole -/

/-- From a state within the driver's bounds, the parse loop can only be
undefined at a byte `K` that arrives inside an escape sequence with the cursor
on row 2, the blank row below the panel. -/
theorem write_parse_fails_only_at_K (busy : Nat → Bool) (bytes : List Nat) :
    ∀ dev : Dev, in_range dev → write_parse busy dev bytes = none →
      ∃ (pre post : List Nat) (d : Dev), bytes = pre ++ 75 :: post ∧
        write_parse busy dev pre = some d ∧ 0 ≤ d.esccount ∧ d.y = 2 := by
  induction bytes with
  | nil =>
    intro dev _ h
    exact Option.noConfusion h
  | cons c cs ih =>
    intro dev hi h
    cases h1 : write_byte busy dev c with
    | none =>
      have hk : ¬ (0 ≤ dev.esccount → c = 75 → dev.y < 2) := by
        intro hk
        obtain ⟨d, hd⟩ := write_byte_defined busy dev c hi.2.1 hk (fun _ => hi.1)
        rw [hd] at h1
        exact Option.noConfusion h1
      have h0 : 0 ≤ dev.esccount := by
        by_contra h0
        exact hk (fun h => absurd h h0)
      have hc : c = 75 := by
        by_contra hc
        exact hk (fun _ h => absurd h hc)
      have hy : dev.y = 2 := by
        have h2 : ¬ dev.y < 2 := fun h2 => hk (fun _ _ => h2)
        have h3 := hi.1
        omega
      exact ⟨[], cs, dev, by rw [hc]; rfl, rfl, h0, hy⟩
    | some d1 =>
      simp only [write_parse] at h
      rw [h1] at h
      have i1 : in_range d1 := ⟨write_byte_row busy dev d1 c hi.1 h1,
        (write_byte_parser_state busy dev d1 c hi.2.1 h1).2, by
          rw [(write_byte_keeps busy dev d1 c h1).1]
          exact hi.2.2⟩
      obtain ⟨pre, post, d, e, hp, h0, hy⟩ := ih d1 i1 h
      refine ⟨c :: pre, post, d, by rw [e]; rfl, ?_, h0, hy⟩
      simp only [write_parse]
      rw [h1]
      exact hp

/-- A write from a state within the driver's bounds returns unless its parse
loop meets a byte `K` inside an escape sequence with the cursor on row 2. -/
theorem alt_lcd_16207_write_fails_only_at_K (busy : Nat → Bool) (dev : Dev) (bytes : List Nat)
    (hi : in_range dev) (h : alt_lcd_16207_write busy dev bytes = none) :
    ∃ (pre post : List Nat) (d : Dev), bytes = pre ++ 75 :: post ∧
      write_parse busy { dev with active := true } pre = some d ∧ 0 ≤ d.esccount ∧ d.y = 2 := by
  cases h1 : write_parse busy { dev with active := true } bytes with
  | none => exact write_parse_fails_only_at_K busy bytes { dev with active := true } hi h1
  | some d1 =>
    have i1 := write_parse_in_range busy bytes { dev with active := true } d1 hi h1
    have hw : ∀ y : Fin 2, 0 < ((write_layout d1).line y).width ∧
        ((write_layout d1).line y).width ≤ 81 := by
      intro y
      rw [write_layout_width]
      have := line_width_bounds (d1.line y).data
      omega
    obtain ⟨d2, e2, _⟩ := lcd_repaint_screen_some busy (write_layout d1) hw (by
      rw [write_layout_scrollpos]; exact i1.2.2)
    unfold alt_lcd_16207_write at h
    rw [h1] at h
    simp only [Option.some_bind] at h
    rw [write_repaint_one, e2] at h
    exact Option.noConfusion h

/-- C11 fails on the code.  Written to the initialised display, the bytes
LF LF ESC `[` leave the cursor at column 0 of row 2 inside an escape sequence;
the byte `K` then makes `lcd_handle_escape` blank `line[2]`, a row that does
not exist, so `alt_lcd_16207_write` of LF LF ESC `[` `K` is undefined and
returns no count, whatever the busy bit does.  The same command with the
cursor on row 1, LF ESC `[` `K`, returns 4, the number of bytes, with every
two behaviours of the busy bit, and the two runs end with the same terminal
model. -/
theorem C11_write_undefined_at_K (busy1 busy2 : Nat → Bool) :
    (write_parse ready fresh [10, 10, 27, 91]).map
      (fun d => (d.x, d.y, d.esccount)) = some (0, 2, 1) ∧
    alt_lcd_16207_write busy1 fresh [10, 10, 27, 91, 75] = none ∧
    alt_lcd_16207_write busy2 fresh [10, 10, 27, 91, 75] = none ∧
    (∃ r1 r2, alt_lcd_16207_write busy1 fresh [10, 27, 91, 75] = some r1 ∧
      alt_lcd_16207_write busy2 fresh [10, 27, 91, 75] = some r2 ∧
      r1.2 = 4 ∧ r2.2 = 4 ∧ same_model r1.1 r2.1) := by
  have hn : alt_lcd_16207_write ready fresh [10, 10, 27, 91, 75] = none :=
    Option.isNone_iff_eq_none.1 (by decide!)
  have hf : ∀ busy : Nat → Bool, alt_lcd_16207_write busy fresh [10, 10, 27, 91, 75] = none := by
    intro busy
    have hb := alt_lcd_16207_write_same busy ready fresh fresh [10, 10, 27, 91, 75]
      (same_model_refl fresh)
    rw [hn] at hb
    cases h : alt_lcd_16207_write busy fresh [10, 10, 27, 91, 75] with
    | none => rfl
    | some r =>
      rw [h] at hb
      exact hb.elim
  obtain ⟨r0, h0⟩ := Option.isSome_iff_exists.1 (by decide! :
    (alt_lcd_16207_write ready fresh [10, 27, 91, 75]).isSome = true)
  have hs : ∀ busy : Nat → Bool, ∃ r, alt_lcd_16207_write busy fresh [10, 27, 91, 75] = some r := by
    intro busy
    have hb := alt_lcd_16207_write_same busy ready fresh fresh [10, 27, 91, 75]
      (same_model_refl fresh)
    rw [h0] at hb
    cases h : alt_lcd_16207_write busy fresh [10, 27, 91, 75] with
    | none =>
      rw [h] at hb
      exact hb.elim
    | some r => exact ⟨r, rfl⟩
  obtain ⟨r1, h1⟩ := hs busy1
  obtain ⟨r2, h2⟩ := hs busy2
  have hb := alt_lcd_16207_write_same busy1 busy2 fresh fresh [10, 27, 91, 75]
    (same_model_refl fresh)
  rw [h1, h2] at hb
  exact ⟨by decide!, hf busy1, hf busy2, r1, r2, h1, h2,
    (alt_lcd_16207_write_count busy1 fresh _ r1 h1).1,
    (alt_lcd_16207_write_count busy2 fresh _ r2 h2).1, hb⟩

end Lcd16207
